import Mathlib

set_option linter.unusedTactic false

/-!
Verification development for the vitalfi-backend event-ingestion and
indexing engine.

The definitions below are a shallow embedding of the TypeScript sources:

* src/lib/normalize.ts   — status mapping, DTO construction, activity DTOs
* src/lib/keys.ts        — key-space builders for the KV store
* src/lib/kv.ts          — the KV store primitives (get/set/sadd/zadd/zrem,
                           setnx, zrevrangebyscore) modelled over association
                           lists
* src/api/webhooks/helius.ts — the webhook ingest handler (processItem)
* src/api/vaults.ts      — the paginated vaults query handler

JavaScript bigint counters are modelled as Nat (the DTOs store them as
decimal strings of unsigned on-chain u64/u128 values; arithmetic in the
source is exact bigint arithmetic, never floating point).  Wall-clock reads
(Date.now) are modelled by an explicit parameter.  DTO fields that no
verified property touches (derived token account, ids, timestamps mirrored
as ISO strings, APY, caps, bumps) are omitted from the record models;
every field that any modelled branch reads or writes is present.
-/

namespace VitalFi

/-! ### Association-list primitives

The Redis value space is modelled with association lists used as maps:
insertion replaces in place, so re-writing an existing binding with the
same value is the identity. -/

/-- Lookup in an association list (first binding wins). -/
def alookup {β : Type} : List (String × β) → String → Option β
  | [], _ => none
  | (k', v) :: rest, k => if k = k' then some v else alookup rest k

/-- Insert or replace a binding, in place. -/
def aset {β : Type} : List (String × β) → String → β → List (String × β)
  | [], k, v => [(k, v)]
  | (k', v') :: rest, k, v =>
      if k = k' then (k, v) :: rest else (k', v') :: aset rest k v

/-- Remove a binding. -/
def adel {β : Type} : List (String × β) → String → List (String × β)
  | [], _ => []
  | (k', v') :: rest, k =>
      if k = k' then adel rest k else (k', v') :: adel rest k

/-- Membership-set add: append the member if it is not already present
(models Redis SADD). -/
def slistAdd (s : List String) (m : String) : List String :=
  if m ∈ s then s else s ++ [m]

/-! ### Data model (src/types/dto.ts, src/lib/anchor.ts)

VaultStatus is the closed string set of dto.ts together with the value
"Closed" which the closeVault handler writes at runtime. -/

inductive VaultStatus where
  | Funding | Active | Matured | Canceled | Closed
  deriving DecidableEq, Repr

/-- Decoded vault status variants (anchor.ts, DecodedVault.status:
funding / active / canceled / matured / closed). -/
inductive DecodedStatus where
  | funding | active | canceled | matured | closed
  deriving DecidableEq, Repr

/-- Cached vault record (VaultDTO). -/
structure VaultDTO where
  vaultPda : String
  authority : String
  assetMint : Option String
  status : VaultStatus
  totalDeposited : Option Nat
  totalClaimed : Option Nat
  payoutNum : Option Nat
  payoutDen : Option Nat
  slot : Option Nat
  updatedAtEpoch : Nat
  deriving DecidableEq, Repr

/-- Cached position record (PositionDTO). -/
structure PositionDTO where
  positionPda : String
  vaultPda : String
  owner : String
  deposited : Option Nat
  claimed : Option Nat
  slot : Option Nat
  updatedAtEpoch : Nat
  deriving DecidableEq, Repr

/-- Decoded on-chain vault account (anchor.ts DecodedVault, the fields the
handler reads). asset_mint none models PublicKey.default. -/
structure DecodedVault where
  authority : String
  asset_mint : Option String
  status : DecodedStatus
  total_deposited : Nat
  total_claimed : Nat
  payout_num : Nat
  payout_den : Nat
  deriving DecidableEq, Repr

/-- Decoded on-chain position account (anchor.ts DecodedPosition). -/
structure DecodedPosition where
  vault : String
  owner : String
  deposited : Nat
  claimed : Nat
  deriving DecidableEq, Repr

/-- Closed activity-type enum (dto.ts ActivityType). -/
inductive ActivityType where
  | deposit | claim | funding_finalized | authority_withdraw
  | matured | canceled | vault_created | position_created
  deriving DecidableEq, Repr

/-- Stored activity record (ActivityDTO; the id string is omitted, it is
a pure function of txSig, type and slot). -/
structure ActivityDTO where
  txSig : String
  slot : Nat
  blockTimeEpoch : Option Nat
  type : ActivityType
  vaultPda : Option String
  positionPda : Option String
  authority : Option String
  owner : Option String
  amount : Option Nat
  assetMint : Option String
  deriving DecidableEq, Repr

/-! ### Constants (src/lib/constants.ts) -/

/-- Maximum number of members loaded through the SET fallback. -/
def MAX_SET_SIZE : Nat := 1000

/-- Warning threshold for SET fallback usage. -/
def SET_WARNING_THRESHOLD : Nat := 100

/-! ### Normalizer (src/lib/normalize.ts)

Each mapper also returns whether it emitted a log/warning, so that the
observable logging behaviour of the source is part of the model. -/

/-- Map of the decoded vault status variants to DTO strings
(normalize.ts mapVaultStatus).  The source checks the funding, active,
canceled and matured variants and then falls through to the default
(there is no branch for the closed variant and no log call anywhere in
the function, so the warning component is false on every path). -/
def mapVaultStatus (s : DecodedStatus) : VaultStatus × Bool :=
  match s with
  | .funding => (.Funding, false)
  | .active => (.Active, false)
  | .canceled => (.Canceled, false)
  | .matured => (.Matured, false)
  | .closed => (.Funding, false)

/-- JavaScript truthiness fallback for numbers: o || d (note 0 is falsy). -/
def truthyOr (o : Option Nat) (d : Nat) : Nat :=
  match o with
  | some t => if t = 0 then d else t
  | none => d

/-- Convert a decoded vault to a DTO (normalize.ts toVaultDTO). The
updatedAtEpoch is blockTime || now. -/
def toVaultDTO (pda : String) (d : DecodedVault) (slot : Nat)
    (blockTime : Option Nat) (now : Nat) : VaultDTO :=
  { vaultPda := pda
    authority := d.authority
    assetMint := d.asset_mint
    status := (mapVaultStatus d.status).1
    totalDeposited := some d.total_deposited
    totalClaimed := some d.total_claimed
    payoutNum := some d.payout_num
    payoutDen := some d.payout_den
    slot := some slot
    updatedAtEpoch := truthyOr blockTime now }

/-- Convert a decoded position to a DTO (normalize.ts toPositionDTO). -/
def toPositionDTO (pda : String) (p : DecodedPosition) (slot : Nat)
    (blockTime : Option Nat) (now : Nat) : PositionDTO :=
  { positionPda := pda
    vaultPda := p.vault
    owner := p.owner
    deposited := some p.deposited
    claimed := some p.claimed
    slot := some slot
    updatedAtEpoch := truthyOr blockTime now }

/-- Instruction-name to activity-type table (normalize.ts ACTION_TYPE_MAP). -/
def ACTION_TYPE_MAP (action : String) : Option ActivityType :=
  if action = "initializeVault" then some .vault_created
  else if action = "deposit" then some .deposit
  else if action = "claim" then some .claim
  else if action = "finalizeFunding" then some .funding_finalized
  else if action = "matureVault" then some .matured
  else if action = "cancelVault" then some .canceled
  else if action = "authorityWithdraw" then some .authority_withdraw
  else none

/-- Context argument of toActivityDTO. -/
structure ActivityCtx where
  txSig : String
  slot : Nat
  blockTime : Option Nat
  vaultPda : Option String
  positionPda : Option String
  authority : Option String
  owner : Option String
  amount : Option Nat
  assetMint : Option String
  deriving DecidableEq, Repr

/-- Convert an action and context to an activity DTO
(normalize.ts toActivityDTO).  An unknown action is logged (console.warn,
the Bool component) and defaulted to vault_created. -/
def toActivityDTO (action : String) (ctx : ActivityCtx) : ActivityDTO × Bool :=
  let t := ACTION_TYPE_MAP action
  ({ txSig := ctx.txSig
     slot := ctx.slot
     blockTimeEpoch := ctx.blockTime
     type := t.getD .vault_created
     vaultPda := ctx.vaultPda
     positionPda := ctx.positionPda
     authority := ctx.authority
     owner := ctx.owner
     amount := ctx.amount
     assetMint := ctx.assetMint }, t.isNone)

/-! ### Keyspace (src/lib/keys.ts)

The typed sub-stores of the KV model below are each one disjoint key
family of keys.ts (vault:{pda}:json, position:{pda}:json,
activity:{sig}:{type}:{slot}, vaults:set, authority:{pk}:vaults,
owner:{pk}:positions, the by_updated ordered indices, and the
vault/owner activity timelines); the families never collide because
their literal prefixes differ and base58 keys cannot contain a colon.
The status-partitioned authority index is keyed here by the pair
(authority, status?), mirroring kAuthorityVaultsByUpdated(authority,
status?). -/

/-- DTO string of an activity type (dto.ts). -/
def activityTypeString : ActivityType → String
  | .deposit => "deposit"
  | .claim => "claim"
  | .funding_finalized => "funding_finalized"
  | .authority_withdraw => "authority_withdraw"
  | .matured => "matured"
  | .canceled => "canceled"
  | .vault_created => "vault_created"
  | .position_created => "position_created"

/-- Activity blob key (keys.ts kActivity): activity:{txSig}:{type}:{slot}. -/
def kActivity (txSig : String) (t : ActivityType) (slot : Nat) : String :=
  "activity:" ++ txSig ++ ":" ++ activityTypeString t ++ ":" ++ toString slot

/-! ### KV store model (src/lib/kv.ts)

A sorted set is an association list from member to score; ZADD
inserts-or-updates, ZREM removes, and range queries sort on demand. -/

/-- A Redis sorted set: member to score. -/
abbrev Zset : Type := List (String × Nat)

/-- The stored state: one component per key family. -/
structure KV where
  vaults : List (String × VaultDTO)
  positions : List (String × PositionDTO)
  activities : List (String × ActivityDTO)
  vaultsSet : List String
  authorityVaults : List (String × List String)
  ownerPositions : List (String × List String)
  authorityVaultsByUpdated : List ((String × Option VaultStatus) × Zset)
  ownerPositionsByUpdated : List (String × Zset)
  vaultActivity : List (String × Zset)
  ownerActivity : List (String × Zset)
  deriving DecidableEq

/-- Lookup in an association list with an arbitrary key type. -/
def plookup {κ β : Type} [DecidableEq κ] : List (κ × β) → κ → Option β
  | [], _ => none
  | (k', v) :: rest, k => if k = k' then some v else plookup rest k

/-- Insert or replace in an association list with an arbitrary key type. -/
def pset {κ β : Type} [DecidableEq κ] : List (κ × β) → κ → β → List (κ × β)
  | [], k, v => [(k, v)]
  | (k', v') :: rest, k, v =>
      if k = k' then (k, v) :: rest else (k', v') :: pset rest k v

/-- ZADD on one sorted set (score update in place). -/
def zsetAdd (z : Zset) (score : Nat) (member : String) : Zset :=
  aset z member score

/-- ZREM on one sorted set. -/
def zsetRem (z : Zset) (member : String) : Zset :=
  adel z member

/-- ZADD into the per-authority vault index. -/
def zaddAuth (st : KV) (authority : String) (status : Option VaultStatus)
    (score : Nat) (member : String) : KV :=
  let z := (plookup st.authorityVaultsByUpdated (authority, status)).getD []
  let l := pset st.authorityVaultsByUpdated (authority, status) (zsetAdd z score member)
  { st with authorityVaultsByUpdated := l }

/-- ZREM from the per-authority vault index (missing key: no-op). -/
def zremAuth (st : KV) (authority : String) (status : Option VaultStatus)
    (member : String) : KV :=
  match plookup st.authorityVaultsByUpdated (authority, status) with
  | none => st
  | some z =>
      let l := pset st.authorityVaultsByUpdated (authority, status) (zsetRem z member)
      { st with authorityVaultsByUpdated := l }

/-- ZADD into the per-owner position index. -/
def zaddOwnerPositions (st : KV) (owner : String) (score : Nat)
    (member : String) : KV :=
  let z := (alookup st.ownerPositionsByUpdated owner).getD []
  let l := aset st.ownerPositionsByUpdated owner (zsetAdd z score member)
  { st with ownerPositionsByUpdated := l }

/-- ZADD into a vault activity timeline. -/
def zaddVaultActivity (st : KV) (vaultPda : String) (score : Nat)
    (member : String) : KV :=
  let z := (alookup st.vaultActivity vaultPda).getD []
  { st with vaultActivity := aset st.vaultActivity vaultPda (zsetAdd z score member) }

/-- ZADD into an owner activity timeline. -/
def zaddOwnerActivity (st : KV) (owner : String) (score : Nat)
    (member : String) : KV :=
  let z := (alookup st.ownerActivity owner).getD []
  { st with ownerActivity := aset st.ownerActivity owner (zsetAdd z score member) }

/-- SADD into the per-authority vault membership set. -/
def saddAuthorityVaults (st : KV) (authority : String) (member : String) : KV :=
  let s := (alookup st.authorityVaults authority).getD []
  { st with authorityVaults := aset st.authorityVaults authority (slistAdd s member) }

/-- SADD into the per-owner position membership set. -/
def saddOwnerPositions (st : KV) (owner : String) (member : String) : KV :=
  let s := (alookup st.ownerPositions owner).getD []
  { st with ownerPositions := aset st.ownerPositions owner (slistAdd s member) }

/-! ### Webhook ingest (src/api/webhooks/helius.ts)

One webhook item carries the transaction signature, the slot, an optional
block time, the transaction account keys together with the chain-state
fetch outcome for each (getMultipleAccounts + filterProgramAccounts +
decodeAccounts collapsed into one constructor per account), and the
actions extracted from the log messages (extractActionsFromLogs). -/

/-- Chain-state fetch and decode outcome for one transaction account key. -/
inductive FetchResult where
  /-- RPC returned null: the account does not exist (deleted/closed). -/
  | absent
  /-- The account exists but is not owned by the program (or has no data),
  so filterProgramAccounts drops it. -/
  | nonProgram
  /-- Program-owned account whose bytes decode as neither Vault nor
  Position (decodeAccounts skips it). -/
  | undecodable
  /-- Program-owned account that decodes as a Vault. -/
  | vault (d : DecodedVault)
  /-- Program-owned account that decodes as a Position. -/
  | position (p : DecodedPosition)
  deriving DecidableEq, Repr

/-- One validated webhook item. -/
structure IngestEvent where
  signature : String
  slot : Nat
  blockTime : Option Nat
  accounts : List (String × FetchResult)
  actions : List String
  deriving DecidableEq, Repr

/-- A successfully decoded program account. -/
inductive DecodedAccount where
  | vault (pda : String) (d : DecodedVault)
  | position (pda : String) (p : DecodedPosition)
  deriving DecidableEq, Repr

/-- Accounts surviving filterProgramAccounts. -/
def programAccounts (e : IngestEvent) : List (String × FetchResult) :=
  e.accounts.filter fun a =>
    match a.2 with
    | .undecodable => true
    | .vault _ => true
    | .position _ => true
    | _ => false

/-- Output of decodeAccounts on the program accounts. -/
def decodedOf (e : IngestEvent) : List DecodedAccount :=
  e.accounts.filterMap fun a =>
    match a.2 with
    | .vault d => some (.vault a.1 d)
    | .position p => some (.position a.1 p)
    | _ => none

/-- Account keys whose chain-state fetch returned null
(the potential deleted vault / position keys). -/
def absentKeys (e : IngestEvent) : List String :=
  e.accounts.filterMap fun a => if a.2 = .absent then some a.1 else none

/-- Settlement amount for a claim that closes a position
(helius.ts, claim-with-position-closure): full refund when the parent
vault is Canceled, otherwise floor(deposited * payoutNum / payoutDen) in
exact integer arithmetic when a ratio with a positive denominator is
available, otherwise the deposited amount. -/
def claimAmountOf (deposited : Nat) (vault : Option VaultDTO) : Nat :=
  match vault with
  | some v =>
      if v.status = .Canceled then deposited
      else
        match v.payoutNum, v.payoutDen with
        | some num, some den => if den > 0 then deposited * num / den else deposited
        | _, _ => deposited
  | none => deposited

/-- One step of the closeVault deleted-account loop (helius.ts): for an
absent account key whose cached vault is Canceled or Matured, write the
synthesized Closed snapshot, reindex, and create the closeVault activity. -/
def closeVaultStep (sig : String) (slot : Nat) (blockTime : Option Nat)
    (now : Nat) (acc : KV × Nat) (vaultPda : String) : KV × Nat :=
  let (st, acts) := acc
  match alookup st.vaults vaultPda with
  | none => (st, acts)
  | some existing =>
      if existing.status = .Canceled ∨ existing.status = .Matured then
        let closedVault : VaultDTO :=
          { existing with status := .Closed, slot := some slot,
                          updatedAtEpoch := blockTime.getD now }
        let st1 := { st with vaults := aset st.vaults vaultPda closedVault }
        let st2 := zaddAuth st1 closedVault.authority none closedVault.updatedAtEpoch vaultPda
        let st3 := zaddAuth st2 closedVault.authority (some .Closed) closedVault.updatedAtEpoch vaultPda
        let st4 := zremAuth st3 closedVault.authority (some existing.status) vaultPda
        let dto := (toActivityDTO "closeVault"
          { txSig := sig, slot := slot, blockTime := blockTime,
            vaultPda := some vaultPda, positionPda := none,
            authority := some closedVault.authority, owner := none,
            amount := none, assetMint := closedVault.assetMint }).1
        let akey := kActivity sig dto.type slot
        match alookup st4.activities akey with
        | some _ => (st4, acts)
        | none =>
            let st5 := { st4 with activities := aset st4.activities akey dto }
            let score := truthyOr dto.blockTimeEpoch slot
            let st6 :=
              match dto.vaultPda with
              | some v => zaddVaultActivity st5 v score akey
              | none => st5
            (st6, acts + 1)
      else (st, acts)

/-- One step of the claim deleted-position loop (helius.ts): for an absent
account key whose cached position has deposited > 0, settle the claim from
the cached parent vault, rewrite the position, reindex, and create the
claim activity. -/
def claimStep (sig : String) (slot : Nat) (blockTime : Option Nat)
    (now : Nat) (acc : KV × Nat) (positionPda : String) : KV × Nat :=
  let (st, acts) := acc
  match alookup st.positions positionPda with
  | none => (st, acts)
  | some existing =>
      match existing.deposited with
      | none => (st, acts)
      | some dep =>
          if dep > 0 then
            let vault := alookup st.vaults existing.vaultPda
            let amt := claimAmountOf dep vault
            let claimedPosition : PositionDTO :=
              { existing with claimed := some amt, slot := some slot,
                              updatedAtEpoch := blockTime.getD now }
            let st1 := { st with positions := aset st.positions positionPda claimedPosition }
            let st2 := zaddOwnerPositions st1 claimedPosition.owner claimedPosition.updatedAtEpoch positionPda
            let dto := (toActivityDTO "claim"
              { txSig := sig, slot := slot, blockTime := blockTime,
                vaultPda := some existing.vaultPda, positionPda := some positionPda,
                authority := vault.map (·.authority), owner := some existing.owner,
                amount := some amt, assetMint := vault.bind (·.assetMint) }).1
            let akey := kActivity sig dto.type slot
            match alookup st2.activities akey with
            | some _ => (st2, acts)
            | none =>
                let st3 := { st2 with activities := aset st2.activities akey dto }
                let score := truthyOr dto.blockTimeEpoch slot
                let st4 :=
                  match dto.vaultPda with
                  | some v => zaddVaultActivity st3 v score akey
                  | none => st3
                let st5 :=
                  match dto.owner with
                  | some o => zaddOwnerActivity st4 o score akey
                  | none => st4
                (st5, acts + 1)
          else (st, acts)

/-- One step of the decoded-account loop (helius.ts): normalize the decode
to a DTO, apply the stale-slot monotonicity gate against the pre-loop
snapshot map (oldVaults / oldPositions, fetched before the loop), and queue
the primary upsert, membership-set add, ordered-index upserts and the
superseded per-status index removal. -/
def decodedStep (slot : Nat) (blockTime : Option Nat) (now : Nat)
    (snap : KV) (st : KV) (item : DecodedAccount) : KV :=
  match item with
  | .vault pda d =>
      let dto := toVaultDTO pda d slot blockTime now
      let existingVault := alookup snap.vaults pda
      let stale :=
        match existingVault with
        | some ev =>
            match ev.slot, dto.slot with
            | some s, some s' => decide (s' < s)
            | _, _ => false
        | none => false
      if stale then st
      else
        let st1 := { st with vaults := aset st.vaults pda dto }
        let st2 := { st1 with vaultsSet := slistAdd st1.vaultsSet pda }
        let st3 := saddAuthorityVaults st2 dto.authority pda
        let st4 := zaddAuth st3 dto.authority none dto.updatedAtEpoch pda
        let st5 := zaddAuth st4 dto.authority (some dto.status) dto.updatedAtEpoch pda
        match existingVault with
        | some ev =>
            if ev.status ≠ dto.status then
              zremAuth st5 dto.authority (some ev.status) pda
            else st5
        | none => st5
  | .position pda p =>
      let dto := toPositionDTO pda p slot blockTime now
      let existingPosition := alookup snap.positions pda
      let stale :=
        match existingPosition with
        | some ep =>
            match ep.slot, dto.slot with
            | some s, some s' => decide (s' < s)
            | _, _ => false
        | none => false
      if stale then st
      else
        let st1 := { st with positions := aset st.positions pda dto }
        let st2 := saddOwnerPositions st1 dto.owner pda
        zaddOwnerPositions st2 dto.owner dto.updatedAtEpoch pda

/-- Activity amount contribution of the decoded vault (helius.ts, the
amount-delta block): with a cached pre-mutation snapshot, the counter
delta clamped to the prior amount when not positive; without one, the new
total for deposit-like actions (only when positive). -/
def vaultActivityAmount (action : String) (oldVault : Option VaultDTO)
    (nv : DecodedVault) (amount : Option Nat) : Option Nat :=
  match oldVault with
  | some ov =>
      if action = "deposit" ∨ action = "initializeVault" then
        let delta : Int := (nv.total_deposited : Int) - (ov.totalDeposited.getD 0 : Int)
        if delta > 0 then some delta.toNat else amount
      else if action = "claim" then
        let delta : Int := (nv.total_claimed : Int) - (ov.totalClaimed.getD 0 : Int)
        if delta > 0 then some delta.toNat else amount
      else if action = "matureVault" then
        if nv.payout_num > 0 then some nv.payout_num else amount
      else amount
  | none =>
      if (action = "deposit" ∨ action = "initializeVault") ∧ nv.total_deposited > 0 then
        some nv.total_deposited
      else if action = "matureVault" ∧ nv.payout_num > 0 then
        some nv.payout_num
      else amount

/-- Activity amount contribution of the decoded position (helius.ts);
runs after the vault contribution and may override it. -/
def positionActivityAmount (action : String) (oldPosition : Option PositionDTO)
    (np : DecodedPosition) (amount : Option Nat) : Option Nat :=
  match oldPosition with
  | some op =>
      if action = "deposit" then
        let delta : Int := (np.deposited : Int) - (op.deposited.getD 0 : Int)
        if delta > 0 then some delta.toNat else amount
      else if action = "claim" then
        let delta : Int := (np.claimed : Int) - (op.claimed.getD 0 : Int)
        if delta > 0 then some delta.toNat else amount
      else amount
  | none =>
      if action = "deposit" ∧ np.deposited > 0 then some np.deposited
      else amount

/-- First decoded vault of the batch (decoded.find of the handler). -/
def vaultItemOf (decodedList : List DecodedAccount) : Option (String × DecodedVault) :=
  decodedList.findSome? fun i =>
    match i with
    | .vault pda d => some (pda, d)
    | _ => none

/-- First decoded position of the batch. -/
def positionItemOf (decodedList : List DecodedAccount) : Option (String × DecodedPosition) :=
  decodedList.findSome? fun i =>
    match i with
    | .position pda p => some (pda, p)
    | _ => none

/-- One step of the activity-creation loop over the extracted actions
(helius.ts): claim actions are skipped (handled by the deleted-position
loop), the amount is derived from the first decoded vault / position
against the pre-loop snapshot maps, and a single pipeline does the
create-if-absent of the activity blob together with unconditional ZADDs
into the vault and owner timelines. -/
def activityStep (sig : String) (slot : Nat) (blockTime : Option Nat)
    (decodedList : List DecodedAccount) (snap : KV)
    (acc : KV × Nat) (action : String) : KV × Nat :=
  if action = "claim" then acc
  else
    let (st, acts) := acc
    let vaultItem := vaultItemOf decodedList
    let positionItem := positionItemOf decodedList
    let assetMint : Option String :=
      match vaultItem with
      | some (_, d) => d.asset_mint
      | none => none
    let amount1 :=
      match vaultItem with
      | some (pda, d) => vaultActivityAmount action (alookup snap.vaults pda) d none
      | none => none
    let amount2 :=
      match positionItem with
      | some (pda, p) => positionActivityAmount action (alookup snap.positions pda) p amount1
      | none => amount1
    let dto := (toActivityDTO action
      { txSig := sig, slot := slot, blockTime := blockTime,
        vaultPda := vaultItem.map (·.1),
        positionPda := positionItem.map (·.1),
        authority := vaultItem.map (fun vi => vi.2.authority),
        owner := positionItem.map (fun pi => pi.2.owner),
        amount := amount2, assetMint := assetMint }).1
    let akey := kActivity sig dto.type slot
    let score := truthyOr dto.blockTimeEpoch slot
    let wasNew := (alookup st.activities akey).isNone
    let st1 := if wasNew then { st with activities := aset st.activities akey dto } else st
    let st2 :=
      match dto.vaultPda with
      | some v => zaddVaultActivity st1 v score akey
      | none => st1
    let st3 :=
      match dto.owner with
      | some o => zaddOwnerActivity st2 o score akey
      | none => st2
    (st3, if wasNew then acts + 1 else acts)

/-- Ingest of one validated webhook item (helius.ts handler body for one
transaction): skip when no program-owned account is present; otherwise
handle the closeVault deleted-account case, the claim deleted-position
case, the decoded-account upsert loop (gated against the pre-loop
snapshot), and the activity-creation loop.  Returns the new store and the
number of newly created activity records. -/
def processItem (st : KV) (e : IngestEvent) (now : Nat) : KV × Nat :=
  if (programAccounts e).isEmpty then (st, 0)
  else
    let decodedList := decodedOf e
    if "closeVault" ∈ e.actions ∧ decodedList.isEmpty then
      (absentKeys e).foldl (closeVaultStep e.signature e.slot e.blockTime now) (st, 0)
    else
      let acc1 :=
        if "claim" ∈ e.actions then
          (absentKeys e).foldl (claimStep e.signature e.slot e.blockTime now) (st, 0)
        else (st, 0)
      if decodedList.isEmpty then acc1
      else
        let snap := acc1.1
        let st2 := decodedList.foldl (decodedStep e.slot e.blockTime now snap) snap
        e.actions.foldl (activityStep e.signature e.slot e.blockTime decodedList snap) (st2, acc1.2)

/-! ### Vaults query (src/api/vaults.ts)

The handler resolves the per-authority ordered index (per-status when a
status filter is given) with an exclusive upper bound at the cursor and a
fetch of limit + 1 entries; if the index lookup throws, it falls back to
the unordered membership set with a hard size cap, client-side status
filtering and an in-memory descending sort.  The thrown/not-thrown outcome
of the index lookup is an explicit parameter of the model. -/

/-- Validated query parameters of GET /api/vaults. -/
structure VaultsQuery where
  authority : String
  status : Option VaultStatus
  cursor : Option Nat
  limit : Nat
  deriving DecidableEq, Repr

/-- Response of the vaults query: either the page body or the 503
retryable failure used when the fallback SET exceeds the cap. -/
inductive VaultsResult where
  | ok (items : List VaultDTO) (nextCursor : Option Nat) (total : Option Nat)
  | unavailable
  deriving DecidableEq, Repr

/-- The exclusive upper bound of the range query: strictly below the
cursor when one is given, unbounded (+inf) otherwise. -/
def cursorPred (cursor : Option Nat) (ms : String × Nat) : Bool :=
  match cursor with
  | some c => decide (ms.2 < c)
  | none => true

/-- ZREVRANGEBYSCORE with max bound (cursor (exclusive) or +inf), min
bound 0 (vacuous for Nat scores), and LIMIT 0 count: filter, sort by
score descending, take count, return members. -/
def zrevrangebyscore (z : Zset) (cursor : Option Nat) (count : Nat) : List String :=
  let inRange := z.filter (cursorPred cursor)
  let sorted := List.insertionSort (fun a b : String × Nat => b.2 ≤ a.2) inRange
  (sorted.take count).map (·.1)

/-- Page assembly shared by both branches of the handler (hasMore check,
truncation to limit, nextCursor from the last returned item, total only
when not paginated). -/
def pageOf (filtered : List VaultDTO) (limit : Nat) : VaultsResult :=
  let hasMore := decide (filtered.length > limit)
  let items := filtered.take limit
  let nextCursor :=
    if hasMore then
      match items.getLast? with
      | some it => some it.updatedAtEpoch
      | none => none
    else none
  .ok items nextCursor (if hasMore then none else some filtered.length)

/-- The SET fallback branch of the vaults handler (the catch block):
membership fetch, hard cap check, client-side status filter, in-memory
descending sort by updatedAtEpoch — the cursor is not applied in this
branch. -/
def vaultsFromSet (st : KV) (q : VaultsQuery) : VaultsResult :=
  let pdas := (alookup st.authorityVaults q.authority).getD []
  if pdas.length > MAX_SET_SIZE then .unavailable
  else
    let vaults := pdas.filterMap fun pda => alookup st.vaults pda
    let filtered :=
      match q.status with
      | some s => vaults.filter fun v => v.status = s
      | none => vaults
    let sorted := List.insertionSort
      (fun a b : VaultDTO => b.updatedAtEpoch ≤ a.updatedAtEpoch) filtered
    pageOf sorted q.limit

/-- The ordered-index branch of the vaults handler: resolve the (possibly
per-status) index with an exclusive bound at the cursor, fetching
limit + 1 entries; no client-side filter or sort. -/
def vaultsFromIndex (st : KV) (q : VaultsQuery) : VaultsResult :=
  let z := (plookup st.authorityVaultsByUpdated (q.authority, q.status)).getD []
  let pdas := zrevrangebyscore z q.cursor (q.limit + 1)
  let vaults := pdas.filterMap fun pda => alookup st.vaults pda
  pageOf vaults q.limit

/-- GET /api/vaults (vaults.ts handler, after validation).  zsetThrows
models whether the zrevrangebyscore call threw, in which case — and only
then — the catch block runs the SET fallback. -/
def vaultsQuery (st : KV) (q : VaultsQuery) (zsetThrows : Bool) : VaultsResult :=
  if zsetThrows then vaultsFromSet st q else vaultsFromIndex st q

/-! ### Specification-side definitions -/

/-- Settlement rule as the specification states it: full refund when the
parent subject is Canceled, else the floor of deposited times the payout
ratio when a ratio with a positive denominator is available, else the
deposited amount (exact integer arithmetic; Nat division is the floor). -/
def spec_settlement (deposited : Nat) (parent : Option VaultDTO) : Nat :=
  match parent with
  | none => deposited
  | some v =>
      if v.status = .Canceled then deposited
      else
        match v.payoutNum, v.payoutDen with
        | some num, some den =>
            if 0 < den then deposited * num / den else deposited
        | _, _ => deposited

/-- Score of a member in one per-authority ordered vault index. -/
def authScore (st : KV) (a : String) (s : Option VaultStatus) (m : String) :
    Option Nat :=
  alookup ((plookup st.authorityVaultsByUpdated (a, s)).getD []) m

/-- The quantities the stale-update theorem tracks for one vault pda:
its primary record, its score bindings in every per-authority ordered
index, and its membership in the global and per-authority sets, all
relative to the original store. -/
def UntouchedVault (st0 : KV) (pda : String) (st' : KV) : Prop :=
  alookup st'.vaults pda = alookup st0.vaults pda ∧
  (∀ a s, authScore st' a s pda = authScore st0 a s pda) ∧
  ((pda ∈ st'.vaultsSet) ↔ pda ∈ st0.vaultsSet) ∧
  (∀ a, (pda ∈ (alookup st'.authorityVaults a).getD []) ↔
        pda ∈ (alookup st0.authorityVaults a).getD [])

/-- Index-entry consistency: the member has a stored blob keyed by
itself whose epoch equals the entry's score and whose status matches the
partition of the index. -/
def indexEntryOK (st : KV) (statusF : Option VaultStatus) (ms : String × Nat) : Bool :=
  match alookup st.vaults ms.1 with
  | some v =>
      decide (v.vaultPda = ms.1) && decide (v.updatedAtEpoch = ms.2) &&
        (match statusF with
         | some σ => decide (v.status = σ)
         | none => true)
  | none => false

/-- Membership-set consistency: the member has a stored blob keyed by
itself. -/
def memberHasDTO (st : KV) (pda : String) : Bool :=
  match alookup st.vaults pda with
  | some v => decide (v.vaultPda = pda)
  | none => false

/-- Whether a member's stored status passes the filter (false when the
blob is missing). -/
def statusMatch (st : KV) (statusF : Option VaultStatus) (pda : String) : Bool :=
  match alookup st.vaults pda, statusF with
  | some v, some σ => decide (v.status = σ)
  | some _, none => true
  | none, _ => false

instance : IsTotal (String × Nat) (fun a b => b.2 ≤ a.2) :=
  ⟨fun a b => le_total b.2 a.2⟩

instance : IsTrans (String × Nat) (fun a b => b.2 ≤ a.2) :=
  ⟨fun _ _ _ h1 h2 => le_trans h2 h1⟩

instance : IsTotal VaultDTO (fun a b => b.updatedAtEpoch ≤ a.updatedAtEpoch) :=
  ⟨fun a b => le_total b.updatedAtEpoch a.updatedAtEpoch⟩

instance : IsTrans VaultDTO (fun a b => b.updatedAtEpoch ≤ a.updatedAtEpoch) :=
  ⟨fun _ _ _ h1 h2 => le_trans h2 h1⟩

/-- The DTOs reachable from a member list. -/
def dtosOf (st : KV) (ml : List String) : List VaultDTO :=
  ml.filterMap (alookup st.vaults)

def pagVault (p : String) (ep : Nat) : VaultDTO :=
  { vaultPda := p, authority := "A", assetMint := none, status := .Funding,
    totalDeposited := some 0, totalClaimed := some 0, payoutNum := none,
    payoutDen := none, slot := some 1, updatedAtEpoch := ep }

def pagStore : KV :=
  { vaults := [("v1", pagVault "v1" 500), ("v2", pagVault "v2" 400),
               ("v3", pagVault "v3" 300), ("v4", pagVault "v4" 200),
               ("v5", pagVault "v5" 100)],
    positions := [], activities := [], vaultsSet := [],
    authorityVaults := [("A", ["v3", "v1", "v5", "v2", "v4"])],
    ownerPositions := [],
    authorityVaultsByUpdated := [(("A", none),
      [("v1", 500), ("v2", 400), ("v3", 300), ("v4", 200), ("v5", 100)])],
    ownerPositionsByUpdated := [], vaultActivity := [], ownerActivity := [] }

/-- Score of a member under a string-keyed family of sorted sets
(missing key: empty set). -/
def zscore (store : List (String × Zset)) (k m : String) : Option Nat :=
  alookup ((alookup store k).getD []) m

/-- The quantities the stale-update theorem tracks for one position pda:
its primary record, its score bindings in every per-owner ordered index,
and its membership in the per-owner sets, relative to the original
store. -/
def UntouchedPosition (st0 : KV) (pda : String) (st' : KV) : Prop :=
  alookup st'.positions pda = alookup st0.positions pda ∧
  (∀ o, zscore st'.ownerPositionsByUpdated o pda =
        zscore st0.ownerPositionsByUpdated o pda) ∧
  (∀ o, (pda ∈ (alookup st'.ownerPositions o).getD []) ↔
        pda ∈ (alookup st0.ownerPositions o).getD [])

/-- Fixtures for the stale-update witness: a vault cached at version 210
and a position cached at version 300, both hit by decoded updates of an
event at version 150. -/
def c1Vlt : VaultDTO :=
  { vaultPda := "V", authority := "A", assetMint := none, status := .Funding,
    totalDeposited := some 9, totalClaimed := some 0, payoutNum := none,
    payoutDen := none, slot := some 210, updatedAtEpoch := 21 }

def c1Pos : PositionDTO :=
  { positionPda := "P", vaultPda := "W", owner := "O", deposited := some 5,
    claimed := some 0, slot := some 300, updatedAtEpoch := 30 }

def c1DV : DecodedVault :=
  { authority := "A", asset_mint := none, status := .funding,
    total_deposited := 1, total_claimed := 0, payout_num := 0, payout_den := 0 }

def c1DP : DecodedPosition :=
  { vault := "W", owner := "O", deposited := 6, claimed := 0 }

def c1Store : KV :=
  { vaults := [("V", c1Vlt)], positions := [("P", c1Pos)], activities := [],
    vaultsSet := ["V"], authorityVaults := [("A", ["V"])],
    ownerPositions := [("O", ["P"])],
    authorityVaultsByUpdated := [(("A", none), [("V", 21)])],
    ownerPositionsByUpdated := [("O", [("P", 30)])],
    vaultActivity := [], ownerActivity := [] }

def c1Event : IngestEvent :=
  { signature := "s", slot := 150, blockTime := some 15,
    accounts := [("V", .vault c1DV), ("P", .position c1DP)],
    actions := ["deposit"] }


/-- Key written by a decoded account item. -/
def itemKey : DecodedAccount → String
  | .vault pda _ => pda
  | .position pda _ => pda

/-- The decoded-vault stale-slot gate of the handler against a snapshot
store, as a Bool. -/
def staleVault (snap : KV) (pda : String) (slot : Nat) : Bool :=
  match alookup snap.vaults pda with
  | some ev =>
      match ev.slot with
      | some s => decide (slot < s)
      | none => false
  | none => false

/-- The decoded-position stale-slot gate against a snapshot store. -/
def stalePosition (snap : KV) (pda : String) (slot : Nat) : Bool :=
  match alookup snap.positions pda with
  | some ep =>
      match ep.slot with
      | some s => decide (slot < s)
      | none => false
  | none => false

/-- No decoded vault of the event is the parent vault of a cached
position at an absent account key (re-running the claim settlement is
then guaranteed to read the same parent-vault record). -/
def noClaimVaultInterference (st : KV) (e : IngestEvent) : Bool :=
  (absentKeys e).all fun P =>
    match alookup st.positions P with
    | some pos =>
        (decodedOf e).all fun item =>
          match item with
          | .vault pda _ => decide (pda ≠ pos.vaultPda)
          | .position _ _ => true
    | none => true

/-- State condition making one claimStep a no-op: the cached position at
the key already carries this event's settlement (claimed amount computed
from the current parent-vault record, the event slot and block time), its
score binding is already in the owner ordered index, and the claim
activity record already exists. -/
def ClaimFix (sig : String) (slot t : Nat) (s : KV) (P : String) : Prop :=
  ∀ pos, alookup s.positions P = some pos →
    ∀ dep, pos.deposited = some dep → 0 < dep →
      pos.claimed = some (claimAmountOf dep (alookup s.vaults pos.vaultPda)) ∧
      pos.slot = some slot ∧
      pos.updatedAtEpoch = t ∧
      zscore s.ownerPositionsByUpdated pos.owner P = some t ∧
      (alookup s.activities (kActivity sig .claim slot)).isSome = true

/-- State condition making one closeVaultStep a no-op: no cached vault at
the key is in a synthesizable (Canceled/Matured) status. -/
def CloseFix (s : KV) (P : String) : Prop :=
  ∀ v, alookup s.vaults P = some v →
    ¬(v.status = VaultStatus.Canceled ∨ v.status = VaultStatus.Matured)

/-- State condition making one decoded-vault write a no-op: either the
snapshot record is strictly newer (the stale gate skips), or the store
already contains exactly the writes of this event. -/
def VaultFix (slot t : Nat) (s : KV) (pda : String) (d : DecodedVault) : Prop :=
  (∃ v sv, alookup s.vaults pda = some v ∧ v.slot = some sv ∧ slot < sv) ∨
  (alookup s.vaults pda = some (toVaultDTO pda d slot (some t) 0) ∧
   pda ∈ s.vaultsSet ∧
   pda ∈ (alookup s.authorityVaults d.authority).getD [] ∧
   authScore s d.authority none pda = some t ∧
   authScore s d.authority (some (mapVaultStatus d.status).1) pda = some t)

/-- State condition making one decoded-position write a no-op. -/
def PositionFix (slot t : Nat) (s : KV) (pda : String) (p : DecodedPosition) : Prop :=
  (∃ q sq, alookup s.positions pda = some q ∧ q.slot = some sq ∧ slot < sq) ∨
  (alookup s.positions pda = some (toPositionDTO pda p slot (some t) 0) ∧
   pda ∈ (alookup s.ownerPositions p.owner).getD [] ∧
   zscore s.ownerPositionsByUpdated p.owner pda = some t)

/-- State condition making one decodedStep a no-op. -/
def DecodedFix (slot t : Nat) (s : KV) : DecodedAccount → Prop
  | .vault pda d => VaultFix slot t s pda d
  | .position pda p => PositionFix slot t s pda p

/-- State condition making one activityStep a no-op: the activity record
exists and the timeline score bindings already carry the block time. -/
def ActivityFix (sig : String) (slot t : Nat) (dl : List DecodedAccount)
    (s : KV) (action : String) : Prop :=
  action ≠ "claim" →
    ((alookup s.activities
        (kActivity sig ((ACTION_TYPE_MAP action).getD .vault_created) slot)).isSome
          = true ∧
     (∀ pda d, vaultItemOf dl = some (pda, d) →
        zscore s.vaultActivity pda
          (kActivity sig ((ACTION_TYPE_MAP action).getD .vault_created) slot)
            = some t) ∧
     (∀ pda p, positionItemOf dl = some (pda, p) →
        zscore s.ownerActivity p.owner
          (kActivity sig ((ACTION_TYPE_MAP action).getD .vault_created) slot)
            = some t))

/-- Fetch outcome reconstructed from a decoded account. -/
def itemFetch : DecodedAccount → FetchResult
  | .vault _ d => .vault d
  | .position _ p => .position p

/-- Store and event of the idempotence development: a deposit event whose
webhook item carries no block time, ingested twice at different wall-clock
times. -/
def c2Vault : DecodedVault :=
  { authority := "A", asset_mint := none, status := .funding,
    total_deposited := 1, total_claimed := 0, payout_num := 0, payout_den := 0 }

def c2Event : IngestEvent :=
  { signature := "s", slot := 5, blockTime := none,
    accounts := [("V", .vault c2Vault)], actions := ["deposit"] }

def c2Store : KV :=
  { vaults := [], positions := [], activities := [], vaultsSet := [],
    authorityVaults := [], ownerPositions := [], authorityVaultsByUpdated := [],
    ownerPositionsByUpdated := [], vaultActivity := [], ownerActivity := [] }

/-- Witness store and event for the amended idempotence theorem: a
transaction with one decoded vault and one deleted position whose cached
parent vault is a different account, with a real block time. -/
def c2wParentVault : VaultDTO :=
  { vaultPda := "W", authority := "B", assetMint := none, status := .Matured,
    totalDeposited := some 3, totalClaimed := some 0, payoutNum := some 2,
    payoutDen := some 1, slot := some 1, updatedAtEpoch := 1 }

def c2wPosition : PositionDTO :=
  { positionPda := "P", vaultPda := "W", owner := "O", deposited := some 3,
    claimed := some 0, slot := some 1, updatedAtEpoch := 1 }

def c2wStore : KV :=
  { vaults := [("W", c2wParentVault)], positions := [("P", c2wPosition)],
    activities := [], vaultsSet := [], authorityVaults := [],
    ownerPositions := [], authorityVaultsByUpdated := [],
    ownerPositionsByUpdated := [], vaultActivity := [], ownerActivity := [] }

def c2wEvent : IngestEvent :=
  { signature := "s", slot := 5, blockTime := some 42,
    accounts := [("V", .vault c2Vault), ("P", .absent)],
    actions := ["deposit", "claim"] }

theorem alookup_aset {β : Type} (l : List (String × β)) (k : String) (v : β) :
    alookup (aset l k v) k = some v := by
  induction l with
  | nil => simp [aset, alookup]
  | cons hd tl ih =>
      by_cases h : k = hd.1
      · simp [aset, alookup, h]
      · simp [aset, alookup, h, ih]

theorem alookup_aset_ne {β : Type} (l : List (String × β)) (k k' : String)
    (v : β) (h : k' ≠ k) : alookup (aset l k v) k' = alookup l k' := by
  induction l with
  | nil => simp [aset, alookup, h]
  | cons hd tl ih =>
      by_cases hk : k = hd.1
      · subst hk
        simp [aset, alookup, h, ih]
      · simp [aset, alookup, hk, ih]

theorem aset_self {β : Type} (l : List (String × β)) (k : String) (v : β)
    (h : alookup l k = some v) : aset l k v = l := by
  induction l with
  | nil => simp [alookup] at h
  | cons hd tl ih =>
      obtain ⟨k', v'⟩ := hd
      by_cases hk : k = k'
      · subst hk
        simp [alookup] at h
        simp [aset, h]
      · simp [alookup, hk] at h
        simp [aset, hk, ih h]

theorem slistAdd_mem (s : List String) (m : String) (h : m ∈ s) :
    slistAdd s m = s := by
  simp [slistAdd, h]

/-! ### Component frame lemmas for the store operations -/

@[simp] theorem zaddAuth_vaults (st : KV) (a : String) (s : Option VaultStatus) (sc : Nat) (m : String) :
    (zaddAuth st a s sc m).vaults = st.vaults := rfl

@[simp] theorem zaddAuth_positions (st : KV) (a : String) (s : Option VaultStatus) (sc : Nat) (m : String) :
    (zaddAuth st a s sc m).positions = st.positions := rfl

@[simp] theorem zaddAuth_activities (st : KV) (a : String) (s : Option VaultStatus) (sc : Nat) (m : String) :
    (zaddAuth st a s sc m).activities = st.activities := rfl

@[simp] theorem zaddAuth_vaultsSet (st : KV) (a : String) (s : Option VaultStatus) (sc : Nat) (m : String) :
    (zaddAuth st a s sc m).vaultsSet = st.vaultsSet := rfl

@[simp] theorem zaddAuth_authorityVaults (st : KV) (a : String) (s : Option VaultStatus) (sc : Nat) (m : String) :
    (zaddAuth st a s sc m).authorityVaults = st.authorityVaults := rfl

@[simp] theorem zaddAuth_ownerPositions (st : KV) (a : String) (s : Option VaultStatus) (sc : Nat) (m : String) :
    (zaddAuth st a s sc m).ownerPositions = st.ownerPositions := rfl

@[simp] theorem zaddAuth_ownerPositionsByUpdated (st : KV) (a : String) (s : Option VaultStatus) (sc : Nat) (m : String) :
    (zaddAuth st a s sc m).ownerPositionsByUpdated = st.ownerPositionsByUpdated := rfl

@[simp] theorem zaddAuth_vaultActivity (st : KV) (a : String) (s : Option VaultStatus) (sc : Nat) (m : String) :
    (zaddAuth st a s sc m).vaultActivity = st.vaultActivity := rfl

@[simp] theorem zaddAuth_ownerActivity (st : KV) (a : String) (s : Option VaultStatus) (sc : Nat) (m : String) :
    (zaddAuth st a s sc m).ownerActivity = st.ownerActivity := rfl

@[simp] theorem zremAuth_vaults (st : KV) (a : String) (s : Option VaultStatus) (m : String) :
    (zremAuth st a s m).vaults = st.vaults := by
  unfold zremAuth
  split <;> rfl

@[simp] theorem zremAuth_positions (st : KV) (a : String) (s : Option VaultStatus) (m : String) :
    (zremAuth st a s m).positions = st.positions := by
  unfold zremAuth
  split <;> rfl

@[simp] theorem zremAuth_activities (st : KV) (a : String) (s : Option VaultStatus) (m : String) :
    (zremAuth st a s m).activities = st.activities := by
  unfold zremAuth
  split <;> rfl

@[simp] theorem zremAuth_vaultsSet (st : KV) (a : String) (s : Option VaultStatus) (m : String) :
    (zremAuth st a s m).vaultsSet = st.vaultsSet := by
  unfold zremAuth
  split <;> rfl

@[simp] theorem zremAuth_authorityVaults (st : KV) (a : String) (s : Option VaultStatus) (m : String) :
    (zremAuth st a s m).authorityVaults = st.authorityVaults := by
  unfold zremAuth
  split <;> rfl

@[simp] theorem zremAuth_ownerPositions (st : KV) (a : String) (s : Option VaultStatus) (m : String) :
    (zremAuth st a s m).ownerPositions = st.ownerPositions := by
  unfold zremAuth
  split <;> rfl

@[simp] theorem zremAuth_ownerPositionsByUpdated (st : KV) (a : String) (s : Option VaultStatus) (m : String) :
    (zremAuth st a s m).ownerPositionsByUpdated = st.ownerPositionsByUpdated := by
  unfold zremAuth
  split <;> rfl

@[simp] theorem zremAuth_vaultActivity (st : KV) (a : String) (s : Option VaultStatus) (m : String) :
    (zremAuth st a s m).vaultActivity = st.vaultActivity := by
  unfold zremAuth
  split <;> rfl

@[simp] theorem zremAuth_ownerActivity (st : KV) (a : String) (s : Option VaultStatus) (m : String) :
    (zremAuth st a s m).ownerActivity = st.ownerActivity := by
  unfold zremAuth
  split <;> rfl

@[simp] theorem zaddOwnerPositions_vaults (st : KV) (o : String) (sc : Nat) (m : String) :
    (zaddOwnerPositions st o sc m).vaults = st.vaults := rfl

@[simp] theorem zaddOwnerPositions_positions (st : KV) (o : String) (sc : Nat) (m : String) :
    (zaddOwnerPositions st o sc m).positions = st.positions := rfl

@[simp] theorem zaddOwnerPositions_activities (st : KV) (o : String) (sc : Nat) (m : String) :
    (zaddOwnerPositions st o sc m).activities = st.activities := rfl

@[simp] theorem zaddOwnerPositions_vaultsSet (st : KV) (o : String) (sc : Nat) (m : String) :
    (zaddOwnerPositions st o sc m).vaultsSet = st.vaultsSet := rfl

@[simp] theorem zaddOwnerPositions_authorityVaults (st : KV) (o : String) (sc : Nat) (m : String) :
    (zaddOwnerPositions st o sc m).authorityVaults = st.authorityVaults := rfl

@[simp] theorem zaddOwnerPositions_ownerPositions (st : KV) (o : String) (sc : Nat) (m : String) :
    (zaddOwnerPositions st o sc m).ownerPositions = st.ownerPositions := rfl

@[simp] theorem zaddOwnerPositions_authorityVaultsByUpdated (st : KV) (o : String) (sc : Nat) (m : String) :
    (zaddOwnerPositions st o sc m).authorityVaultsByUpdated = st.authorityVaultsByUpdated := rfl

@[simp] theorem zaddOwnerPositions_vaultActivity (st : KV) (o : String) (sc : Nat) (m : String) :
    (zaddOwnerPositions st o sc m).vaultActivity = st.vaultActivity := rfl

@[simp] theorem zaddOwnerPositions_ownerActivity (st : KV) (o : String) (sc : Nat) (m : String) :
    (zaddOwnerPositions st o sc m).ownerActivity = st.ownerActivity := rfl

@[simp] theorem zaddVaultActivity_vaults (st : KV) (v : String) (sc : Nat) (m : String) :
    (zaddVaultActivity st v sc m).vaults = st.vaults := rfl

@[simp] theorem zaddVaultActivity_positions (st : KV) (v : String) (sc : Nat) (m : String) :
    (zaddVaultActivity st v sc m).positions = st.positions := rfl

@[simp] theorem zaddVaultActivity_activities (st : KV) (v : String) (sc : Nat) (m : String) :
    (zaddVaultActivity st v sc m).activities = st.activities := rfl

@[simp] theorem zaddVaultActivity_vaultsSet (st : KV) (v : String) (sc : Nat) (m : String) :
    (zaddVaultActivity st v sc m).vaultsSet = st.vaultsSet := rfl

@[simp] theorem zaddVaultActivity_authorityVaults (st : KV) (v : String) (sc : Nat) (m : String) :
    (zaddVaultActivity st v sc m).authorityVaults = st.authorityVaults := rfl

@[simp] theorem zaddVaultActivity_ownerPositions (st : KV) (v : String) (sc : Nat) (m : String) :
    (zaddVaultActivity st v sc m).ownerPositions = st.ownerPositions := rfl

@[simp] theorem zaddVaultActivity_authorityVaultsByUpdated (st : KV) (v : String) (sc : Nat) (m : String) :
    (zaddVaultActivity st v sc m).authorityVaultsByUpdated = st.authorityVaultsByUpdated := rfl

@[simp] theorem zaddVaultActivity_ownerPositionsByUpdated (st : KV) (v : String) (sc : Nat) (m : String) :
    (zaddVaultActivity st v sc m).ownerPositionsByUpdated = st.ownerPositionsByUpdated := rfl

@[simp] theorem zaddVaultActivity_ownerActivity (st : KV) (v : String) (sc : Nat) (m : String) :
    (zaddVaultActivity st v sc m).ownerActivity = st.ownerActivity := rfl

@[simp] theorem zaddOwnerActivity_vaults (st : KV) (o : String) (sc : Nat) (m : String) :
    (zaddOwnerActivity st o sc m).vaults = st.vaults := rfl

@[simp] theorem zaddOwnerActivity_positions (st : KV) (o : String) (sc : Nat) (m : String) :
    (zaddOwnerActivity st o sc m).positions = st.positions := rfl

@[simp] theorem zaddOwnerActivity_activities (st : KV) (o : String) (sc : Nat) (m : String) :
    (zaddOwnerActivity st o sc m).activities = st.activities := rfl

@[simp] theorem zaddOwnerActivity_vaultsSet (st : KV) (o : String) (sc : Nat) (m : String) :
    (zaddOwnerActivity st o sc m).vaultsSet = st.vaultsSet := rfl

@[simp] theorem zaddOwnerActivity_authorityVaults (st : KV) (o : String) (sc : Nat) (m : String) :
    (zaddOwnerActivity st o sc m).authorityVaults = st.authorityVaults := rfl

@[simp] theorem zaddOwnerActivity_ownerPositions (st : KV) (o : String) (sc : Nat) (m : String) :
    (zaddOwnerActivity st o sc m).ownerPositions = st.ownerPositions := rfl

@[simp] theorem zaddOwnerActivity_authorityVaultsByUpdated (st : KV) (o : String) (sc : Nat) (m : String) :
    (zaddOwnerActivity st o sc m).authorityVaultsByUpdated = st.authorityVaultsByUpdated := rfl

@[simp] theorem zaddOwnerActivity_ownerPositionsByUpdated (st : KV) (o : String) (sc : Nat) (m : String) :
    (zaddOwnerActivity st o sc m).ownerPositionsByUpdated = st.ownerPositionsByUpdated := rfl

@[simp] theorem zaddOwnerActivity_vaultActivity (st : KV) (o : String) (sc : Nat) (m : String) :
    (zaddOwnerActivity st o sc m).vaultActivity = st.vaultActivity := rfl

@[simp] theorem saddAuthorityVaults_vaults (st : KV) (a : String) (m : String) :
    (saddAuthorityVaults st a m).vaults = st.vaults := rfl

@[simp] theorem saddAuthorityVaults_positions (st : KV) (a : String) (m : String) :
    (saddAuthorityVaults st a m).positions = st.positions := rfl

@[simp] theorem saddAuthorityVaults_activities (st : KV) (a : String) (m : String) :
    (saddAuthorityVaults st a m).activities = st.activities := rfl

@[simp] theorem saddAuthorityVaults_vaultsSet (st : KV) (a : String) (m : String) :
    (saddAuthorityVaults st a m).vaultsSet = st.vaultsSet := rfl

@[simp] theorem saddAuthorityVaults_ownerPositions (st : KV) (a : String) (m : String) :
    (saddAuthorityVaults st a m).ownerPositions = st.ownerPositions := rfl

@[simp] theorem saddAuthorityVaults_authorityVaultsByUpdated (st : KV) (a : String) (m : String) :
    (saddAuthorityVaults st a m).authorityVaultsByUpdated = st.authorityVaultsByUpdated := rfl

@[simp] theorem saddAuthorityVaults_ownerPositionsByUpdated (st : KV) (a : String) (m : String) :
    (saddAuthorityVaults st a m).ownerPositionsByUpdated = st.ownerPositionsByUpdated := rfl

@[simp] theorem saddAuthorityVaults_vaultActivity (st : KV) (a : String) (m : String) :
    (saddAuthorityVaults st a m).vaultActivity = st.vaultActivity := rfl

@[simp] theorem saddAuthorityVaults_ownerActivity (st : KV) (a : String) (m : String) :
    (saddAuthorityVaults st a m).ownerActivity = st.ownerActivity := rfl

@[simp] theorem saddOwnerPositions_vaults (st : KV) (o : String) (m : String) :
    (saddOwnerPositions st o m).vaults = st.vaults := rfl

@[simp] theorem saddOwnerPositions_positions (st : KV) (o : String) (m : String) :
    (saddOwnerPositions st o m).positions = st.positions := rfl

@[simp] theorem saddOwnerPositions_activities (st : KV) (o : String) (m : String) :
    (saddOwnerPositions st o m).activities = st.activities := rfl

@[simp] theorem saddOwnerPositions_vaultsSet (st : KV) (o : String) (m : String) :
    (saddOwnerPositions st o m).vaultsSet = st.vaultsSet := rfl

@[simp] theorem saddOwnerPositions_authorityVaults (st : KV) (o : String) (m : String) :
    (saddOwnerPositions st o m).authorityVaults = st.authorityVaults := rfl

@[simp] theorem saddOwnerPositions_authorityVaultsByUpdated (st : KV) (o : String) (m : String) :
    (saddOwnerPositions st o m).authorityVaultsByUpdated = st.authorityVaultsByUpdated := rfl

@[simp] theorem saddOwnerPositions_ownerPositionsByUpdated (st : KV) (o : String) (m : String) :
    (saddOwnerPositions st o m).ownerPositionsByUpdated = st.ownerPositionsByUpdated := rfl

@[simp] theorem saddOwnerPositions_vaultActivity (st : KV) (o : String) (m : String) :
    (saddOwnerPositions st o m).vaultActivity = st.vaultActivity := rfl

@[simp] theorem saddOwnerPositions_ownerActivity (st : KV) (o : String) (m : String) :
    (saddOwnerPositions st o m).ownerActivity = st.ownerActivity := rfl

theorem claimAmountOf_eq_spec (d : Nat) (v : Option VaultDTO) :
    claimAmountOf d v = spec_settlement d v := by
  cases v with
  | none => rfl
  | some v => rfl

/-! ### Claim C3 — settlement arithmetic of a claim that closes a position -/

/-- The positions component after one claimStep. -/
theorem claimStep_positions (sig : String) (slot : Nat) (blockTime : Option Nat)
    (now : Nat) (st : KV) (n : Nat) (P : String) (pos : PositionDTO) (dep : Nat)
    (hP : alookup st.positions P = some pos)
    (hdep : pos.deposited = some dep) (hpos : 0 < dep) :
    (claimStep sig slot blockTime now (st, n) P).1.positions =
      aset st.positions P
        { pos with
            claimed := some (claimAmountOf dep (alookup st.vaults pos.vaultPda)),
            slot := some slot,
            updatedAtEpoch := blockTime.getD now } := by
  simp only [claimStep, hP, hdep, hpos, if_pos]
  split <;>
    simp [toActivityDTO, zaddOwnerPositions, zaddVaultActivity, zaddOwnerActivity]

/-- C3: when a claim instruction closes a position (the account resolves
absent while a cached position with deposited > 0 exists), the stored
claimed amount equals the specification settlement formula applied to the
cached deposited amount and the cached parent vault: deposited on a
Canceled parent, floor(deposited * payoutNum / payoutDen) in exact integer
arithmetic when a ratio with positive denominator exists, deposited
otherwise. -/
theorem claim_settlement_matches_spec (st : KV) (P F sig : String)
    (slot now : Nat) (blockTime : Option Nat) (pos : PositionDTO) (dep : Nat)
    (hP : alookup st.positions P = some pos)
    (hdep : pos.deposited = some dep) (hpos : 0 < dep) :
    alookup (processItem st
        { signature := sig, slot := slot, blockTime := blockTime,
          accounts := [(P, .absent), (F, .undecodable)], actions := ["claim"] }
        now).1.positions P =
      some { pos with
              claimed := some (spec_settlement dep (alookup st.vaults pos.vaultPda)),
              slot := some slot,
              updatedAtEpoch := blockTime.getD now } := by
  have hmem : ("closeVault" ∈ (["claim"] : List String)) = False := by decide
  simp only [processItem, programAccounts, decodedOf, absentKeys]
  simp only [List.filter, List.filterMap, List.isEmpty, List.foldl]
  simp [hmem, claimStep_positions sig slot blockTime now st 0 P pos dep hP hdep hpos,
    alookup_aset, claimAmountOf_eq_spec]

/-- Witness for C3 at the spec's own example: deposited 100 with payout
ratio 3/2 on a Matured parent settles to 150. -/
theorem claim_settlement_matches_spec_witness :
    (let pos : PositionDTO :=
      { positionPda := "P", vaultPda := "V", owner := "O", deposited := some 100,
        claimed := some 0, slot := some 100, updatedAtEpoch := 10 }
     let vlt : VaultDTO :=
      { vaultPda := "V", authority := "A", assetMint := none, status := .Matured,
        totalDeposited := some 100, totalClaimed := some 0, payoutNum := some 3,
        payoutDen := some 2, slot := some 100, updatedAtEpoch := 9 }
     let st : KV :=
      { vaults := [("V", vlt)], positions := [("P", pos)], activities := [],
        vaultsSet := [], authorityVaults := [], ownerPositions := [],
        authorityVaultsByUpdated := [], ownerPositionsByUpdated := [],
        vaultActivity := [], ownerActivity := [] }
     alookup (processItem st
        { signature := "s", slot := 150, blockTime := some 42,
          accounts := [("P", .absent), ("F", .undecodable)],
          actions := ["claim"] } 7).1.positions "P" =
      some { pos with claimed := some 150, slot := some 150, updatedAtEpoch := 42 }) ∧
    spec_settlement 100 (some
      { vaultPda := "V", authority := "A", assetMint := none, status := .Canceled,
        totalDeposited := some 100, totalClaimed := some 0, payoutNum := none,
        payoutDen := none, slot := some 100, updatedAtEpoch := 9 }) = 100 ∧
    spec_settlement 1000000000000000000 (some
      { vaultPda := "V", authority := "A", assetMint := none, status := .Matured,
        totalDeposited := none, totalClaimed := none, payoutNum := some 3,
        payoutDen := some 2, slot := some 100, updatedAtEpoch := 9 }) =
      1500000000000000000 := by
  refine ⟨?_, by decide, by decide⟩
  have h := claim_settlement_matches_spec
    { vaults := [("V",
        { vaultPda := "V", authority := "A", assetMint := none, status := .Matured,
          totalDeposited := some 100, totalClaimed := some 0, payoutNum := some 3,
          payoutDen := some 2, slot := some 100, updatedAtEpoch := 9 })],
      positions := [("P",
        { positionPda := "P", vaultPda := "V", owner := "O", deposited := some 100,
          claimed := some 0, slot := some 100, updatedAtEpoch := 10 })],
      activities := [], vaultsSet := [], authorityVaults := [],
      ownerPositions := [], authorityVaultsByUpdated := [],
      ownerPositionsByUpdated := [], vaultActivity := [], ownerActivity := [] }
    "P" "F" "s" 150 7 (some 42)
    { positionPda := "P", vaultPda := "V", owner := "O", deposited := some 100,
      claimed := some 0, slot := some 100, updatedAtEpoch := 10 }
    100 rfl rfl (by decide)
  simpa using h

/-! ### Claim C10 — totality of the status and action mappings -/

/-- C10 counterexample: the closed decoded status variant has no explicit
entry in mapVaultStatus; it falls into the silent default, mapping to
Funding with no log emitted (second component false), while the claim
requires an explicit entry for every variant and a log on any unmapped
one. -/
theorem mapVaultStatus_closed_silently_defaulted :
    mapVaultStatus DecodedStatus.closed = (VaultStatus.Funding, false) ∧
    (mapVaultStatus DecodedStatus.closed).2 = false := by
  exact ⟨rfl, rfl⟩

/-- C10 amended: the status mapping is total, never throws, never logs,
and always lands in the four dto.ts status strings (Funding, Active,
Matured, Canceled — the closed variant is silently collapsed onto the
Funding default rather than logged); the action mapping is total into the
closed activity-type set, and an unknown action is logged and defaulted
to vault_created while known actions map per the table without logging. -/
theorem status_action_mapping_total (s : DecodedStatus) (a : String)
    (ctx : ActivityCtx) (t : ActivityType)
    (hmapped : ACTION_TYPE_MAP a = some t) :
    (mapVaultStatus s).1 ∈
      [VaultStatus.Funding, VaultStatus.Active, VaultStatus.Matured, VaultStatus.Canceled] ∧
    (mapVaultStatus s).2 = false ∧
    mapVaultStatus .funding = (.Funding, false) ∧
    mapVaultStatus .active = (.Active, false) ∧
    mapVaultStatus .canceled = (.Canceled, false) ∧
    mapVaultStatus .matured = (.Matured, false) ∧
    mapVaultStatus .closed = (.Funding, false) ∧
    (∀ a', ACTION_TYPE_MAP a' = none →
      (toActivityDTO a' ctx).1.type = .vault_created ∧ (toActivityDTO a' ctx).2 = true) ∧
    (toActivityDTO a ctx).1.type = t ∧ (toActivityDTO a ctx).2 = false := by
  refine ⟨?_, ?_, rfl, rfl, rfl, rfl, rfl, ?_, ?_, ?_⟩
  · cases s <;> simp [mapVaultStatus]
  · cases s <;> rfl
  · intro a' h
    simp [toActivityDTO, h]
  · simp [toActivityDTO, hmapped]
  · simp [toActivityDTO, hmapped]

/-- Witness for C10 amended at concrete inputs: the closed variant maps
to Funding without a log, the unknown action string is logged and
defaulted, and the deposit action maps to deposit without a log. -/
theorem status_action_mapping_total_witness :
    (mapVaultStatus DecodedStatus.closed).1 ∈
      [VaultStatus.Funding, VaultStatus.Active, VaultStatus.Matured, VaultStatus.Canceled] ∧
    (∀ a', ACTION_TYPE_MAP a' = none →
      (toActivityDTO a'
        { txSig := "s", slot := 1, blockTime := none, vaultPda := none,
          positionPda := none, authority := none, owner := none,
          amount := none, assetMint := none }).1.type = .vault_created ∧
      (toActivityDTO a'
        { txSig := "s", slot := 1, blockTime := none, vaultPda := none,
          positionPda := none, authority := none, owner := none,
          amount := none, assetMint := none }).2 = true) ∧
    (toActivityDTO "deposit"
      { txSig := "s", slot := 1, blockTime := none, vaultPda := none,
        positionPda := none, authority := none, owner := none,
        amount := none, assetMint := none }).1.type = .deposit := by
  have h := status_action_mapping_total DecodedStatus.closed "deposit"
    { txSig := "s", slot := 1, blockTime := none, vaultPda := none,
      positionPda := none, authority := none, owner := none,
      amount := none, assetMint := none }
    ActivityType.deposit rfl
  exact ⟨h.1, h.2.2.2.2.2.2.2.1, h.2.2.2.2.2.2.2.2.1⟩

/-! ### Claim C4 — activity amount delta computation -/

/-- C4 counterexample: a first deposit event whose decoded vault carries
total_deposited = 0 and no cached snapshot stores the activity with a
null amount, not with the new total 0 as the claim's first-event rule
("the amount equals the new total directly") would require. -/
theorem first_event_zero_total_amount_omitted :
    (alookup (processItem
        { vaults := [], positions := [], activities := [], vaultsSet := [],
          authorityVaults := [], ownerPositions := [],
          authorityVaultsByUpdated := [], ownerPositionsByUpdated := [],
          vaultActivity := [], ownerActivity := [] }
        { signature := "s", slot := 5, blockTime := some 9,
          accounts := [("V", .vault
            { authority := "A", asset_mint := none, status := .funding,
              total_deposited := 0, total_claimed := 0,
              payout_num := 0, payout_den := 0 })],
          actions := ["deposit"] } 7).1.activities
      (kActivity "s" .deposit 5)).map (·.amount) = some none := by
  decide

/-- C4 amended: for deposit / initializeVault actions the derived amount
is the counter delta new − old against the pre-mutation snapshot,
omitted (null) when the delta is not positive; with no cached snapshot it
is the new total when that total is positive and omitted when it is zero;
and claim actions never reach this computation (the activity loop skips
them, they are settled by the deleted-position handler). -/
theorem activity_amount_delta (action : String) (ov : Option VaultDTO)
    (op : Option PositionDTO) (nv : DecodedVault) (np : DecodedPosition)
    (sig : String) (slot : Nat) (blockTime : Option Nat)
    (decodedList : List DecodedAccount) (snap : KV) (acc : KV × Nat)
    (hact : action = "deposit" ∨ action = "initializeVault") :
    (vaultActivityAmount action ov nv none =
      match ov with
      | some o =>
          if o.totalDeposited.getD 0 < nv.total_deposited then
            some (nv.total_deposited - o.totalDeposited.getD 0)
          else none
      | none => if 0 < nv.total_deposited then some nv.total_deposited else none) ∧
    (action = "deposit" →
      positionActivityAmount action op np none =
        match op with
        | some o =>
            if o.deposited.getD 0 < np.deposited then
              some (np.deposited - o.deposited.getD 0)
            else none
        | none => if 0 < np.deposited then some np.deposited else none) ∧
    activityStep sig slot blockTime decodedList snap acc "claim" = acc := by
  refine ⟨?_, ?_, rfl⟩
  · cases ov with
    | none =>
        rcases hact with h | h <;> subst h <;>
          simp [vaultActivityAmount]
    | some o =>
        have hcond : (action = "deposit" ∨ action = "initializeVault") := hact
        simp only [vaultActivityAmount, if_pos hcond]
        by_cases h : o.totalDeposited.getD 0 < nv.total_deposited
        · have hδ : (0 : Int) < (nv.total_deposited : Int) - (o.totalDeposited.getD 0 : Nat) := by
            omega
          simp [hδ, h]
        · have hδ : ¬ ((0 : Int) < (nv.total_deposited : Int) - (o.totalDeposited.getD 0 : Nat)) := by
            omega
          simp [hδ, h]
  · intro h
    subst h
    cases op with
    | none => simp [positionActivityAmount]
    | some o =>
        simp only [positionActivityAmount, if_pos rfl]
        by_cases h : o.deposited.getD 0 < np.deposited
        · have hδ : (0 : Int) < (np.deposited : Int) - (o.deposited.getD 0 : Nat) := by
            omega
          simp [hδ, h]
        · have hδ : ¬ ((0 : Int) < (np.deposited : Int) - (o.deposited.getD 0 : Nat)) := by
            omega
          simp [hδ, h]

/-- Witness for C4 amended at the spec's example: old total 0 and new
total 1000 derive amount 1000. -/
theorem activity_amount_delta_witness :
    vaultActivityAmount "deposit"
      (some { vaultPda := "V", authority := "A", assetMint := none,
              status := .Funding, totalDeposited := some 0, totalClaimed := some 0,
              payoutNum := none, payoutDen := none, slot := some 100,
              updatedAtEpoch := 1 })
      { authority := "A", asset_mint := none, status := .funding,
        total_deposited := 1000, total_claimed := 0, payout_num := 0,
        payout_den := 0 } none = some 1000 := by
  have h := activity_amount_delta "deposit"
    (some { vaultPda := "V", authority := "A", assetMint := none,
            status := .Funding, totalDeposited := some 0, totalClaimed := some 0,
            payoutNum := none, payoutDen := none, slot := some 100,
            updatedAtEpoch := 1 })
    none
    { authority := "A", asset_mint := none, status := .funding,
      total_deposited := 1000, total_claimed := 0, payout_num := 0,
      payout_den := 0 }
    { vault := "V", owner := "O", deposited := 0, claimed := 0 }
    "s" 1 none []
    { vaults := [], positions := [], activities := [], vaultsSet := [],
      authorityVaults := [], ownerPositions := [],
      authorityVaultsByUpdated := [], ownerPositionsByUpdated := [],
      vaultActivity := [], ownerActivity := [] }
    ({ vaults := [], positions := [], activities := [], vaultsSet := [],
       authorityVaults := [], ownerPositions := [],
       authorityVaultsByUpdated := [], ownerPositionsByUpdated := [],
       vaultActivity := [], ownerActivity := [] }, 0)
    (Or.inl rfl)
  simpa using h.1

/-! ### Claim C9 — fallback selection -/

/-- C9 counterexample: with the ordered index not yet built (no binding
for the authority) and no thrown error, the handler serves the empty
ordered-path page and does not fall back to the membership set (which
holds one vault); and when the lookup throws, the membership-set
fallback runs even though the ordered index exists — so fallback is
exception-driven, not driven by an explicit not-built signal, and a
genuine query error is converted into a fallback scan. -/
theorem fallback_not_signal_driven :
    (vaultsQuery
      { vaults := [("v1",
          { vaultPda := "v1", authority := "A", assetMint := none,
            status := .Funding, totalDeposited := some 0, totalClaimed := some 0,
            payoutNum := none, payoutDen := none, slot := some 1,
            updatedAtEpoch := 500 })],
        positions := [], activities := [], vaultsSet := [],
        authorityVaults := [("A", ["v1"])], ownerPositions := [],
        authorityVaultsByUpdated := [], ownerPositionsByUpdated := [],
        vaultActivity := [], ownerActivity := [] }
      { authority := "A", status := none, cursor := none, limit := 50 }
      false) = .ok [] none (some 0) ∧
    (vaultsQuery
      { vaults := [("v1",
          { vaultPda := "v1", authority := "A", assetMint := none,
            status := .Funding, totalDeposited := some 0, totalClaimed := some 0,
            payoutNum := none, payoutDen := none, slot := some 1,
            updatedAtEpoch := 500 })],
        positions := [], activities := [], vaultsSet := [],
        authorityVaults := [("A", ["v1"])], ownerPositions := [],
        authorityVaultsByUpdated := [(("A", none), [("v1", 500)])],
        ownerPositionsByUpdated := [], vaultActivity := [], ownerActivity := [] }
      { authority := "A", status := none, cursor := none, limit := 50 }
      true) = .ok [
        { vaultPda := "v1", authority := "A", assetMint := none,
          status := .Funding, totalDeposited := some 0, totalClaimed := some 0,
          payoutNum := none, payoutDen := none, slot := some 1,
          updatedAtEpoch := 500 }] none (some 1) := by
  constructor <;> decide

/-- C9 amended: fallback selection is exception-driven — the
membership-set fallback runs exactly when the ordered-index lookup
throws (whatever the cause), while a missing (not yet built) index
produces the empty page through the ordered path rather than a fallback
scan, and the ordered path itself never yields the retryable 503. -/
theorem fallback_selection_exception_driven (st : KV) (q : VaultsQuery)
    (hmissing : plookup st.authorityVaultsByUpdated (q.authority, q.status) = none) :
    vaultsQuery st q true = vaultsFromSet st q ∧
    vaultsQuery st q false = vaultsFromIndex st q ∧
    vaultsQuery st q false = .ok [] none (some 0) ∧
    vaultsQuery st q false ≠ .unavailable := by
  refine ⟨rfl, rfl, ?_, ?_⟩
  · simp [vaultsQuery, vaultsFromIndex, hmissing, zrevrangebyscore, pageOf,
      List.insertionSort]
  · simp [vaultsQuery, vaultsFromIndex, pageOf]

/-- Witness for C9 amended on a store whose ordered index is missing
while the membership set is populated. -/
theorem fallback_selection_exception_driven_witness :
    (vaultsQuery
      { vaults := [("v1",
          { vaultPda := "v1", authority := "A", assetMint := none,
            status := .Funding, totalDeposited := some 0, totalClaimed := some 0,
            payoutNum := none, payoutDen := none, slot := some 1,
            updatedAtEpoch := 500 })],
        positions := [], activities := [], vaultsSet := [],
        authorityVaults := [("A", ["v1"])], ownerPositions := [],
        authorityVaultsByUpdated := [], ownerPositionsByUpdated := [],
        vaultActivity := [], ownerActivity := [] }
      { authority := "A", status := none, cursor := none, limit := 50 }
      false) = .ok [] none (some 0) ∧
    (vaultsQuery
      { vaults := [("v1",
          { vaultPda := "v1", authority := "A", assetMint := none,
            status := .Funding, totalDeposited := some 0, totalClaimed := some 0,
            payoutNum := none, payoutDen := none, slot := some 1,
            updatedAtEpoch := 500 })],
        positions := [], activities := [], vaultsSet := [],
        authorityVaults := [("A", ["v1"])], ownerPositions := [],
        authorityVaultsByUpdated := [], ownerPositionsByUpdated := [],
        vaultActivity := [], ownerActivity := [] }
      { authority := "A", status := none, cursor := none, limit := 50 }
      false) ≠ .unavailable := by
  have h := fallback_selection_exception_driven
    { vaults := [("v1",
        { vaultPda := "v1", authority := "A", assetMint := none,
          status := .Funding, totalDeposited := some 0, totalClaimed := some 0,
          payoutNum := none, payoutDen := none, slot := some 1,
          updatedAtEpoch := 500 })],
      positions := [], activities := [], vaultsSet := [],
      authorityVaults := [("A", ["v1"])], ownerPositions := [],
      authorityVaultsByUpdated := [], ownerPositionsByUpdated := [],
      vaultActivity := [], ownerActivity := [] }
    { authority := "A", status := none, cursor := none, limit := 50 }
    rfl
  exact ⟨h.2.2.1, h.2.2.2⟩

/-! ### Claim C7 — activity dedup and timeline indexing -/

/-- C7 counterexample: two ingests share the idempotency key
(signature, type, version) — the first with an unknown block time (score
falls back to the slot 5), the second with block time 99.  Exactly one
record is stored and the second call reports no insert, but the second
(non-first-insert) call still runs the timeline ZADD and re-scores the
vault timeline entry from 5 to 99, so the key is not added to the
timeline indices only by the first-insert call. -/
theorem timeline_zadd_not_only_first_insert :
    (let dv : DecodedVault :=
      { authority := "A", asset_mint := none, status := .funding,
        total_deposited := 7, total_claimed := 0, payout_num := 0, payout_den := 0 }
     let st0 : KV :=
      { vaults := [], positions := [], activities := [], vaultsSet := [],
        authorityVaults := [], ownerPositions := [],
        authorityVaultsByUpdated := [], ownerPositionsByUpdated := [],
        vaultActivity := [], ownerActivity := [] }
     let e1 : IngestEvent :=
      { signature := "s", slot := 5, blockTime := none,
        accounts := [("V", .vault dv)], actions := ["deposit"] }
     let e2 : IngestEvent :=
      { signature := "s", slot := 5, blockTime := some 99,
        accounts := [("V", .vault dv)], actions := ["deposit"] }
     let r1 := processItem st0 e1 7
     let r2 := processItem r1.1 e2 8
     r1.2 = 1 ∧ r2.2 = 0 ∧
     alookup r2.1.activities (kActivity "s" .deposit 5) =
       alookup r1.1.activities (kActivity "s" .deposit 5) ∧
     alookup r1.1.vaultActivity "V" = some [(kActivity "s" .deposit 5, 5)] ∧
     alookup r2.1.vaultActivity "V" = some [(kActivity "s" .deposit 5, 99)]) := by
  decide

/-- C7 amended: per idempotency key exactly one activity record is ever
stored (create-if-absent leaves an existing record untouched) and the
call reports whether it performed the first insert; the synthesized
closeVault and claim handlers add the key to the timeline indices only on
first insert; the decoded-path pipeline, however, performs its timeline
ZADDs on every call, first insert or not (idempotent only while the score
is unchanged). -/
theorem activity_dedup_first_insert (sig : String) (slot : Nat)
    (bt : Option Nat) (now : Nat) (dl : List DecodedAccount) (snap st : KV)
    (acts : Nat) (action : String) (pda : String) :
    ((alookup st.activities
        (kActivity sig ((ACTION_TYPE_MAP action).getD .vault_created) slot)).isSome →
      (activityStep sig slot bt dl snap (st, acts) action).1.activities = st.activities ∧
      (activityStep sig slot bt dl snap (st, acts) action).2 = acts) ∧
    (action ≠ "claim" →
      alookup st.activities
        (kActivity sig ((ACTION_TYPE_MAP action).getD .vault_created) slot) = none →
      (activityStep sig slot bt dl snap (st, acts) action).2 = acts + 1) ∧
    ((alookup st.activities (kActivity sig .vault_created slot)).isSome →
      (closeVaultStep sig slot bt now (st, acts) pda).1.vaultActivity = st.vaultActivity ∧
      (closeVaultStep sig slot bt now (st, acts) pda).2 = acts) ∧
    ((alookup st.activities (kActivity sig .claim slot)).isSome →
      (claimStep sig slot bt now (st, acts) pda).1.vaultActivity = st.vaultActivity ∧
      (claimStep sig slot bt now (st, acts) pda).1.ownerActivity = st.ownerActivity ∧
      (claimStep sig slot bt now (st, acts) pda).2 = acts) := by
  refine ⟨?_, ?_, ?_, ?_⟩
  · intro hsome
    by_cases hc : action = "claim"
    · subst hc
      simp [activityStep]
    · rw [Option.isSome_iff_exists] at hsome
      obtain ⟨a, ha⟩ := hsome
      simp only [activityStep, if_neg hc, toActivityDTO, ha, Option.isNone_some]
      constructor
      · split <;> split <;> simp [zaddVaultActivity, zaddOwnerActivity]
      · simp
  · intro hc hnone
    simp only [activityStep, if_neg hc, toActivityDTO, hnone, Option.isNone_none]
    simp
  · intro hsome
    rw [Option.isSome_iff_exists] at hsome
    obtain ⟨a, ha⟩ := hsome
    simp only [closeVaultStep, toActivityDTO, ACTION_TYPE_MAP, String.reduceEq,
      if_false, Option.getD_none, zremAuth_activities, zaddAuth_activities, ha]
    split
    · exact ⟨rfl, rfl⟩
    · split
      · simp only [ha]
        simp
      · exact ⟨rfl, rfl⟩
  · intro hsome
    rw [Option.isSome_iff_exists] at hsome
    obtain ⟨a, ha⟩ := hsome
    simp only [claimStep, toActivityDTO, ACTION_TYPE_MAP, String.reduceEq,
      if_true, if_false, Option.getD_some, Option.getD_none,
      zaddOwnerPositions_activities, ha]
    split
    · exact ⟨rfl, rfl, rfl⟩
    · split
      · exact ⟨rfl, rfl, rfl⟩
      · split
        · simp
        · exact ⟨rfl, rfl, rfl⟩

/-- Witness for C7 amended on a store already holding records under the
three idempotency keys: none of the repeated calls creates a record or
counts an insert, and the synthesized paths leave the timelines alone. -/
theorem activity_dedup_first_insert_witness :
    (activityStep "s" 5 none []
      { vaults := [], positions := [], activities := [], vaultsSet := [],
        authorityVaults := [], ownerPositions := [],
        authorityVaultsByUpdated := [], ownerPositionsByUpdated := [],
        vaultActivity := [], ownerActivity := [] }
      ({ vaults := [], positions := [],
         activities := [(kActivity "s" .deposit 5,
           { txSig := "s", slot := 5, blockTimeEpoch := none, type := .deposit,
             vaultPda := none, positionPda := none, authority := none,
             owner := none, amount := none, assetMint := none }),
           (kActivity "s" .vault_created 5,
           { txSig := "s", slot := 5, blockTimeEpoch := none, type := .vault_created,
             vaultPda := none, positionPda := none, authority := none,
             owner := none, amount := none, assetMint := none }),
           (kActivity "s" .claim 5,
           { txSig := "s", slot := 5, blockTimeEpoch := none, type := .claim,
             vaultPda := none, positionPda := none, authority := none,
             owner := none, amount := none, assetMint := none })],
         vaultsSet := [], authorityVaults := [], ownerPositions := [],
         authorityVaultsByUpdated := [], ownerPositionsByUpdated := [],
         vaultActivity := [], ownerActivity := [] }, 3) "deposit").2 = 3 ∧
    (closeVaultStep "s" 5 none 7
      ({ vaults := [], positions := [],
         activities := [(kActivity "s" .deposit 5,
           { txSig := "s", slot := 5, blockTimeEpoch := none, type := .deposit,
             vaultPda := none, positionPda := none, authority := none,
             owner := none, amount := none, assetMint := none }),
           (kActivity "s" .vault_created 5,
           { txSig := "s", slot := 5, blockTimeEpoch := none, type := .vault_created,
             vaultPda := none, positionPda := none, authority := none,
             owner := none, amount := none, assetMint := none }),
           (kActivity "s" .claim 5,
           { txSig := "s", slot := 5, blockTimeEpoch := none, type := .claim,
             vaultPda := none, positionPda := none, authority := none,
             owner := none, amount := none, assetMint := none })],
         vaultsSet := [], authorityVaults := [], ownerPositions := [],
         authorityVaultsByUpdated := [], ownerPositionsByUpdated := [],
         vaultActivity := [], ownerActivity := [] }, 3) "p").2 = 3 ∧
    (claimStep "s" 5 none 7
      ({ vaults := [], positions := [],
         activities := [(kActivity "s" .deposit 5,
           { txSig := "s", slot := 5, blockTimeEpoch := none, type := .deposit,
             vaultPda := none, positionPda := none, authority := none,
             owner := none, amount := none, assetMint := none }),
           (kActivity "s" .vault_created 5,
           { txSig := "s", slot := 5, blockTimeEpoch := none, type := .vault_created,
             vaultPda := none, positionPda := none, authority := none,
             owner := none, amount := none, assetMint := none }),
           (kActivity "s" .claim 5,
           { txSig := "s", slot := 5, blockTimeEpoch := none, type := .claim,
             vaultPda := none, positionPda := none, authority := none,
             owner := none, amount := none, assetMint := none })],
         vaultsSet := [], authorityVaults := [], ownerPositions := [],
         authorityVaultsByUpdated := [], ownerPositionsByUpdated := [],
         vaultActivity := [], ownerActivity := [] }, 3) "p").2 = 3 := by
  have h := activity_dedup_first_insert "s" 5 none 7 []
    { vaults := [], positions := [], activities := [], vaultsSet := [],
      authorityVaults := [], ownerPositions := [],
      authorityVaultsByUpdated := [], ownerPositionsByUpdated := [],
      vaultActivity := [], ownerActivity := [] }
    { vaults := [], positions := [],
      activities := [(kActivity "s" .deposit 5,
        { txSig := "s", slot := 5, blockTimeEpoch := none, type := .deposit,
          vaultPda := none, positionPda := none, authority := none,
          owner := none, amount := none, assetMint := none }),
        (kActivity "s" .vault_created 5,
        { txSig := "s", slot := 5, blockTimeEpoch := none, type := .vault_created,
          vaultPda := none, positionPda := none, authority := none,
          owner := none, amount := none, assetMint := none }),
        (kActivity "s" .claim 5,
        { txSig := "s", slot := 5, blockTimeEpoch := none, type := .claim,
          vaultPda := none, positionPda := none, authority := none,
          owner := none, amount := none, assetMint := none })],
      vaultsSet := [], authorityVaults := [], ownerPositions := [],
      authorityVaultsByUpdated := [], ownerPositionsByUpdated := [],
      vaultActivity := [], ownerActivity := [] }
    3 "deposit" "p"
  exact ⟨(h.1 (by decide)).2, (h.2.2.1 (by decide)).2, (h.2.2.2 (by decide)).2.2⟩

/-! ### Claim C8 — closeVault deleted-account synthesis -/

/-- C8 failing input: a closeVault event whose transaction holds only the
deleted vault account (absent) and no program-owned account, against a
cached Canceled vault.  The handler returns at the
no-program-accounts gate before the closeVault deleted-account block, so
no Closed terminal snapshot is synthesized and the cached record stays
Canceled — although with an (abnormal) undecodable program account
present the very same event does synthesize and reindex the Closed
snapshot, as the claim describes. -/
theorem closeVault_synthesis_unreachable :
    (let stq : KV :=
      { vaults := [("V",
          { vaultPda := "V", authority := "A", assetMint := none,
            status := .Canceled, totalDeposited := some 5, totalClaimed := some 0,
            payoutNum := none, payoutDen := none, slot := some 200,
            updatedAtEpoch := 20 })],
        positions := [], activities := [], vaultsSet := [],
        authorityVaults := [("A", ["V"])], ownerPositions := [],
        authorityVaultsByUpdated := [(("A", none), [("V", 20)]),
          (("A", some .Canceled), [("V", 20)])],
        ownerPositionsByUpdated := [], vaultActivity := [], ownerActivity := [] }
     processItem stq
        { signature := "s", slot := 210, blockTime := some 50,
          accounts := [("V", .absent)], actions := ["closeVault"] } 7 = (stq, 0) ∧
     (alookup (processItem stq
        { signature := "s", slot := 210, blockTime := some 50,
          accounts := [("V", .absent), ("F", .undecodable)],
          actions := ["closeVault"] } 7).1.vaults "V").map (·.status) =
       some VaultStatus.Closed) := by
  constructor <;> decide

/-! ### Claim C1 — version monotonicity -/

/-- C1 counterexample: the synthesized claim write path applies the
event version unconditionally: a position cached at version 210 with
deposited 100, hit by a stale claim event at version 150 (position
absent on chain), is rewritten to version 150 — the stored version
decreases within one ingest, refuting monotonicity across every write
path including the synthesized terminal updates. -/
theorem synthesized_claim_write_lowers_version :
    (alookup (processItem
      { vaults := [], positions := [("P",
          { positionPda := "P", vaultPda := "V", owner := "O",
            deposited := some 100, claimed := some 150, slot := some 210,
            updatedAtEpoch := 21 })],
        activities := [], vaultsSet := [], authorityVaults := [],
        ownerPositions := [], authorityVaultsByUpdated := [],
        ownerPositionsByUpdated := [], vaultActivity := [], ownerActivity := [] }
      { signature := "s2", slot := 150, blockTime := some 15,
        accounts := [("P", .absent), ("F", .undecodable)],
        actions := ["claim"] } 7).1.positions "P").map (·.slot) =
      some (some 150) := by
  decide

/-! ### Step-function component frame lemmas -/

@[simp] theorem closeVaultStep_positions (sig : String) (slot : Nat) (bt : Option Nat) (now : Nat) (acc : KV × Nat) (P : String) :
    (closeVaultStep sig slot bt now acc P).1.positions = acc.1.positions := by
  obtain ⟨st, n⟩ := acc
  simp only [closeVaultStep]
  split <;> (try split) <;> (try split) <;> (try split) <;> (try split) <;>
    (try split) <;> simp [toActivityDTO]

@[simp] theorem closeVaultStep_vaultsSet (sig : String) (slot : Nat) (bt : Option Nat) (now : Nat) (acc : KV × Nat) (P : String) :
    (closeVaultStep sig slot bt now acc P).1.vaultsSet = acc.1.vaultsSet := by
  obtain ⟨st, n⟩ := acc
  simp only [closeVaultStep]
  split <;> (try split) <;> (try split) <;> (try split) <;> (try split) <;>
    (try split) <;> simp [toActivityDTO]

@[simp] theorem closeVaultStep_authorityVaults (sig : String) (slot : Nat) (bt : Option Nat) (now : Nat) (acc : KV × Nat) (P : String) :
    (closeVaultStep sig slot bt now acc P).1.authorityVaults = acc.1.authorityVaults := by
  obtain ⟨st, n⟩ := acc
  simp only [closeVaultStep]
  split <;> (try split) <;> (try split) <;> (try split) <;> (try split) <;>
    (try split) <;> simp [toActivityDTO]

@[simp] theorem closeVaultStep_ownerPositions (sig : String) (slot : Nat) (bt : Option Nat) (now : Nat) (acc : KV × Nat) (P : String) :
    (closeVaultStep sig slot bt now acc P).1.ownerPositions = acc.1.ownerPositions := by
  obtain ⟨st, n⟩ := acc
  simp only [closeVaultStep]
  split <;> (try split) <;> (try split) <;> (try split) <;> (try split) <;>
    (try split) <;> simp [toActivityDTO]

@[simp] theorem closeVaultStep_ownerPositionsByUpdated (sig : String) (slot : Nat) (bt : Option Nat) (now : Nat) (acc : KV × Nat) (P : String) :
    (closeVaultStep sig slot bt now acc P).1.ownerPositionsByUpdated = acc.1.ownerPositionsByUpdated := by
  obtain ⟨st, n⟩ := acc
  simp only [closeVaultStep]
  split <;> (try split) <;> (try split) <;> (try split) <;> (try split) <;>
    (try split) <;> simp [toActivityDTO]

@[simp] theorem closeVaultStep_ownerActivity (sig : String) (slot : Nat) (bt : Option Nat) (now : Nat) (acc : KV × Nat) (P : String) :
    (closeVaultStep sig slot bt now acc P).1.ownerActivity = acc.1.ownerActivity := by
  obtain ⟨st, n⟩ := acc
  simp only [closeVaultStep]
  split <;> (try split) <;> (try split) <;> (try split) <;> (try split) <;>
    (try split) <;> simp [toActivityDTO]

@[simp] theorem claimStep_vaults (sig : String) (slot : Nat) (bt : Option Nat) (now : Nat) (acc : KV × Nat) (P : String) :
    (claimStep sig slot bt now acc P).1.vaults = acc.1.vaults := by
  obtain ⟨st, n⟩ := acc
  simp only [claimStep]
  split <;> (try split) <;> (try split) <;> (try split) <;> (try split) <;>
    (try split) <;> simp [toActivityDTO]

@[simp] theorem claimStep_vaultsSet (sig : String) (slot : Nat) (bt : Option Nat) (now : Nat) (acc : KV × Nat) (P : String) :
    (claimStep sig slot bt now acc P).1.vaultsSet = acc.1.vaultsSet := by
  obtain ⟨st, n⟩ := acc
  simp only [claimStep]
  split <;> (try split) <;> (try split) <;> (try split) <;> (try split) <;>
    (try split) <;> simp [toActivityDTO]

@[simp] theorem claimStep_authorityVaults (sig : String) (slot : Nat) (bt : Option Nat) (now : Nat) (acc : KV × Nat) (P : String) :
    (claimStep sig slot bt now acc P).1.authorityVaults = acc.1.authorityVaults := by
  obtain ⟨st, n⟩ := acc
  simp only [claimStep]
  split <;> (try split) <;> (try split) <;> (try split) <;> (try split) <;>
    (try split) <;> simp [toActivityDTO]

@[simp] theorem claimStep_authorityVaultsByUpdated (sig : String) (slot : Nat) (bt : Option Nat) (now : Nat) (acc : KV × Nat) (P : String) :
    (claimStep sig slot bt now acc P).1.authorityVaultsByUpdated = acc.1.authorityVaultsByUpdated := by
  obtain ⟨st, n⟩ := acc
  simp only [claimStep]
  split <;> (try split) <;> (try split) <;> (try split) <;> (try split) <;>
    (try split) <;> simp [toActivityDTO]

@[simp] theorem claimStep_ownerPositions (sig : String) (slot : Nat) (bt : Option Nat) (now : Nat) (acc : KV × Nat) (P : String) :
    (claimStep sig slot bt now acc P).1.ownerPositions = acc.1.ownerPositions := by
  obtain ⟨st, n⟩ := acc
  simp only [claimStep]
  split <;> (try split) <;> (try split) <;> (try split) <;> (try split) <;>
    (try split) <;> simp [toActivityDTO]

@[simp] theorem activityStep_vaults (sig : String) (slot : Nat) (bt : Option Nat) (dl : List DecodedAccount) (snap : KV) (acc : KV × Nat) (a : String) :
    (activityStep sig slot bt dl snap acc a).1.vaults = acc.1.vaults := by
  obtain ⟨st, n⟩ := acc
  simp only [activityStep]
  split <;> (try split) <;> (try split) <;> (try split) <;> (try split) <;>
    (try split) <;> simp [toActivityDTO]

@[simp] theorem activityStep_positions (sig : String) (slot : Nat) (bt : Option Nat) (dl : List DecodedAccount) (snap : KV) (acc : KV × Nat) (a : String) :
    (activityStep sig slot bt dl snap acc a).1.positions = acc.1.positions := by
  obtain ⟨st, n⟩ := acc
  simp only [activityStep]
  split <;> (try split) <;> (try split) <;> (try split) <;> (try split) <;>
    (try split) <;> simp [toActivityDTO]

@[simp] theorem activityStep_vaultsSet (sig : String) (slot : Nat) (bt : Option Nat) (dl : List DecodedAccount) (snap : KV) (acc : KV × Nat) (a : String) :
    (activityStep sig slot bt dl snap acc a).1.vaultsSet = acc.1.vaultsSet := by
  obtain ⟨st, n⟩ := acc
  simp only [activityStep]
  split <;> (try split) <;> (try split) <;> (try split) <;> (try split) <;>
    (try split) <;> simp [toActivityDTO]

@[simp] theorem activityStep_authorityVaults (sig : String) (slot : Nat) (bt : Option Nat) (dl : List DecodedAccount) (snap : KV) (acc : KV × Nat) (a : String) :
    (activityStep sig slot bt dl snap acc a).1.authorityVaults = acc.1.authorityVaults := by
  obtain ⟨st, n⟩ := acc
  simp only [activityStep]
  split <;> (try split) <;> (try split) <;> (try split) <;> (try split) <;>
    (try split) <;> simp [toActivityDTO]

@[simp] theorem activityStep_ownerPositions (sig : String) (slot : Nat) (bt : Option Nat) (dl : List DecodedAccount) (snap : KV) (acc : KV × Nat) (a : String) :
    (activityStep sig slot bt dl snap acc a).1.ownerPositions = acc.1.ownerPositions := by
  obtain ⟨st, n⟩ := acc
  simp only [activityStep]
  split <;> (try split) <;> (try split) <;> (try split) <;> (try split) <;>
    (try split) <;> simp [toActivityDTO]

@[simp] theorem activityStep_authorityVaultsByUpdated (sig : String) (slot : Nat) (bt : Option Nat) (dl : List DecodedAccount) (snap : KV) (acc : KV × Nat) (a : String) :
    (activityStep sig slot bt dl snap acc a).1.authorityVaultsByUpdated = acc.1.authorityVaultsByUpdated := by
  obtain ⟨st, n⟩ := acc
  simp only [activityStep]
  split <;> (try split) <;> (try split) <;> (try split) <;> (try split) <;>
    (try split) <;> simp [toActivityDTO]

@[simp] theorem activityStep_ownerPositionsByUpdated (sig : String) (slot : Nat) (bt : Option Nat) (dl : List DecodedAccount) (snap : KV) (acc : KV × Nat) (a : String) :
    (activityStep sig slot bt dl snap acc a).1.ownerPositionsByUpdated = acc.1.ownerPositionsByUpdated := by
  obtain ⟨st, n⟩ := acc
  simp only [activityStep]
  split <;> (try split) <;> (try split) <;> (try split) <;> (try split) <;>
    (try split) <;> simp [toActivityDTO]

/-! ### Binding-preservation lemmas used by the monotonicity theorem -/

theorem plookup_pset {κ β : Type} [DecidableEq κ] (l : List (κ × β)) (k : κ)
    (v : β) : plookup (pset l k v) k = some v := by
  induction l with
  | nil => simp [pset, plookup]
  | cons hd tl ih =>
      by_cases h : k = hd.1
      · simp [pset, plookup, h]
      · simp [pset, plookup, h, ih]

theorem plookup_pset_ne {κ β : Type} [DecidableEq κ] (l : List (κ × β))
    (k k' : κ) (v : β) (h : k' ≠ k) :
    plookup (pset l k v) k' = plookup l k' := by
  induction l with
  | nil => simp [pset, plookup, h]
  | cons hd tl ih =>
      by_cases hk : k = hd.1
      · subst hk
        simp [pset, plookup, h, ih]
      · simp [pset, plookup, hk, ih]

theorem alookup_adel_ne {β : Type} (l : List (String × β)) (k k' : String)
    (h : k' ≠ k) : alookup (adel l k) k' = alookup l k' := by
  induction l with
  | nil => simp [adel]
  | cons hd tl ih =>
      by_cases hk : k = hd.1
      · subst hk
        simp [adel, alookup, h, ih]
      · by_cases hk' : k' = hd.1
        · simp [adel, alookup, hk, hk']
        · simp [adel, alookup, hk, hk', ih]

theorem slistAdd_mem_iff (s : List String) (m m' : String) (h : m' ≠ m) :
    (m' ∈ slistAdd s m) ↔ m' ∈ s := by
  unfold slistAdd
  split
  · rfl
  · simp [h]

theorem zaddAuth_authScore_ne (st : KV) (a : String) (s : Option VaultStatus)
    (sc : Nat) (m : String) (a' : String) (s' : Option VaultStatus)
    (m' : String) (h : m' ≠ m) :
    authScore (zaddAuth st a s sc m) a' s' m' = authScore st a' s' m' := by
  unfold authScore zaddAuth zsetAdd
  by_cases hk : (a', s') = (a, s)
  · rw [hk]
    simp [plookup_pset, alookup_aset_ne _ _ _ _ h]
  · simp [plookup_pset_ne _ _ _ _ hk]

theorem zremAuth_authScore_ne (st : KV) (a : String) (s : Option VaultStatus)
    (m : String) (a' : String) (s' : Option VaultStatus) (m' : String)
    (h : m' ≠ m) :
    authScore (zremAuth st a s m) a' s' m' = authScore st a' s' m' := by
  unfold authScore zremAuth zsetRem
  split
  · rfl
  · rename_i z hz
    by_cases hk : (a', s') = (a, s)
    · rw [hk]
      simp [plookup_pset, hz, alookup_adel_ne _ _ _ h]
    · simp [plookup_pset_ne _ _ _ _ hk]

theorem untouchedVault_refl (st0 : KV) (pda : String) :
    UntouchedVault st0 pda st0 := by
  exact ⟨rfl, fun _ _ => rfl, Iff.rfl, fun _ => Iff.rfl⟩

theorem foldl_preserve {α σ : Type} (f : σ → α → σ) (Q : σ → Prop)
    (l : List α) (h : ∀ s x, x ∈ l → Q s → Q (f s x)) (s : σ) (hs : Q s) :
    Q (List.foldl f s l) := by
  induction l generalizing s with
  | nil => exact hs
  | cons x xs ih =>
      exact ih (fun s' y hy hq => h s' y (List.mem_cons_of_mem _ hy) hq) _
        (h s x (List.mem_cons_self _ _) hs)

theorem zaddAuth_score_ne (st : KV) (a : String) (s : Option VaultStatus)
    (sc : Nat) (m : String) (k : String × Option VaultStatus) (m' : String)
    (h : m' ≠ m) :
    alookup ((plookup (zaddAuth st a s sc m).authorityVaultsByUpdated k).getD []) m' =
      alookup ((plookup st.authorityVaultsByUpdated k).getD []) m' := by
  unfold zaddAuth zsetAdd
  by_cases hk : k = (a, s)
  · subst hk
    simp [plookup_pset, alookup_aset_ne _ _ _ _ h]
  · simp [plookup_pset_ne _ _ _ _ hk]

theorem zremAuth_score_ne (st : KV) (a : String) (s : Option VaultStatus)
    (m : String) (k : String × Option VaultStatus) (m' : String)
    (h : m' ≠ m) :
    alookup ((plookup (zremAuth st a s m).authorityVaultsByUpdated k).getD []) m' =
      alookup ((plookup st.authorityVaultsByUpdated k).getD []) m' := by
  unfold zremAuth zsetRem
  split
  · rfl
  · rename_i z hz
    by_cases hk : k = (a, s)
    · subst hk
      simp [plookup_pset, hz, alookup_adel_ne _ _ _ h]
    · simp [plookup_pset_ne _ _ _ _ hk]

theorem saddAuthorityVaults_mem_ne (st : KV) (a m a' m' : String) (h : m' ≠ m) :
    (m' ∈ (alookup (saddAuthorityVaults st a m).authorityVaults a').getD []) ↔
      m' ∈ (alookup st.authorityVaults a').getD [] := by
  unfold saddAuthorityVaults
  by_cases hk : a' = a
  · subst hk
    simp [alookup_aset, slistAdd_mem_iff _ _ _ h]
  · simp [alookup_aset_ne _ _ _ _ hk]

theorem closeVaultStep_untouched (st0 : KV) (pda sig : String) (slot : Nat)
    (bt : Option Nat) (now : Nat) (acc : KV × Nat) (P : String)
    (hP : P ≠ pda) (h : UntouchedVault st0 pda acc.1) :
    UntouchedVault st0 pda (closeVaultStep sig slot bt now acc P).1 := by
  obtain ⟨st, n⟩ := acc
  obtain ⟨h1, h2, h3, h4⟩ := h
  have hne : pda ≠ P := Ne.symm hP
  simp only [authScore] at h2
  simp only [closeVaultStep]
  split <;> (try split) <;> (try split) <;> (try split) <;>
    simp_all [UntouchedVault, authScore, toActivityDTO, alookup_aset_ne,
      zaddAuth_score_ne, zremAuth_score_ne]

theorem claimStep_untouched (st0 : KV) (pda sig : String) (slot : Nat)
    (bt : Option Nat) (now : Nat) (acc : KV × Nat) (P : String)
    (h : UntouchedVault st0 pda acc.1) :
    UntouchedVault st0 pda (claimStep sig slot bt now acc P).1 := by
  obtain ⟨h1, h2, h3, h4⟩ := h
  simp only [authScore] at h2
  exact ⟨by simp [h1], by simp [authScore, h2], by simp [h3], by simp [h4]⟩

theorem activityStep_untouched (st0 : KV) (pda sig : String) (slot : Nat)
    (bt : Option Nat) (dl : List DecodedAccount) (snap : KV) (acc : KV × Nat)
    (a : String) (h : UntouchedVault st0 pda acc.1) :
    UntouchedVault st0 pda (activityStep sig slot bt dl snap acc a).1 := by
  obtain ⟨h1, h2, h3, h4⟩ := h
  simp only [authScore] at h2
  exact ⟨by simp [h1], by simp [authScore, h2], by simp [h3], by simp [h4]⟩

theorem decodedStep_untouched (st0 : KV) (pda : String) (slot : Nat)
    (bt : Option Nat) (now : Nat) (snap st : KV) (item : DecodedAccount)
    (v : VaultDTO) (s : Nat)
    (hsnap : alookup snap.vaults pda = some v) (hslot : v.slot = some s)
    (hstale : slot < s) (h : UntouchedVault st0 pda st) :
    UntouchedVault st0 pda (decodedStep slot bt now snap st item) := by
  obtain ⟨h1, h2, h3, h4⟩ := h
  simp only [authScore] at h2
  cases item with
  | position pda' p =>
      simp only [decodedStep]
      split
      · exact ⟨h1, by simp [authScore, h2], h3, h4⟩
      · exact ⟨by simp [h1], by simp [authScore, h2], by simp [h3], by simp [h4]⟩
  | vault pda' d =>
      by_cases hpda : pda' = pda
      · subst hpda
        have hdec : decide (slot < s) = true := by simp [hstale]
        simp only [decodedStep, hsnap, toVaultDTO, hslot, hdec, if_true]
        exact ⟨h1, by simp [authScore, h2], h3, h4⟩
      · have hne : pda ≠ pda' := Ne.symm hpda
        simp only [decodedStep]
        split
        · exact ⟨h1, by simp [authScore, h2], h3, h4⟩
        · split <;>
            (try split) <;>
            simp_all [UntouchedVault, authScore, toVaultDTO, alookup_aset_ne,
              zaddAuth_score_ne, zremAuth_score_ne, slistAdd_mem_iff,
              saddAuthorityVaults_mem_ne]

theorem absentKeys_mem (e : IngestEvent) (P : String) (h : P ∈ absentKeys e) :
    (P, FetchResult.absent) ∈ e.accounts := by
  unfold absentKeys at h
  rw [List.mem_filterMap] at h
  obtain ⟨⟨P', fr⟩, hmem, hval⟩ := h
  by_cases hfr : fr = .absent
  · subst hfr
    simp at hval
    subst hval
    exact hmem
  · simp [hfr] at hval

/-- Vault half of the stale-slot gate: when the cached vault has a
non-null version s, the event version is strictly lower, and every
occurrence of the vault's address in the transaction is a decoded vault
update, ingest leaves the stored record, its score bindings in every
per-authority ordered index, and its set memberships unchanged. -/
theorem stale_decoded_vault_update_skipped (st : KV) (e : IngestEvent)
    (now : Nat) (pda : String) (v : VaultDTO) (s : Nat)
    (hv : alookup st.vaults pda = some v) (hslot : v.slot = some s)
    (hstale : e.slot < s)
    (hocc : ∀ fr, (pda, fr) ∈ e.accounts → ∃ d, fr = FetchResult.vault d) :
    alookup (processItem st e now).1.vaults pda = some v ∧
    UntouchedVault st pda (processItem st e now).1 := by
  have hUV0 : UntouchedVault st pda st := untouchedVault_refl st pda
  have hne : ∀ P ∈ absentKeys e, P ≠ pda := by
    intro P hP hEq
    subst hEq
    obtain ⟨d, hd⟩ := hocc .absent (absentKeys_mem e P hP)
    cases hd
  suffices hU : UntouchedVault st pda (processItem st e now).1 by
    exact ⟨by rw [hU.1, hv], hU⟩
  simp only [processItem]
  split
  · exact hUV0
  · split
    · exact foldl_preserve _ (fun acc => UntouchedVault st pda acc.1) _
        (fun acc P hP hq =>
          closeVaultStep_untouched st pda e.signature e.slot e.blockTime now acc P
            (hne P hP) hq) (st, 0) hUV0
    · set acc1 := (if "claim" ∈ e.actions then
          (absentKeys e).foldl (claimStep e.signature e.slot e.blockTime now) (st, 0)
        else (st, 0)) with hacc1def
      have hacc1 : UntouchedVault st pda acc1.1 := by
        rw [hacc1def]
        split
        · exact foldl_preserve _ (fun acc => UntouchedVault st pda acc.1) _
            (fun acc P _ hq =>
              claimStep_untouched st pda e.signature e.slot e.blockTime now acc P hq)
            (st, 0) hUV0
        · exact hUV0
      split
      · exact hacc1
      · have hsnap : alookup acc1.1.vaults pda = some v := by
          rw [hacc1.1]
          exact hv
        have hdec : UntouchedVault st pda
            ((decodedOf e).foldl (decodedStep e.slot e.blockTime now acc1.1) acc1.1) :=
          foldl_preserve _ (fun st' => UntouchedVault st pda st') _
            (fun st' item _ hq =>
              decodedStep_untouched st pda e.slot e.blockTime now acc1.1 st' item v s
                hsnap hslot hstale hq) acc1.1 hacc1
        exact foldl_preserve
          (activityStep e.signature e.slot e.blockTime (decodedOf e) acc1.1)
          (fun acc => UntouchedVault st pda acc.1) e.actions
          (fun acc a _ hq =>
            activityStep_untouched st pda e.signature e.slot e.blockTime
              (decodedOf e) acc1.1 acc a hq)
          ((decodedOf e).foldl (decodedStep e.slot e.blockTime now acc1.1) acc1.1, acc1.2)
          hdec

theorem indexEntryOK_spec (st : KV) (statusF : Option VaultStatus)
    (ms : String × Nat) (h : indexEntryOK st statusF ms = true) :
    ∃ v, alookup st.vaults ms.1 = some v ∧ v.vaultPda = ms.1 ∧
      v.updatedAtEpoch = ms.2 ∧ (∀ σ, statusF = some σ → v.status = σ) := by
  unfold indexEntryOK at h
  split at h
  · rename_i v hv
    refine ⟨v, hv, ?_, ?_, ?_⟩
    · simp at h
      exact h.1.1
    · simp at h
      exact h.1.2
    · intro σ hσ
      subst hσ
      simp at h
      exact h.2
  · exact absurd h (by simp)

theorem memberHasDTO_spec (st : KV) (pda : String)
    (h : memberHasDTO st pda = true) :
    ∃ v, alookup st.vaults pda = some v ∧ v.vaultPda = pda := by
  unfold memberHasDTO at h
  split at h
  · rename_i v hv
    exact ⟨v, hv, by simpa using h⟩
  · exact absurd h (by simp)

theorem dtosOf_mem (st : KV) (statusF : Option VaultStatus)
    (l : List (String × Nat)) (hok : ∀ ms ∈ l, indexEntryOK st statusF ms = true)
    (w : VaultDTO) (hw : w ∈ dtosOf st (l.map Prod.fst)) :
    ∃ ms ∈ l, alookup st.vaults ms.1 = some w ∧ w.updatedAtEpoch = ms.2 := by
  unfold dtosOf at hw
  rw [List.mem_filterMap] at hw
  obtain ⟨m, hm, hlk⟩ := hw
  rw [List.mem_map] at hm
  obtain ⟨ms, hms, rfl⟩ := hm
  obtain ⟨v, hv, _, hep, _⟩ := indexEntryOK_spec st statusF ms (hok ms hms)
  rw [hv] at hlk
  obtain rfl := Option.some.injEq _ _ ▸ hlk
  exact ⟨ms, hms, hv, by simp [hep]⟩

theorem dtosOf_sorted (st : KV) (statusF : Option VaultStatus)
    (l : List (String × Nat)) (hok : ∀ ms ∈ l, indexEntryOK st statusF ms = true)
    (hs : l.Pairwise (fun a b => b.2 ≤ a.2)) :
    (dtosOf st (l.map Prod.fst)).Pairwise
      (fun a b => b.updatedAtEpoch ≤ a.updatedAtEpoch) := by
  induction l with
  | nil => simp [dtosOf]
  | cons hd tl ih =>
      obtain ⟨v, hv, _, hep, _⟩ := indexEntryOK_spec st statusF hd
        (hok hd (List.mem_cons_self _ _))
      rw [List.pairwise_cons] at hs
      have htl := ih (fun ms hms => hok ms (List.mem_cons_of_mem _ hms)) hs.2
      simp only [dtosOf, List.map_cons, List.filterMap_cons, hv]
      refine List.Pairwise.cons ?_ htl
      intro w hw
      obtain ⟨ms, hms, _, hwep⟩ := dtosOf_mem st statusF tl
        (fun ms hms => hok ms (List.mem_cons_of_mem _ hms)) w hw
      rw [hwep, hep]
      exact hs.1 ms hms

theorem dtosOf_epochs (st : KV) (statusF : Option VaultStatus)
    (l : List (String × Nat)) (hok : ∀ ms ∈ l, indexEntryOK st statusF ms = true) :
    (dtosOf st (l.map Prod.fst)).map (·.updatedAtEpoch) = l.map Prod.snd := by
  induction l with
  | nil => simp [dtosOf]
  | cons hd tl ih =>
      obtain ⟨v, hv, _, hep, _⟩ := indexEntryOK_spec st statusF hd
        (hok hd (List.mem_cons_self _ _))
      have ih' := ih (fun ms hms => hok ms (List.mem_cons_of_mem _ hms))
      simp only [dtosOf, List.filterMap_map] at ih'
      simp only [dtosOf, List.map_cons, List.filterMap_cons, hv]
      simp [hep, ih']

theorem filterMap_take_of_all_some {α β : Type} (f : α → Option β)
    (l : List α) (k : Nat) (h : ∀ x ∈ l, (f x).isSome) :
    (l.take k).filterMap f = (l.filterMap f).take k := by
  induction l generalizing k with
  | nil => simp
  | cons x xs ih =>
      cases k with
      | zero => simp
      | succ k' =>
          obtain ⟨y, hy⟩ := Option.isSome_iff_exists.mp (h x (List.mem_cons_self _ _))
          simp [List.take_succ_cons, List.filterMap_cons, hy,
            ih k' (fun a ha => h a (List.mem_cons_of_mem _ ha))]


theorem pairwise_getLast {α : Type} {r : α → α → Prop} :
    ∀ {l : List α}, l.Pairwise r → ∀ {b}, l.getLast? = some b →
      ∀ a ∈ l, r a b ∨ a = b := by
  intro l
  induction l with
  | nil => intro _ b hb; simp at hb
  | cons x tl ih =>
      intro hp b hb a ha
      rw [List.pairwise_cons] at hp
      cases tl with
      | nil =>
          simp at hb ha
          subst hb
          subst ha
          exact Or.inr rfl
      | cons y tl' =>
          rw [List.getLast?_cons_cons] at hb
          rcases List.mem_cons.mp ha with rfl | ha'
          · exact Or.inl (hp.1 b (List.mem_of_mem_getLast? hb))
          · exact ih hp.2 hb a ha'

theorem eq_of_perm_pairwise_key {α : Type} (key : α → Nat) :
    ∀ (l₁ l₂ : List α), l₁.Perm l₂ →
      l₁.Pairwise (fun a b => key b ≤ key a) →
      l₂.Pairwise (fun a b => key b ≤ key a) →
      (l₁.map key).Nodup → l₁ = l₂ := by
  intro l₁
  induction l₁ with
  | nil => intro l₂ hperm _ _ _; exact (List.Perm.nil_eq hperm).symm ▸ rfl
  | cons a t₁ ih =>
      intro l₂ hperm hp₁ hp₂ hnd
      cases l₂ with
      | nil => exact absurd hperm.symm (by simp)
      | cons b t₂ =>
          rw [List.pairwise_cons] at hp₁ hp₂
          have hab : a = b := by
            have hamem : a ∈ b :: t₂ := hperm.mem_iff.mp (List.mem_cons_self _ _)
            rcases List.mem_cons.mp hamem with h | ha2
            · exact h
            · have hka : key a ≤ key b := hp₂.1 a ha2
              have hbmem : b ∈ a :: t₁ := hperm.symm.mem_iff.mp (List.mem_cons_self _ _)
              rcases List.mem_cons.mp hbmem with h | hb1
              · exact h.symm
              · have hkb : key b ≤ key a := hp₁.1 b hb1
                have hk : key a = key b := le_antisymm hka hkb
                rw [List.map_cons, List.nodup_cons] at hnd
                exact absurd (hk ▸ List.mem_map_of_mem key hb1) hnd.1
          subst hab
          have := ih t₂ (List.Perm.cons_inv hperm) hp₁.2 hp₂.2
            (by rw [List.map_cons, List.nodup_cons] at hnd; exact hnd.2)
          rw [this]

theorem pageOf_eq (filtered : List VaultDTO) (L : Nat) :
    pageOf filtered L = .ok (filtered.take L)
      (if L < filtered.length then
        ((filtered.take L).getLast?).map (·.updatedAtEpoch)
      else none)
      (if L < filtered.length then none else some filtered.length) := by
  unfold pageOf
  by_cases h : L < filtered.length
  · simp only [gt_iff_lt, h, decide_True, if_true]
    cases hl : (filtered.take L).getLast? <;> simp [hl]
  · simp [h]

theorem pageOf_take (X : List VaultDTO) (L : Nat) :
    pageOf (X.take (L + 1)) L = pageOf X L := by
  rw [pageOf_eq, pageOf_eq]
  have hlen : (X.take (L + 1)).length = min (L + 1) X.length := List.length_take _ _
  by_cases h : L < X.length
  · have h1 : L < (X.take (L + 1)).length := by
      rw [hlen]
      omega
    have h2 : (X.take (L + 1)).take L = X.take L := by
      rw [List.take_take]
      simp [Nat.min_def]
    simp [h, h1, h2]
  · have h1 : ¬ L < (X.take (L + 1)).length := by
      rw [hlen]
      omega
    have h2 : X.take (L + 1) = X := List.take_of_length_le (by omega)
    simp [h, h1, h2]


theorem vaultsFromIndex_decomp (st : KV) (q : VaultsQuery) (z : Zset)
    (hz : (plookup st.authorityVaultsByUpdated (q.authority, q.status)).getD [] = z)
    (hok : ∀ ms ∈ z, indexEntryOK st q.status ms = true) :
    vaultsFromIndex st q =
      pageOf ((dtosOf st ((List.insertionSort (fun a b : String × Nat => b.2 ≤ a.2)
        (z.filter (cursorPred q.cursor))).map Prod.fst)).take (q.limit + 1))
        q.limit := by
  unfold vaultsFromIndex zrevrangebyscore
  rw [hz]
  have hsome : ∀ m ∈ (List.insertionSort (fun a b : String × Nat => b.2 ≤ a.2)
      (z.filter (cursorPred q.cursor))).map Prod.fst,
      (alookup st.vaults m).isSome := by
    intro m hm
    rw [List.mem_map] at hm
    obtain ⟨ms, hms, rfl⟩ := hm
    have hz' : ms ∈ z :=
      List.mem_of_mem_filter ((List.perm_insertionSort _ _).mem_iff.mp hms)
    obtain ⟨v, hv, _⟩ := indexEntryOK_spec st q.status ms (hok ms hz')
    simp [hv]
  dsimp only
  congr 1
  rw [List.map_take, filterMap_take_of_all_some _ _ _ hsome]
  rfl


/-- C5: over a consistent ordered index, a first page (no cursor)
returning nextCursor c and a second page queried with cursor c satisfy:
both pages hold at most limit items, the first page is sorted by score
descending, every first-page item scores at least c, every second-page
item scores strictly below c (so items tied at the cursor score are all
excluded together), and no item reappears across the pages. -/
theorem index_pagination_exact (st : KV) (q : VaultsQuery) (z : Zset)
    (hz : (plookup st.authorityVaultsByUpdated (q.authority, q.status)).getD [] = z)
    (hok : ∀ ms ∈ z, indexEntryOK st q.status ms = true)
    (items₁ : List VaultDTO) (c : Nat) (t₁ : Option Nat)
    (h1 : vaultsFromIndex st { q with cursor := none } = .ok items₁ (some c) t₁)
    (items₂ : List VaultDTO) (nc₂ t₂ : Option Nat)
    (h2 : vaultsFromIndex st { q with cursor := some c } = .ok items₂ nc₂ t₂) :
    items₁.length ≤ q.limit ∧ items₂.length ≤ q.limit ∧
    items₁.Pairwise (fun a b => b.updatedAtEpoch ≤ a.updatedAtEpoch) ∧
    (∀ v ∈ items₁, c ≤ v.updatedAtEpoch) ∧
    (∀ v ∈ items₂, v.updatedAtEpoch < c) ∧
    (∀ v ∈ items₂, v ∉ items₁) := by
  rw [vaultsFromIndex_decomp st { q with cursor := none } z hz hok,
    pageOf_take, pageOf_eq] at h1
  rw [vaultsFromIndex_decomp st { q with cursor := some c } z hz hok,
    pageOf_take, pageOf_eq] at h2
  simp only [VaultsResult.ok.injEq] at h1 h2
  obtain ⟨hi₁, hnc₁, -⟩ := h1
  obtain ⟨hi₂, -, -⟩ := h2
  set S₁ := List.insertionSort (fun a b : String × Nat => b.2 ≤ a.2)
    (z.filter (cursorPred none)) with hS₁def
  set S₂ := List.insertionSort (fun a b : String × Nat => b.2 ≤ a.2)
    (z.filter (cursorPred (some c))) with hS₂def
  have hokS₁ : ∀ ms ∈ S₁, indexEntryOK st q.status ms = true := by
    intro ms hms
    exact hok ms (List.mem_of_mem_filter
      ((List.perm_insertionSort _ _).mem_iff.mp hms))
  have hokS₂ : ∀ ms ∈ S₂, indexEntryOK st q.status ms = true := by
    intro ms hms
    exact hok ms (List.mem_of_mem_filter
      ((List.perm_insertionSort _ _).mem_iff.mp hms))
  have hsorted₁ : (dtosOf st (S₁.map Prod.fst)).Pairwise
      (fun a b => b.updatedAtEpoch ≤ a.updatedAtEpoch) :=
    dtosOf_sorted st q.status S₁ hokS₁
      (List.sorted_insertionSort _ _)
  have hpair₁ : items₁.Pairwise (fun a b => b.updatedAtEpoch ≤ a.updatedAtEpoch) := by
    rw [← hi₁]
    exact hsorted₁.sublist (List.take_sublist _ _)
  by_cases hmore : q.limit < (dtosOf st (S₁.map Prod.fst)).length
  · rw [if_pos hmore] at hnc₁
    obtain ⟨last, hlast, hlastc⟩ := Option.map_eq_some'.mp hnc₁
    have hmin : ∀ v ∈ items₁, c ≤ v.updatedAtEpoch := by
      intro v hv
      rw [← hi₁] at hv
      rcases pairwise_getLast (hpair₁.sublist (hi₁ ▸ List.Sublist.refl _)) (hi₁ ▸ hlast) v (hi₁ ▸ hv) with h | h
      · rw [← hlastc]
        exact h
      · rw [h, ← hlastc]
    have hlt₂ : ∀ v ∈ items₂, v.updatedAtEpoch < c := by
      intro v hv
      rw [← hi₂] at hv
      have hvD : v ∈ dtosOf st (S₂.map Prod.fst) := List.mem_of_mem_take hv
      obtain ⟨ms, hms, -, hep⟩ := dtosOf_mem st q.status S₂ hokS₂ v hvD
      have hmsz : ms ∈ z.filter (cursorPred (some c)) :=
        (List.perm_insertionSort _ _).mem_iff.mp hms
      have := (List.mem_filter.mp hmsz).2
      simp only [cursorPred, decide_eq_true_eq] at this
      rw [hep]
      exact this
    refine ⟨?_, ?_, hpair₁, hmin, hlt₂, ?_⟩
    · rw [← hi₁]
      exact (List.length_take _ _).le.trans (Nat.min_le_left _ _)
    · rw [← hi₂]
      exact (List.length_take _ _).le.trans (Nat.min_le_left _ _)
    · intro v hv2 hv1
      exact absurd (hmin v hv1) (by simpa using (hlt₂ v hv2).not_le.imp id)
  · rw [if_neg hmore] at hnc₁
    cases hnc₁


theorem index_pagination_exact_witness :
    (vaultsFromIndex pagStore
      { authority := "A", status := none, cursor := none, limit := 2 } =
      .ok [pagVault "v1" 500, pagVault "v2" 400] (some 400) none) ∧
    (vaultsFromIndex pagStore
      { authority := "A", status := none, cursor := some 400, limit := 2 } =
      .ok [pagVault "v3" 300, pagVault "v4" 200] (some 200) none) ∧
    (∀ v ∈ [pagVault "v3" 300, pagVault "v4" 200],
      v ∉ [pagVault "v1" 500, pagVault "v2" 400]) := by
  refine ⟨by decide, by decide, ?_⟩
  have h := index_pagination_exact pagStore
    { authority := "A", status := none, cursor := none, limit := 2 }
    [("v1", 500), ("v2", 400), ("v3", 300), ("v4", 200), ("v5", 100)]
    rfl (by decide)
    [pagVault "v1" 500, pagVault "v2" 400] 400 none (by decide)
    [pagVault "v3" 300, pagVault "v4" 200] (some 200) none (by decide)
  exact h.2.2.2.2.2


theorem dtos_filter_comm (st : KV) (f : Option VaultStatus) (mem : List String)
    (hmok : ∀ pda ∈ mem, memberHasDTO st pda = true) :
    dtosOf st (mem.filter (statusMatch st f)) =
      (match f with
       | some σ => (dtosOf st mem).filter (fun v => decide (v.status = σ))
       | none => dtosOf st mem) := by
  induction mem with
  | nil => cases f <;> simp [dtosOf]
  | cons pda tl ih =>
      obtain ⟨v, hv, -⟩ := memberHasDTO_spec st pda (hmok pda (List.mem_cons_self _ _))
      have ih' := ih (fun p hp => hmok p (List.mem_cons_of_mem _ hp))
      cases f with
      | none =>
          simp only [statusMatch, List.filter_cons, hv, dtosOf, List.filterMap_cons] at ih' ⊢
          simp [List.filterMap_cons, hv, ih']
      | some σ =>
          by_cases hs : v.status = σ
          · simp only [statusMatch, List.filter_cons, hv, hs, dtosOf,
              List.filterMap_cons] at ih' ⊢
            simp [List.filterMap_cons, hv, ih', hs]
          · simp only [statusMatch, List.filter_cons, hv, dtosOf,
              List.filterMap_cons] at ih' ⊢
            simp [List.filterMap_cons, hv, ih', hs]

/-- C6 amended: for a consistent store (ordered index entries match
the stored blobs and, as a multiset, exactly the status-filtered
membership set) with pairwise-distinct scores and a membership set within
the cap, a cursorless query takes the same page from the SET fallback as
from the ordered index; and any membership set beyond the cap makes the
fallback fail with the retryable 503. -/
theorem fallback_equivalence (st : KV) (q : VaultsQuery) (z : Zset)
    (mem : List String)
    (hz : (plookup st.authorityVaultsByUpdated (q.authority, q.status)).getD [] = z)
    (hmem : (alookup st.authorityVaults q.authority).getD [] = mem)
    (hcur : q.cursor = none)
    (hcap : mem.length ≤ MAX_SET_SIZE)
    (hok : ∀ ms ∈ z, indexEntryOK st q.status ms = true)
    (hmok : ∀ pda ∈ mem, memberHasDTO st pda = true)
    (hperm : (z.map Prod.fst).Perm (mem.filter (statusMatch st q.status)))
    (hdist : (z.map Prod.snd).Nodup) :
    vaultsFromSet st q = vaultsFromIndex st q ∧
    (∀ (st' : KV) (q' : VaultsQuery),
      MAX_SET_SIZE < ((alookup st'.authorityVaults q'.authority).getD []).length →
      vaultsFromSet st' q' = .unavailable) := by
  constructor
  · have hfz : z.filter (cursorPred q.cursor) = z := by
      rw [hcur]
      have : ∀ ms ∈ z, cursorPred none ms = true := fun ms _ => rfl
      exact List.filter_eq_self.mpr this
    rw [vaultsFromIndex_decomp st q z hz hok, hfz, pageOf_take]
    unfold vaultsFromSet
    rw [hmem, if_neg (by omega)]
    dsimp only
    have hokS : ∀ ms ∈ List.insertionSort (fun a b : String × Nat => b.2 ≤ a.2) z,
        indexEntryOK st q.status ms = true := by
      intro ms hms
      exact hok ms ((List.perm_insertionSort _ _).mem_iff.mp hms)
    congr 1
    apply eq_of_perm_pairwise_key (fun v : VaultDTO => v.updatedAtEpoch)
    · -- permutation between the two page sources
      have p1 : (List.insertionSort
          (fun a b : VaultDTO => b.updatedAtEpoch ≤ a.updatedAtEpoch)
          (match q.status with
           | some s => (dtosOf st mem).filter (fun v => decide (v.status = s))
           | none => dtosOf st mem)).Perm
          (dtosOf st (mem.filter (statusMatch st q.status))) := by
        rw [dtos_filter_comm st q.status mem hmok]
        exact List.perm_insertionSort _ _
      have p2 : (dtosOf st (mem.filter (statusMatch st q.status))).Perm
          (dtosOf st (z.map Prod.fst)) := (hperm.filterMap _).symm
      have p3 : (dtosOf st (z.map Prod.fst)).Perm
          (dtosOf st ((List.insertionSort (fun a b : String × Nat => b.2 ≤ a.2) z).map
            Prod.fst)) :=
        ((List.perm_insertionSort _ _).map Prod.fst).filterMap _ |>.symm
      exact (p1.trans p2).trans p3
    · exact List.sorted_insertionSort _ _
    · exact dtosOf_sorted st q.status _ hokS (List.sorted_insertionSort _ _)
    · -- distinct epochs on the sorted fallback list
      have hkeys : ((List.insertionSort
          (fun a b : VaultDTO => b.updatedAtEpoch ≤ a.updatedAtEpoch)
          (match q.status with
           | some s => (dtosOf st mem).filter (fun v => decide (v.status = s))
           | none => dtosOf st mem)).map (fun v : VaultDTO => v.updatedAtEpoch)).Perm
          (z.map Prod.snd) := by
        have p1 : (List.insertionSort
            (fun a b : VaultDTO => b.updatedAtEpoch ≤ a.updatedAtEpoch)
            (match q.status with
             | some s => (dtosOf st mem).filter (fun v => decide (v.status = s))
             | none => dtosOf st mem)).Perm (dtosOf st (z.map Prod.fst)) := by
          rw [← dtos_filter_comm st q.status mem hmok]
          exact (List.perm_insertionSort _ _).trans (hperm.filterMap _).symm
        have := p1.map (fun v : VaultDTO => v.updatedAtEpoch)
        rw [dtosOf_epochs st q.status z hok] at this
        exact this
      exact hkeys.nodup_iff.mpr hdist
  · intro st' q' hbig
    unfold vaultsFromSet
    rw [if_pos (by omega)]


/-- C6 counterexample: on a fully consistent store far below the
capacity cap, a query carrying cursor 300 with limit 1 returns the page
after the cursor through the ordered index, but the SET fallback ignores
the cursor and returns the first page again — the two paths disagree for
cursor-carrying queries. -/
theorem fallback_ignores_cursor :
    vaultsFromSet pagStore
      { authority := "A", status := none, cursor := some 300, limit := 1 } ≠
    vaultsFromIndex pagStore
      { authority := "A", status := none, cursor := some 300, limit := 1 } ∧
    ((alookup pagStore.authorityVaults "A").getD []).length ≤ MAX_SET_SIZE ∧
    vaultsFromSet pagStore
      { authority := "A", status := none, cursor := some 300, limit := 1 } =
      .ok [pagVault "v1" 500] (some 500) none ∧
    vaultsFromIndex pagStore
      { authority := "A", status := none, cursor := some 300, limit := 1 } =
      .ok [pagVault "v4" 200] (some 200) none := by
  refine ⟨by decide, by decide, by decide, by decide⟩

/-- Witness for C6 amended on the five-vault store: the cursorless
fallback and ordered-index pages agree. -/
theorem fallback_equivalence_witness :
    vaultsFromSet pagStore
      { authority := "A", status := none, cursor := none, limit := 2 } =
    vaultsFromIndex pagStore
      { authority := "A", status := none, cursor := none, limit := 2 } := by
  have h := fallback_equivalence pagStore
    { authority := "A", status := none, cursor := none, limit := 2 }
    [("v1", 500), ("v2", 400), ("v3", 300), ("v4", 200), ("v5", 100)]
    ["v3", "v1", "v5", "v2", "v4"]
    rfl rfl rfl (by decide) (by decide) (by decide) (by decide) (by decide)
  exact h.1

/-! ### Write-same-value fixpoint lemmas (idempotence development) -/

theorem pset_self {κ β : Type} [DecidableEq κ] (l : List (κ × β)) (k : κ) (v : β)
    (h : plookup l k = some v) : pset l k v = l := by
  induction l with
  | nil => simp [plookup] at h
  | cons hd tl ih =>
      obtain ⟨k', v'⟩ := hd
      by_cases hk : k = k'
      · subst hk
        simp [plookup] at h
        simp [pset, h]
      · simp [plookup, hk] at h
        simp [pset, hk, ih h]

theorem alookup_aset_isSome {β : Type} (l : List (String × β)) (k' : String)
    (v : β) (k : String) (h : (alookup l k).isSome = true) :
    (alookup (aset l k' v) k).isSome = true := by
  by_cases hk : k = k'
  · subst hk
    simp [alookup_aset]
  · rwa [alookup_aset_ne _ _ _ _ hk]

theorem mem_slistAdd_of_mem (s : List String) (m m' : String) (h : m ∈ s) :
    m ∈ slistAdd s m' := by
  unfold slistAdd
  split
  · exact h
  · exact List.mem_append_left _ h

theorem mem_slistAdd_self (s : List String) (m : String) : m ∈ slistAdd s m := by
  unfold slistAdd
  split
  · assumption
  · exact List.mem_append_right _ (List.mem_singleton.mpr rfl)

theorem zscore_zadd_self (store : List (String × Zset)) (k m : String) (sc : Nat) :
    zscore (aset store k (zsetAdd ((alookup store k).getD []) sc m)) k m = some sc := by
  unfold zscore zsetAdd
  rw [alookup_aset]
  simp [alookup_aset]

theorem zscore_zadd_ne (store : List (String × Zset)) (k0 : String) (sc : Nat)
    (m k m' : String) (h : m' ≠ m) :
    zscore (aset store k0 (zsetAdd ((alookup store k0).getD []) sc m)) k m' =
      zscore store k m' := by
  unfold zscore zsetAdd
  by_cases hk : k = k0
  · subst hk
    rw [alookup_aset]
    simp [alookup_aset_ne _ _ _ _ h]
  · rw [alookup_aset_ne _ _ _ _ hk]

theorem zscore_some_elim (store : List (String × Zset)) (k m : String) (sc : Nat)
    (h : zscore store k m = some sc) :
    ∃ z, alookup store k = some z ∧ alookup z m = some sc := by
  unfold zscore at h
  cases hz : alookup store k with
  | none => rw [hz] at h; simp [alookup] at h
  | some z => rw [hz] at h; exact ⟨z, rfl, h⟩

theorem foldl_fix {α σ : Type} (f : σ → α → σ) (l : List α) (s : σ)
    (h : ∀ x ∈ l, f s x = s) : List.foldl f s l = s := by
  induction l with
  | nil => rfl
  | cons x xs ih =>
      have hx := h x (List.mem_cons_self _ _)
      simp only [List.foldl_cons, hx]
      exact ih fun y hy => h y (List.mem_cons_of_mem _ hy)

theorem foldl_establish {α σ : Type} (f : σ → α → σ) (C : α → σ → Prop)
    (l : List α)
    (hpost : ∀ s x, x ∈ l → C x (f s x))
    (hkeep : ∀ s x y, x ∈ l → y ∈ l → C x s → C x (f s y)) :
    ∀ s, ∀ x ∈ l, C x (List.foldl f s l) := by
  induction l with
  | nil => intro s x hx; cases hx
  | cons y ys ih =>
      intro s x hx
      rcases List.mem_cons.mp hx with hxy | hxs
      · subst hxy
        simp only [List.foldl_cons]
        exact foldl_preserve f (C x) ys
          (fun s' z hz hq =>
            hkeep s' x z (List.mem_cons_self _ _) (List.mem_cons_of_mem _ hz) hq)
          _ (hpost s x (List.mem_cons_self _ _))
      · simp only [List.foldl_cons]
        exact ih
          (fun s' z hz => hpost s' z (List.mem_cons_of_mem _ hz))
          (fun s' z w hz hw hq =>
            hkeep s' z w (List.mem_cons_of_mem _ hz) (List.mem_cons_of_mem _ hw) hq)
          (f s y) x hxs

theorem zaddOwnerPositions_fix (st : KV) (o : String) (sc : Nat) (m : String)
    (h : zscore st.ownerPositionsByUpdated o m = some sc) :
    zaddOwnerPositions st o sc m = st := by
  obtain ⟨z, hz, hm⟩ := zscore_some_elim _ _ _ _ h
  unfold zaddOwnerPositions zsetAdd
  rw [hz]
  simp only [Option.getD_some]
  rw [aset_self _ _ _ hm, aset_self _ _ _ hz]

theorem zaddVaultActivity_fix (st : KV) (k : String) (sc : Nat) (m : String)
    (h : zscore st.vaultActivity k m = some sc) :
    zaddVaultActivity st k sc m = st := by
  obtain ⟨z, hz, hm⟩ := zscore_some_elim _ _ _ _ h
  unfold zaddVaultActivity zsetAdd
  rw [hz]
  simp only [Option.getD_some]
  rw [aset_self _ _ _ hm, aset_self _ _ _ hz]

theorem zaddOwnerActivity_fix (st : KV) (k : String) (sc : Nat) (m : String)
    (h : zscore st.ownerActivity k m = some sc) :
    zaddOwnerActivity st k sc m = st := by
  obtain ⟨z, hz, hm⟩ := zscore_some_elim _ _ _ _ h
  unfold zaddOwnerActivity zsetAdd
  rw [hz]
  simp only [Option.getD_some]
  rw [aset_self _ _ _ hm, aset_self _ _ _ hz]

theorem authScore_some_elim (st : KV) (a : String) (s : Option VaultStatus)
    (m : String) (sc : Nat) (h : authScore st a s m = some sc) :
    ∃ z, plookup st.authorityVaultsByUpdated (a, s) = some z ∧
      alookup z m = some sc := by
  unfold authScore at h
  cases hz : plookup st.authorityVaultsByUpdated (a, s) with
  | none => rw [hz] at h; simp [alookup] at h
  | some z => rw [hz] at h; exact ⟨z, rfl, h⟩

theorem zaddAuth_fix (st : KV) (a : String) (s : Option VaultStatus) (sc : Nat)
    (m : String) (h : authScore st a s m = some sc) :
    zaddAuth st a s sc m = st := by
  obtain ⟨z, hz, hm⟩ := authScore_some_elim _ _ _ _ _ h
  unfold zaddAuth zsetAdd
  rw [hz]
  simp only [Option.getD_some]
  rw [aset_self _ _ _ hm, pset_self _ _ _ hz]

theorem saddAuthorityVaults_fix (st : KV) (a : String) (m : String)
    (h : m ∈ (alookup st.authorityVaults a).getD []) :
    saddAuthorityVaults st a m = st := by
  unfold saddAuthorityVaults
  cases hz : alookup st.authorityVaults a with
  | none => rw [hz] at h; simp at h
  | some z =>
      rw [hz] at h
      simp only [Option.getD_some] at h
      simp only [Option.getD_some]
      rw [slistAdd_mem _ _ h, aset_self _ _ _ hz]

theorem saddOwnerPositions_fix (st : KV) (o : String) (m : String)
    (h : m ∈ (alookup st.ownerPositions o).getD []) :
    saddOwnerPositions st o m = st := by
  unfold saddOwnerPositions
  cases hz : alookup st.ownerPositions o with
  | none => rw [hz] at h; simp at h
  | some z =>
      rw [hz] at h
      simp only [Option.getD_some] at h
      simp only [Option.getD_some]
      rw [slistAdd_mem _ _ h, aset_self _ _ _ hz]

theorem saddAuthorityVaults_mem_mono (st : KV) (a' m' : String) (a m : String)
    (h : m ∈ (alookup st.authorityVaults a).getD []) :
    m ∈ (alookup (saddAuthorityVaults st a' m').authorityVaults a).getD [] := by
  unfold saddAuthorityVaults
  by_cases hk : a = a'
  · subst hk
    simp only [alookup_aset, Option.getD_some]
    exact mem_slistAdd_of_mem _ _ _ h
  · simpa [alookup_aset_ne _ _ _ _ hk] using h

theorem saddOwnerPositions_mem_mono (st : KV) (o' m' : String) (o m : String)
    (h : m ∈ (alookup st.ownerPositions o).getD []) :
    m ∈ (alookup (saddOwnerPositions st o' m').ownerPositions o).getD [] := by
  unfold saddOwnerPositions
  by_cases hk : o = o'
  · subst hk
    simp only [alookup_aset, Option.getD_some]
    exact mem_slistAdd_of_mem _ _ _ h
  · simpa [alookup_aset_ne _ _ _ _ hk] using h

theorem zaddAuth_authScore_kne (st : KV) (a : String) (s : Option VaultStatus)
    (sc : Nat) (m : String) (a' : String) (s' : Option VaultStatus) (m' : String)
    (hk : (a', s') ≠ (a, s)) :
    authScore (zaddAuth st a s sc m) a' s' m' = authScore st a' s' m' := by
  unfold authScore zaddAuth zsetAdd
  simp [plookup_pset_ne _ _ _ _ hk]

theorem zremAuth_authScore_kne (st : KV) (a : String) (s : Option VaultStatus)
    (m : String) (a' : String) (s' : Option VaultStatus) (m' : String)
    (hk : (a', s') ≠ (a, s)) :
    authScore (zremAuth st a s m) a' s' m' = authScore st a' s' m' := by
  unfold authScore zremAuth zsetRem
  split
  · rfl
  · simp [plookup_pset_ne _ _ _ _ hk]

theorem zaddAuth_authScore_self (st : KV) (a : String) (s : Option VaultStatus)
    (sc : Nat) (m : String) :
    authScore (zaddAuth st a s sc m) a s m = some sc := by
  unfold authScore zaddAuth zsetAdd
  simp [plookup_pset, alookup_aset]

theorem zscore_self_ownerPositions (st : KV) (o : String) (sc : Nat) (m : String) :
    zscore (zaddOwnerPositions st o sc m).ownerPositionsByUpdated o m = some sc := by
  unfold zaddOwnerPositions
  exact zscore_zadd_self _ _ _ _

theorem zscore_self_vaultActivity (st : KV) (k : String) (sc : Nat) (m : String) :
    zscore (zaddVaultActivity st k sc m).vaultActivity k m = some sc := by
  unfold zaddVaultActivity
  exact zscore_zadd_self _ _ _ _

theorem zscore_self_ownerActivity (st : KV) (k : String) (sc : Nat) (m : String) :
    zscore (zaddOwnerActivity st k sc m).ownerActivity k m = some sc := by
  unfold zaddOwnerActivity
  exact zscore_zadd_self _ _ _ _

theorem truthyOr_of_ne (t d : Nat) (ht : t ≠ 0) : truthyOr (some t) d = t := by
  simp [truthyOr, ht]

theorem toVaultDTO_now_irrel (pda : String) (d : DecodedVault) (slot t now : Nat)
    (ht : t ≠ 0) :
    toVaultDTO pda d slot (some t) now = toVaultDTO pda d slot (some t) 0 := by
  simp [toVaultDTO, truthyOr, ht]

theorem toPositionDTO_now_irrel (pda : String) (p : DecodedPosition)
    (slot t now : Nat) (ht : t ≠ 0) :
    toPositionDTO pda p slot (some t) now = toPositionDTO pda p slot (some t) 0 := by
  simp [toPositionDTO, truthyOr, ht]

theorem closeVaultStep_fix (sig : String) (slot : Nat) (bt : Option Nat)
    (now : Nat) (s : KV) (n : Nat) (P : String) (h : CloseFix s P) :
    closeVaultStep sig slot bt now (s, n) P = (s, n) := by
  simp only [closeVaultStep]
  split
  · rfl
  · rename_i v hv
    exact if_neg (h v hv)

theorem claimStep_fix (sig : String) (slot t now : Nat) (s : KV) (n : Nat)
    (P : String) (h : ClaimFix sig slot t s P) :
    claimStep sig slot (some t) now (s, n) P = (s, n) := by
  simp only [claimStep]
  split
  · rfl
  · rename_i pos hpos
    split
    · rfl
    · rename_i dep hdep
      by_cases hd : dep > 0
      · rw [if_pos hd]
        obtain ⟨hcl, hsl, hep, hz, hact⟩ := h pos hpos dep hdep hd
        obtain ⟨a, ha⟩ := Option.isSome_iff_exists.mp hact
        have hcp : ({ pos with
            claimed := some (claimAmountOf dep (alookup s.vaults pos.vaultPda)),
            slot := some slot,
            updatedAtEpoch := (some t).getD now } : PositionDTO) = pos := by
          obtain ⟨ppda, pvda, pow, pdep, pcl, psl, pep⟩ := pos
          simp only at hcl hsl hep ⊢
          rw [hcl, hsl, hep]
          rfl
        simp only [hcp]
        have hst1 : ({ s with positions := aset s.positions P pos } : KV) = s := by
          rw [aset_self _ _ _ hpos]
        rw [hst1]
        simp only [Option.getD_some]
        rw [zaddOwnerPositions_fix s pos.owner t P hz]
        simp only [toActivityDTO, ACTION_TYPE_MAP, String.reduceEq, if_false,
          if_true, Option.getD_some]
        rw [ha]
      · rw [if_neg hd]

theorem decodedStep_fix (slot t now : Nat) (s : KV) (item : DecodedAccount)
    (ht : t ≠ 0) (h : DecodedFix slot t s item) :
    decodedStep slot (some t) now s s item = s := by
  cases item with
  | vault pda d =>
      rcases h with ⟨v, sv, hv, hslot, hlt⟩ | ⟨hv, hset, hmem, hs1, hs2⟩
      · have hdec : decide (slot < sv) = true := by simp [hlt]
        simp only [decodedStep, hv, toVaultDTO, hslot, hdec, if_true]
      · have hdto : toVaultDTO pda d slot (some t) now =
            toVaultDTO pda d slot (some t) 0 := toVaultDTO_now_irrel _ _ _ _ _ ht
        have hsl : (toVaultDTO pda d slot (some t) 0).slot = some slot := rfl
        have hdec : decide (slot < slot) = false := by simp
        simp only [decodedStep, hv, hdto, hsl, hdec, if_false, Bool.false_eq_true,
          if_neg]
        have hveq : aset s.vaults pda (toVaultDTO pda d slot (some t) 0) = s.vaults :=
          aset_self _ _ _ hv
        have hseq : slistAdd s.vaultsSet pda = s.vaultsSet := slistAdd_mem _ _ hset
        rw [hveq, hseq]
        have hne : ¬((toVaultDTO pda d slot (some t) 0).status ≠
            (toVaultDTO pda d slot (some t) 0).status) := fun hx => hx rfl
        rw [if_neg hne]
        show zaddAuth (zaddAuth (saddAuthorityVaults s d.authority pda) d.authority none (toVaultDTO pda d slot (some t) 0).updatedAtEpoch pda) d.authority (some (mapVaultStatus d.status).1) (toVaultDTO pda d slot (some t) 0).updatedAtEpoch pda = s
        have hepo : (toVaultDTO pda d slot (some t) 0).updatedAtEpoch = t := by
          simp [toVaultDTO, truthyOr, ht]
        rw [hepo]
        rw [saddAuthorityVaults_fix _ _ _ hmem]
        rw [zaddAuth_fix _ _ _ _ _ hs1]
        exact zaddAuth_fix _ _ _ _ _ hs2
  | position pda p =>
      rcases h with ⟨q, sq, hq, hslot, hlt⟩ | ⟨hq, hmem, hz⟩
      · have hdec : decide (slot < sq) = true := by simp [hlt]
        simp only [decodedStep, hq, toPositionDTO, hslot, hdec, if_true]
      · have hdto : toPositionDTO pda p slot (some t) now =
            toPositionDTO pda p slot (some t) 0 := toPositionDTO_now_irrel _ _ _ _ _ ht
        have hsl : (toPositionDTO pda p slot (some t) 0).slot = some slot := rfl
        have hdec : decide (slot < slot) = false := by simp
        simp only [decodedStep, hq, hdto, hsl, hdec, if_false, Bool.false_eq_true,
          if_neg]
        have hpeq : aset s.positions pda (toPositionDTO pda p slot (some t) 0) = s.positions :=
          aset_self _ _ _ hq
        rw [hpeq]
        show zaddOwnerPositions (saddOwnerPositions s p.owner pda) p.owner (toPositionDTO pda p slot (some t) 0).updatedAtEpoch pda = s
        have hepo : (toPositionDTO pda p slot (some t) 0).updatedAtEpoch = t := by
          simp [toPositionDTO, truthyOr, ht]
        rw [hepo]
        rw [saddOwnerPositions_fix _ _ _ hmem]
        exact zaddOwnerPositions_fix _ _ _ _ hz

theorem activityStep_fix (sig : String) (slot t : Nat)
    (dl : List DecodedAccount) (snap : KV) (s : KV) (n : Nat) (action : String)
    (ht : t ≠ 0) (h : ActivityFix sig slot t dl s action) :
    activityStep sig slot (some t) dl snap (s, n) action = (s, n) := by
  by_cases hc : action = "claim"
  · simp [activityStep, hc]
  · obtain ⟨hact, hvz, hpz⟩ := h hc
    have hnew : (alookup s.activities
        (kActivity sig ((ACTION_TYPE_MAP action).getD .vault_created) slot)).isNone
          = false := by
      rw [Option.isNone_eq_false_iff]
      exact hact
    simp only [activityStep, if_neg hc, toActivityDTO, hnew, Bool.false_eq_true,
      if_false, truthyOr_of_ne _ _ ht]
    cases hvi : vaultItemOf dl with
    | none =>
        cases hpi : positionItemOf dl with
        | none => simp
        | some pi =>
            obtain ⟨ppda, pp⟩ := pi
            simp only [Option.map_some', Option.map_none']
            rw [zaddOwnerActivity_fix _ _ _ _ (hpz ppda pp hpi)]
        
    | some vi =>
        obtain ⟨vpda, vd⟩ := vi
        cases hpi : positionItemOf dl with
        | none =>
            simp only [Option.map_some', Option.map_none']
            rw [zaddVaultActivity_fix _ _ _ _ (hvz vpda vd hvi)]
        | some pi =>
            obtain ⟨ppda, pp⟩ := pi
            simp only [Option.map_some']
            rw [zaddVaultActivity_fix _ _ _ _ (hvz vpda vd hvi)]
            rw [zaddOwnerActivity_fix _ _ _ _ (hpz ppda pp hpi)]

theorem zaddOwnerPositions_zscore_ne (st : KV) (o : String) (sc : Nat)
    (m : String) (k m' : String) (h : m' ≠ m) :
    zscore (zaddOwnerPositions st o sc m).ownerPositionsByUpdated k m' =
      zscore st.ownerPositionsByUpdated k m' := by
  unfold zaddOwnerPositions
  exact zscore_zadd_ne _ _ _ _ _ _ h

theorem zaddVaultActivity_zscore_ne (st : KV) (k0 : String) (sc : Nat)
    (m : String) (k m' : String) (h : m' ≠ m) :
    zscore (zaddVaultActivity st k0 sc m).vaultActivity k m' =
      zscore st.vaultActivity k m' := by
  unfold zaddVaultActivity
  exact zscore_zadd_ne _ _ _ _ _ _ h

theorem zaddOwnerActivity_zscore_ne (st : KV) (k0 : String) (sc : Nat)
    (m : String) (k m' : String) (h : m' ≠ m) :
    zscore (zaddOwnerActivity st k0 sc m).ownerActivity k m' =
      zscore st.ownerActivity k m' := by
  unfold zaddOwnerActivity
  exact zscore_zadd_ne _ _ _ _ _ _ h

theorem zscore_zadd_keep (store : List (String × Zset)) (k0 m0 : String)
    (k m : String) (t : Nat) (h : zscore store k m = some t) :
    zscore (aset store k0 (zsetAdd ((alookup store k0).getD []) t m0)) k m
      = some t := by
  by_cases hm : m = m0
  · subst hm
    by_cases hk : k = k0
    · subst hk
      exact zscore_zadd_self _ _ _ _
    · unfold zscore zsetAdd
      rw [alookup_aset_ne _ _ _ _ hk]
      exact h
  · rw [zscore_zadd_ne _ _ _ _ _ _ hm]
    exact h

theorem closeVaultStep_vaults_ne (sig : String) (slot : Nat) (bt : Option Nat)
    (now : Nat) (acc : KV × Nat) (Q P : String) (hne : P ≠ Q) :
    alookup (closeVaultStep sig slot bt now acc Q).1.vaults P =
      alookup acc.1.vaults P := by
  obtain ⟨st, n⟩ := acc
  simp only [closeVaultStep]
  split <;> (try split) <;> (try split) <;> (try split) <;>
    simp [toActivityDTO, alookup_aset_ne _ _ _ _ hne]

theorem claimStep_positions_ne (sig : String) (slot : Nat) (bt : Option Nat)
    (now : Nat) (acc : KV × Nat) (Q P : String) (hne : P ≠ Q) :
    alookup (claimStep sig slot bt now acc Q).1.positions P =
      alookup acc.1.positions P := by
  obtain ⟨st, n⟩ := acc
  simp only [claimStep]
  split <;> (try split) <;> (try split) <;> (try split) <;>
    simp [toActivityDTO, alookup_aset_ne _ _ _ _ hne]

theorem claimStep_positions_vaultPda (sig : String) (slot : Nat)
    (bt : Option Nat) (now : Nat) (acc : KV × Nat) (Q P : String) :
    Option.map PositionDTO.vaultPda (alookup (claimStep sig slot bt now acc Q).1.positions P) =
      Option.map PositionDTO.vaultPda (alookup acc.1.positions P) := by
  obtain ⟨st, n⟩ := acc
  by_cases hne : P = Q
  · subst hne
    simp only [claimStep]
    split <;> (try split) <;> (try split) <;> (try split) <;>
      (try rename_i existing heq) <;>
      simp_all [toActivityDTO, alookup_aset]
  · rw [claimStep_positions_ne _ _ _ _ _ _ _ hne]

theorem claimStep_opu_ne (sig : String) (slot : Nat) (bt : Option Nat)
    (now : Nat) (acc : KV × Nat) (Q : String) (k P : String) (hne : P ≠ Q) :
    zscore (claimStep sig slot bt now acc Q).1.ownerPositionsByUpdated k P =
      zscore acc.1.ownerPositionsByUpdated k P := by
  obtain ⟨st, n⟩ := acc
  simp only [claimStep]
  split <;> (try split) <;> (try split) <;> (try split) <;>
    simp [toActivityDTO, zaddOwnerPositions_zscore_ne _ _ _ _ _ _ hne]

theorem claimStep_act_isSome (sig : String) (slot : Nat) (bt : Option Nat)
    (now : Nat) (acc : KV × Nat) (Q : String) (k : String)
    (h : (alookup acc.1.activities k).isSome = true) :
    (alookup (claimStep sig slot bt now acc Q).1.activities k).isSome = true := by
  obtain ⟨st, n⟩ := acc
  simp only [claimStep]
  split <;> (try split) <;> (try split) <;> (try split) <;>
    simp_all [toActivityDTO] <;>
    exact alookup_aset_isSome _ _ _ _ h

theorem activityStep_act_isSome (sig : String) (slot : Nat) (bt : Option Nat)
    (dl : List DecodedAccount) (snap : KV) (acc : KV × Nat) (a : String)
    (k : String) (h : (alookup acc.1.activities k).isSome = true) :
    (alookup (activityStep sig slot bt dl snap acc a).1.activities k).isSome
      = true := by
  obtain ⟨st, n⟩ := acc
  simp only [activityStep]
  split <;> (try split) <;> (try split) <;> (try split) <;> (try split) <;>
    simp_all [toActivityDTO] <;>
    exact alookup_aset_isSome _ _ _ _ h

theorem activityStep_vactScore_keep (sig : String) (slot t : Nat)
    (dl : List DecodedAccount) (snap : KV) (acc : KV × Nat) (a : String)
    (ht : t ≠ 0) (k m : String)
    (h : zscore acc.1.vaultActivity k m = some t) :
    zscore (activityStep sig slot (some t) dl snap acc a).1.vaultActivity k m
      = some t := by
  obtain ⟨st, n⟩ := acc
  simp only [activityStep]
  split <;> (try split) <;> (try split) <;> (try split) <;> (try split) <;>
    simp_all [toActivityDTO, truthyOr_of_ne _ _ ht, zaddVaultActivity,
      zaddOwnerActivity, zscore_zadd_keep _ _ _ _ _ _ h]

theorem activityStep_oactScore_keep (sig : String) (slot t : Nat)
    (dl : List DecodedAccount) (snap : KV) (acc : KV × Nat) (a : String)
    (ht : t ≠ 0) (k m : String)
    (h : zscore acc.1.ownerActivity k m = some t) :
    zscore (activityStep sig slot (some t) dl snap acc a).1.ownerActivity k m
      = some t := by
  obtain ⟨st, n⟩ := acc
  simp only [activityStep]
  split <;> (try split) <;> (try split) <;> (try split) <;> (try split) <;>
    simp_all [toActivityDTO, truthyOr_of_ne _ _ ht, zaddVaultActivity,
      zaddOwnerActivity, zscore_zadd_keep _ _ _ _ _ _ h]

theorem decodedStep_activities (slot : Nat) (bt : Option Nat) (now : Nat)
    (snap st : KV) (item : DecodedAccount) :
    (decodedStep slot bt now snap st item).activities = st.activities := by
  cases item <;>
    (simp only [decodedStep]; split <;> (try split) <;> (try split) <;> simp)

theorem decodedStep_vaultActivity (slot : Nat) (bt : Option Nat) (now : Nat)
    (snap st : KV) (item : DecodedAccount) :
    (decodedStep slot bt now snap st item).vaultActivity = st.vaultActivity := by
  cases item <;>
    (simp only [decodedStep]; split <;> (try split) <;> (try split) <;> simp)

theorem decodedStep_ownerActivity (slot : Nat) (bt : Option Nat) (now : Nat)
    (snap st : KV) (item : DecodedAccount) :
    (decodedStep slot bt now snap st item).ownerActivity = st.ownerActivity := by
  cases item <;>
    (simp only [decodedStep]; split <;> (try split) <;> (try split) <;> simp)

theorem decodedStep_vaults_ne (slot : Nat) (bt : Option Nat) (now : Nat)
    (snap st : KV) (item : DecodedAccount) (P : String)
    (hne : P ≠ itemKey item) :
    alookup (decodedStep slot bt now snap st item).vaults P =
      alookup st.vaults P := by
  cases item <;> simp only [itemKey] at hne <;>
    (simp only [decodedStep]; split <;> (try split) <;> (try split) <;>
      simp [alookup_aset_ne _ _ _ _ hne])

theorem decodedStep_positions_ne (slot : Nat) (bt : Option Nat) (now : Nat)
    (snap st : KV) (item : DecodedAccount) (P : String)
    (hne : P ≠ itemKey item) :
    alookup (decodedStep slot bt now snap st item).positions P =
      alookup st.positions P := by
  cases item <;> simp only [itemKey] at hne <;>
    (simp only [decodedStep]; split <;> (try split) <;> (try split) <;>
      simp [alookup_aset_ne _ _ _ _ hne])

theorem decodedStep_opu_ne (slot : Nat) (bt : Option Nat) (now : Nat)
    (snap st : KV) (item : DecodedAccount) (k P : String)
    (hne : P ≠ itemKey item) :
    zscore (decodedStep slot bt now snap st item).ownerPositionsByUpdated k P =
      zscore st.ownerPositionsByUpdated k P := by
  cases item <;> simp only [itemKey] at hne <;>
    (simp only [decodedStep]; split <;> (try split) <;> (try split) <;>
      simp [zaddOwnerPositions_zscore_ne _ _ _ _ _ _ hne])

theorem decodedStep_vaultsSet_mono (slot : Nat) (bt : Option Nat) (now : Nat)
    (snap st : KV) (item : DecodedAccount) (m : String)
    (h : m ∈ st.vaultsSet) :
    m ∈ (decodedStep slot bt now snap st item).vaultsSet := by
  cases item <;>
    (simp only [decodedStep]; split <;> (try split) <;> (try split) <;>
      simp_all [mem_slistAdd_of_mem _ _ _ h])

theorem decodedStep_authVaults_mem_mono (slot : Nat) (bt : Option Nat)
    (now : Nat) (snap st : KV) (item : DecodedAccount) (a m : String)
    (h : m ∈ (alookup st.authorityVaults a).getD []) :
    m ∈ (alookup (decodedStep slot bt now snap st item).authorityVaults a).getD []
      := by
  cases item <;>
    (simp only [decodedStep]; split <;> (try split) <;> (try split) <;>
      simp_all [saddAuthorityVaults_mem_mono _ _ _ _ _ h]) <;>
    exact saddAuthorityVaults_mem_mono _ _ _ _ _ h

theorem decodedStep_ownerPositions_mem_mono (slot : Nat) (bt : Option Nat)
    (now : Nat) (snap st : KV) (item : DecodedAccount) (o m : String)
    (h : m ∈ (alookup st.ownerPositions o).getD []) :
    m ∈ (alookup (decodedStep slot bt now snap st item).ownerPositions o).getD []
      := by
  cases item <;>
    (simp only [decodedStep]; split <;> (try split) <;> (try split) <;>
      simp_all [saddOwnerPositions_mem_mono _ _ _ _ _ h]) <;>
    exact saddOwnerPositions_mem_mono _ _ _ _ _ h

theorem decodedStep_authScore_ne (slot : Nat) (bt : Option Nat) (now : Nat)
    (snap st : KV) (item : DecodedAccount) (a : String)
    (so : Option VaultStatus) (P : String) (hne : P ≠ itemKey item) :
    authScore (decodedStep slot bt now snap st item) a so P =
      authScore st a so P := by
  cases item <;> simp only [itemKey] at hne <;>
    (simp only [decodedStep]; split <;> (try split) <;> (try split) <;>
      simp [authScore, zaddAuth_score_ne _ _ _ _ _ _ _ hne,
        zremAuth_score_ne _ _ _ _ _ _ hne, saddAuthorityVaults,
        zaddOwnerPositions, saddOwnerPositions])

theorem closeVaultStep_post (sig : String) (slot : Nat) (bt : Option Nat)
    (now : Nat) (acc : KV × Nat) (P : String) :
    CloseFix (closeVaultStep sig slot bt now acc P).1 P := by
  obtain ⟨st, n⟩ := acc
  simp only [closeVaultStep]
  split
  · rename_i hv
    intro v hv'
    rw [hv] at hv'
    exact Option.noConfusion hv'
  · rename_i existing hv
    split
    · split
      · intro v hv'
        simp only [zremAuth_vaults, zaddAuth_vaults, alookup_aset] at hv'
        injection hv' with h
        subst h
        rintro (h | h) <;> exact VaultStatus.noConfusion h
      · intro v hv'
        simp only [toActivityDTO, zremAuth_vaults, zaddAuth_vaults,
          zaddVaultActivity_vaults, alookup_aset] at hv'
        injection hv' with h
        subst h
        rintro (h | h) <;> exact VaultStatus.noConfusion h
    · rename_i hguard
      intro v hv'
      rw [hv] at hv'
      injection hv' with h
      subst h
      exact hguard

theorem closeVaultStep_keep (sig : String) (slot : Nat) (bt : Option Nat)
    (now : Nat) (acc : KV × Nat) (P Q : String) (h : CloseFix acc.1 P) :
    CloseFix (closeVaultStep sig slot bt now acc Q).1 P := by
  by_cases hPQ : Q = P
  · subst hPQ
    exact closeVaultStep_post _ _ _ _ _ _
  · have hne : P ≠ Q := fun hx => hPQ hx.symm
    intro v hv'
    rw [closeVaultStep_vaults_ne _ _ _ _ _ _ _ hne] at hv'
    exact h v hv'

theorem claimStep_post (sig : String) (slot t now : Nat) (acc : KV × Nat)
    (P : String) :
    ClaimFix sig slot t (claimStep sig slot (some t) now acc P).1 P := by
  obtain ⟨st, n⟩ := acc
  simp only [claimStep]
  split
  · rename_i hv
    intro pos hpos'
    rw [hv] at hpos'
    exact Option.noConfusion hpos'
  · rename_i existing hv
    split
    · rename_i hdep0
      intro pos hpos' dep hdep' _
      rw [hv] at hpos'
      injection hpos' with h
      subst h
      rw [hdep0] at hdep'
      exact Option.noConfusion hdep'
    · rename_i dep hdep
      by_cases hd : dep > 0
      · rw [if_pos hd]
        split
        · rename_i a ha
          intro pos hpos' dep' hdep' hd'
          simp only [zaddOwnerPositions_positions, alookup_aset,
            Option.some.injEq] at hpos'
          subst hpos'
          simp only at hdep'
          rw [hdep] at hdep'
          injection hdep' with h2
          subst h2
          refine ⟨rfl, rfl, rfl, ?_, ?_⟩
          · exact zscore_self_ownerPositions _ _ _ _
          · have ha' : alookup (zaddOwnerPositions { st with positions := aset st.positions P { existing with claimed := some (claimAmountOf dep (alookup st.vaults existing.vaultPda)), slot := some slot, updatedAtEpoch := (some t).getD now } } existing.owner ((some t).getD now) P).activities (kActivity sig ActivityType.claim slot) = some a := ha
            rw [ha']
            rfl
        · rename_i ha
          intro pos hpos' dep' hdep' hd'
          simp only [toActivityDTO, zaddOwnerActivity_positions,
            zaddVaultActivity_positions, zaddOwnerPositions_positions,
            alookup_aset, Option.some.injEq] at hpos'
          subst hpos'
          simp only at hdep'
          rw [hdep] at hdep'
          injection hdep' with h2
          subst h2
          refine ⟨rfl, rfl, rfl, ?_, ?_⟩
          · simp only [toActivityDTO, zaddOwnerActivity_ownerPositionsByUpdated,
              zaddVaultActivity_ownerPositionsByUpdated]
            exact zscore_self_ownerPositions _ _ _ _
          · simp only [toActivityDTO, zaddOwnerActivity_activities,
              zaddVaultActivity_activities]
            simp [ACTION_TYPE_MAP, alookup_aset]
      · rw [if_neg hd]
        intro pos hpos' dep' hdep' hd'
        rw [hv] at hpos'
        injection hpos' with h
        subst h
        rw [hdep] at hdep'
        injection hdep' with h2
        subst h2
        exact absurd hd' hd

theorem claimStep_keep (sig : String) (slot t now : Nat) (acc : KV × Nat)
    (P Q : String) (h : ClaimFix sig slot t acc.1 P) :
    ClaimFix sig slot t (claimStep sig slot (some t) now acc Q).1 P := by
  by_cases hPQ : Q = P
  · subst hPQ
    exact claimStep_post _ _ _ _ _ _
  · have hne : P ≠ Q := fun hx => hPQ hx.symm
    intro pos hpos' dep hdep hd
    rw [claimStep_positions_ne _ _ _ _ _ _ _ hne] at hpos'
    obtain ⟨c1, c2, c3, c4, c5⟩ := h pos hpos' dep hdep hd
    refine ⟨?_, c2, c3, ?_, ?_⟩
    · rw [claimStep_vaults]
      exact c1
    · rw [claimStep_opu_ne _ _ _ _ _ _ _ _ hne]
      exact c4
    · exact claimStep_act_isSome _ _ _ _ _ _ _ c5

theorem authScore_congr (st' st : KV) (a : String) (so : Option VaultStatus)
    (m : String)
    (h : st'.authorityVaultsByUpdated = st.authorityVaultsByUpdated) :
    authScore st' a so m = authScore st a so m := by
  unfold authScore
  rw [h]

theorem decodedStep_position_vaults (slot : Nat) (bt : Option Nat) (now : Nat)
    (snap st : KV) (pda : String) (p : DecodedPosition) :
    (decodedStep slot bt now snap st (.position pda p)).vaults = st.vaults := by
  simp only [decodedStep]
  split <;> simp

theorem decodedStep_keepClaim (sig : String) (slot t : Nat) (bt : Option Nat)
    (now : Nat) (snap s : KV) (item : DecodedAccount) (P : String)
    (hkey : P ≠ itemKey item)
    (hvne : ∀ pos, alookup s.positions P = some pos →
      ∀ pda d, item = DecodedAccount.vault pda d → pda ≠ pos.vaultPda)
    (h : ClaimFix sig slot t s P) :
    ClaimFix sig slot t (decodedStep slot bt now snap s item) P := by
  intro pos hpos' dep hdep hd
  rw [decodedStep_positions_ne _ _ _ _ _ _ _ hkey] at hpos'
  obtain ⟨c1, c2, c3, c4, c5⟩ := h pos hpos' dep hdep hd
  refine ⟨?_, c2, c3, ?_, ?_⟩
  · cases item with
    | vault pda d =>
        have hne2 : pos.vaultPda ≠ pda :=
          fun hx => (hvne pos hpos' pda d rfl) hx.symm
        have hne3 : pos.vaultPda ≠ itemKey (DecodedAccount.vault pda d) := hne2
        rw [decodedStep_vaults_ne _ _ _ _ _ _ _ hne3]
        exact c1
    | position pda p =>
        rw [decodedStep_position_vaults]
        exact c1
  · rw [decodedStep_opu_ne _ _ _ _ _ _ _ _ hkey]
    exact c4
  · rw [decodedStep_activities]
    exact c5

theorem activityStep_keepClaim (sig : String) (slot t : Nat) (bt : Option Nat)
    (dl : List DecodedAccount) (snap : KV) (acc : KV × Nat) (a : String)
    (P : String) (h : ClaimFix sig slot t acc.1 P) :
    ClaimFix sig slot t (activityStep sig slot bt dl snap acc a).1 P := by
  intro pos hpos' dep hdep hd
  rw [activityStep_positions] at hpos'
  obtain ⟨c1, c2, c3, c4, c5⟩ := h pos hpos' dep hdep hd
  refine ⟨?_, c2, c3, ?_, ?_⟩
  · rw [activityStep_vaults]
    exact c1
  · rw [activityStep_ownerPositionsByUpdated]
    exact c4
  · exact activityStep_act_isSome _ _ _ _ _ _ _ _ c5

theorem decodedStep_stale_vault_skip (slot : Nat) (bt : Option Nat) (now : Nat)
    (snap s : KV) (pda : String) (d : DecodedVault)
    (h : staleVault snap pda slot = true) :
    decodedStep slot bt now snap s (.vault pda d) = s := by
  unfold staleVault at h
  cases hv : alookup snap.vaults pda with
  | none => simp only [hv] at h; exact absurd h (by simp)
  | some ev =>
      simp only [hv] at h
      cases hsl : ev.slot with
      | none => simp only [hsl] at h; exact absurd h (by simp)
      | some sev =>
          simp only [hsl] at h
          simp only [decodedStep, hv, toVaultDTO, hsl, h, if_true]

theorem decodedStep_stale_position_skip (slot : Nat) (bt : Option Nat)
    (now : Nat) (snap s : KV) (pda : String) (p : DecodedPosition)
    (h : stalePosition snap pda slot = true) :
    decodedStep slot bt now snap s (.position pda p) = s := by
  unfold stalePosition at h
  cases hv : alookup snap.positions pda with
  | none => simp only [hv] at h; exact absurd h (by simp)
  | some ep =>
      simp only [hv] at h
      cases hsl : ep.slot with
      | none => simp only [hsl] at h; exact absurd h (by simp)
      | some sep =>
          simp only [hsl] at h
          simp only [decodedStep, hv, toPositionDTO, hsl, h, if_true]

theorem decodedStep_keepVault (slot t : Nat) (bt : Option Nat) (now : Nat)
    (snap s : KV) (item : DecodedAccount) (pda : String) (d : DecodedVault)
    (hkey : pda ≠ itemKey item) (h : VaultFix slot t s pda d) :
    VaultFix slot t (decodedStep slot bt now snap s item) pda d := by
  rcases h with ⟨v, sv, hv, hsl, hlt⟩ | ⟨c1, c2, c3, c4, c5⟩
  · left
    refine ⟨v, sv, ?_, hsl, hlt⟩
    rw [decodedStep_vaults_ne _ _ _ _ _ _ _ hkey]
    exact hv
  · right
    refine ⟨?_, ?_, ?_, ?_, ?_⟩
    · rw [decodedStep_vaults_ne _ _ _ _ _ _ _ hkey]
      exact c1
    · exact decodedStep_vaultsSet_mono _ _ _ _ _ _ _ c2
    · exact decodedStep_authVaults_mem_mono _ _ _ _ _ _ _ _ c3
    · rw [decodedStep_authScore_ne _ _ _ _ _ _ _ _ _ hkey]
      exact c4
    · rw [decodedStep_authScore_ne _ _ _ _ _ _ _ _ _ hkey]
      exact c5

theorem decodedStep_keepPosition (slot t : Nat) (bt : Option Nat) (now : Nat)
    (snap s : KV) (item : DecodedAccount) (pda : String) (p : DecodedPosition)
    (hkey : pda ≠ itemKey item) (h : PositionFix slot t s pda p) :
    PositionFix slot t (decodedStep slot bt now snap s item) pda p := by
  rcases h with ⟨q, sq, hq, hsl, hlt⟩ | ⟨c1, c2, c3⟩
  · left
    refine ⟨q, sq, ?_, hsl, hlt⟩
    rw [decodedStep_positions_ne _ _ _ _ _ _ _ hkey]
    exact hq
  · right
    refine ⟨?_, ?_, ?_⟩
    · rw [decodedStep_positions_ne _ _ _ _ _ _ _ hkey]
      exact c1
    · exact decodedStep_ownerPositions_mem_mono _ _ _ _ _ _ _ _ c2
    · rw [decodedStep_opu_ne _ _ _ _ _ _ _ _ hkey]
      exact c3

theorem activityStep_keepDecoded (sig : String) (slot t : Nat) (bt : Option Nat)
    (dl : List DecodedAccount) (snap : KV) (acc : KV × Nat) (a : String)
    (item : DecodedAccount) (h : DecodedFix slot t acc.1 item) :
    DecodedFix slot t (activityStep sig slot bt dl snap acc a).1 item := by
  cases item with
  | vault pda d =>
      rcases h with ⟨v, sv, hv, hsl, hlt⟩ | ⟨c1, c2, c3, c4, c5⟩
      · left
        refine ⟨v, sv, ?_, hsl, hlt⟩
        rw [activityStep_vaults]
        exact hv
      · right
        refine ⟨?_, ?_, ?_, ?_, ?_⟩
        · rw [activityStep_vaults]
          exact c1
        · rw [activityStep_vaultsSet]
          exact c2
        · rw [activityStep_authorityVaults]
          exact c3
        · rw [authScore_congr _ _ _ _ _ (activityStep_authorityVaultsByUpdated _ _ _ _ _ _ _)]
          exact c4
        · rw [authScore_congr _ _ _ _ _ (activityStep_authorityVaultsByUpdated _ _ _ _ _ _ _)]
          exact c5
  | position pda p =>
      rcases h with ⟨q, sq, hq, hsl, hlt⟩ | ⟨c1, c2, c3⟩
      · left
        refine ⟨q, sq, ?_, hsl, hlt⟩
        rw [activityStep_positions]
        exact hq
      · right
        refine ⟨?_, ?_, ?_⟩
        · rw [activityStep_positions]
          exact c1
        · rw [activityStep_ownerPositions]
          exact c2
        · rw [activityStep_ownerPositionsByUpdated]
          exact c3

theorem activityStep_keepActivity (sig : String) (slot t : Nat)
    (dl : List DecodedAccount) (snap : KV) (acc : KV × Nat) (a a' : String)
    (ht : t ≠ 0) (h : ActivityFix sig slot t dl acc.1 a) :
    ActivityFix sig slot t dl (activityStep sig slot (some t) dl snap acc a').1 a := by
  intro hc
  obtain ⟨c1, c2, c3⟩ := h hc
  refine ⟨activityStep_act_isSome _ _ _ _ _ _ _ _ c1, ?_, ?_⟩
  · intro pda d hvi
    exact activityStep_vactScore_keep _ _ _ _ _ _ _ ht _ _ (c2 pda d hvi)
  · intro pda p hpi
    exact activityStep_oactScore_keep _ _ _ _ _ _ _ ht _ _ (c3 pda p hpi)

theorem vaultWriteState_fix (s : KV) (pda : String) (d : DecodedVault)
    (slot t now : Nat) (ht : t ≠ 0) :
    alookup (zaddAuth (zaddAuth (saddAuthorityVaults { s with vaults := aset s.vaults pda (toVaultDTO pda d slot (some t) now), vaultsSet := slistAdd s.vaultsSet pda } (toVaultDTO pda d slot (some t) now).authority pda) (toVaultDTO pda d slot (some t) now).authority none (toVaultDTO pda d slot (some t) now).updatedAtEpoch pda) (toVaultDTO pda d slot (some t) now).authority (some (toVaultDTO pda d slot (some t) now).status) (toVaultDTO pda d slot (some t) now).updatedAtEpoch pda).vaults pda = some (toVaultDTO pda d slot (some t) 0) ∧
    pda ∈ (zaddAuth (zaddAuth (saddAuthorityVaults { s with vaults := aset s.vaults pda (toVaultDTO pda d slot (some t) now), vaultsSet := slistAdd s.vaultsSet pda } (toVaultDTO pda d slot (some t) now).authority pda) (toVaultDTO pda d slot (some t) now).authority none (toVaultDTO pda d slot (some t) now).updatedAtEpoch pda) (toVaultDTO pda d slot (some t) now).authority (some (toVaultDTO pda d slot (some t) now).status) (toVaultDTO pda d slot (some t) now).updatedAtEpoch pda).vaultsSet ∧
    pda ∈ (alookup (zaddAuth (zaddAuth (saddAuthorityVaults { s with vaults := aset s.vaults pda (toVaultDTO pda d slot (some t) now), vaultsSet := slistAdd s.vaultsSet pda } (toVaultDTO pda d slot (some t) now).authority pda) (toVaultDTO pda d slot (some t) now).authority none (toVaultDTO pda d slot (some t) now).updatedAtEpoch pda) (toVaultDTO pda d slot (some t) now).authority (some (toVaultDTO pda d slot (some t) now).status) (toVaultDTO pda d slot (some t) now).updatedAtEpoch pda).authorityVaults d.authority).getD [] ∧
    authScore (zaddAuth (zaddAuth (saddAuthorityVaults { s with vaults := aset s.vaults pda (toVaultDTO pda d slot (some t) now), vaultsSet := slistAdd s.vaultsSet pda } (toVaultDTO pda d slot (some t) now).authority pda) (toVaultDTO pda d slot (some t) now).authority none (toVaultDTO pda d slot (some t) now).updatedAtEpoch pda) (toVaultDTO pda d slot (some t) now).authority (some (toVaultDTO pda d slot (some t) now).status) (toVaultDTO pda d slot (some t) now).updatedAtEpoch pda) d.authority none pda = some t ∧
    authScore (zaddAuth (zaddAuth (saddAuthorityVaults { s with vaults := aset s.vaults pda (toVaultDTO pda d slot (some t) now), vaultsSet := slistAdd s.vaultsSet pda } (toVaultDTO pda d slot (some t) now).authority pda) (toVaultDTO pda d slot (some t) now).authority none (toVaultDTO pda d slot (some t) now).updatedAtEpoch pda) (toVaultDTO pda d slot (some t) now).authority (some (toVaultDTO pda d slot (some t) now).status) (toVaultDTO pda d slot (some t) now).updatedAtEpoch pda) d.authority (some (mapVaultStatus d.status).1) pda = some t := by
  have hauth : (toVaultDTO pda d slot (some t) now).authority = d.authority := rfl
  have hstat : (toVaultDTO pda d slot (some t) now).status =
      (mapVaultStatus d.status).1 := rfl
  have hepo : (toVaultDTO pda d slot (some t) now).updatedAtEpoch = t := by
    simp [toVaultDTO, truthyOr, ht]
  have hk45 : ((d.authority, (none : Option VaultStatus)) : String × Option VaultStatus) ≠
      (d.authority, some (mapVaultStatus d.status).1) := by simp
  refine ⟨?_, ?_, ?_, ?_, ?_⟩
  · simp [alookup_aset, toVaultDTO_now_irrel _ _ _ _ _ ht]
  · simp only [zaddAuth_vaultsSet, saddAuthorityVaults_vaultsSet]
    exact mem_slistAdd_self _ _
  · simp only [zaddAuth_authorityVaults, saddAuthorityVaults, hauth,
      alookup_aset, Option.getD_some]
    exact mem_slistAdd_self _ _
  · simp only [hauth, hstat, hepo]
    rw [zaddAuth_authScore_kne _ _ _ _ _ _ _ _ hk45]
    exact zaddAuth_authScore_self _ _ _ _ _
  · simp only [hauth, hstat, hepo]
    exact zaddAuth_authScore_self _ _ _ _ _

theorem vaultWriteStateZrem_fix (s : KV) (pda : String) (d : DecodedVault)
    (slot t now : Nat) (ht : t ≠ 0) (ev : VaultDTO)
    (hne : ev.status ≠ (mapVaultStatus d.status).1) :
    alookup (zremAuth (zaddAuth (zaddAuth (saddAuthorityVaults { s with vaults := aset s.vaults pda (toVaultDTO pda d slot (some t) now), vaultsSet := slistAdd s.vaultsSet pda } (toVaultDTO pda d slot (some t) now).authority pda) (toVaultDTO pda d slot (some t) now).authority none (toVaultDTO pda d slot (some t) now).updatedAtEpoch pda) (toVaultDTO pda d slot (some t) now).authority (some (toVaultDTO pda d slot (some t) now).status) (toVaultDTO pda d slot (some t) now).updatedAtEpoch pda) (toVaultDTO pda d slot (some t) now).authority (some ev.status) pda).vaults pda = some (toVaultDTO pda d slot (some t) 0) ∧
    pda ∈ (zremAuth (zaddAuth (zaddAuth (saddAuthorityVaults { s with vaults := aset s.vaults pda (toVaultDTO pda d slot (some t) now), vaultsSet := slistAdd s.vaultsSet pda } (toVaultDTO pda d slot (some t) now).authority pda) (toVaultDTO pda d slot (some t) now).authority none (toVaultDTO pda d slot (some t) now).updatedAtEpoch pda) (toVaultDTO pda d slot (some t) now).authority (some (toVaultDTO pda d slot (some t) now).status) (toVaultDTO pda d slot (some t) now).updatedAtEpoch pda) (toVaultDTO pda d slot (some t) now).authority (some ev.status) pda).vaultsSet ∧
    pda ∈ (alookup (zremAuth (zaddAuth (zaddAuth (saddAuthorityVaults { s with vaults := aset s.vaults pda (toVaultDTO pda d slot (some t) now), vaultsSet := slistAdd s.vaultsSet pda } (toVaultDTO pda d slot (some t) now).authority pda) (toVaultDTO pda d slot (some t) now).authority none (toVaultDTO pda d slot (some t) now).updatedAtEpoch pda) (toVaultDTO pda d slot (some t) now).authority (some (toVaultDTO pda d slot (some t) now).status) (toVaultDTO pda d slot (some t) now).updatedAtEpoch pda) (toVaultDTO pda d slot (some t) now).authority (some ev.status) pda).authorityVaults d.authority).getD [] ∧
    authScore (zremAuth (zaddAuth (zaddAuth (saddAuthorityVaults { s with vaults := aset s.vaults pda (toVaultDTO pda d slot (some t) now), vaultsSet := slistAdd s.vaultsSet pda } (toVaultDTO pda d slot (some t) now).authority pda) (toVaultDTO pda d slot (some t) now).authority none (toVaultDTO pda d slot (some t) now).updatedAtEpoch pda) (toVaultDTO pda d slot (some t) now).authority (some (toVaultDTO pda d slot (some t) now).status) (toVaultDTO pda d slot (some t) now).updatedAtEpoch pda) (toVaultDTO pda d slot (some t) now).authority (some ev.status) pda) d.authority none pda = some t ∧
    authScore (zremAuth (zaddAuth (zaddAuth (saddAuthorityVaults { s with vaults := aset s.vaults pda (toVaultDTO pda d slot (some t) now), vaultsSet := slistAdd s.vaultsSet pda } (toVaultDTO pda d slot (some t) now).authority pda) (toVaultDTO pda d slot (some t) now).authority none (toVaultDTO pda d slot (some t) now).updatedAtEpoch pda) (toVaultDTO pda d slot (some t) now).authority (some (toVaultDTO pda d slot (some t) now).status) (toVaultDTO pda d slot (some t) now).updatedAtEpoch pda) (toVaultDTO pda d slot (some t) now).authority (some ev.status) pda) d.authority (some (mapVaultStatus d.status).1) pda = some t := by
  have hauth : (toVaultDTO pda d slot (some t) now).authority = d.authority := rfl
  obtain ⟨c1, c2, c3, c4, c5⟩ := vaultWriteState_fix s pda d slot t now ht
  have hk4 : ((d.authority, (none : Option VaultStatus)) : String × Option VaultStatus) ≠
      (d.authority, some ev.status) := by simp
  have hk5 : ((d.authority, some (mapVaultStatus d.status).1) : String × Option VaultStatus) ≠
      (d.authority, some ev.status) := by
    intro hx
    have h2 := congrArg Prod.snd hx
    simp only at h2
    injection h2 with h3
    exact hne h3.symm
  refine ⟨?_, ?_, ?_, ?_, ?_⟩
  · rw [zremAuth_vaults]
    exact c1
  · rw [zremAuth_vaultsSet]
    exact c2
  · rw [zremAuth_authorityVaults]
    exact c3
  · rw [hauth, zremAuth_authScore_kne _ _ _ _ _ _ _ hk4]
    exact c4
  · rw [hauth, zremAuth_authScore_kne _ _ _ _ _ _ _ hk5]
    exact c5

theorem decodedStep_post_vault (slot t now : Nat) (snap s : KV) (pda : String)
    (d : DecodedVault) (ht : t ≠ 0) (h : staleVault snap pda slot = false) :
    VaultFix slot t (decodedStep slot (some t) now snap s (.vault pda d)) pda d := by
  unfold staleVault at h
  have hsl0 : (toVaultDTO pda d slot (some t) now).slot = some slot := rfl
  cases hv : alookup snap.vaults pda with
  | none =>
      simp only [decodedStep, hv]
      right
      exact vaultWriteState_fix s pda d slot t now ht
  | some ev =>
      simp only [hv] at h
      cases hsl : ev.slot with
      | none =>
          simp only [decodedStep, hv, hsl, hsl0]
          by_cases hne : ev.status ≠ (toVaultDTO pda d slot (some t) now).status
          · rw [if_pos hne]
            right
            exact vaultWriteStateZrem_fix s pda d slot t now ht ev hne
          · rw [if_neg hne]
            right
            exact vaultWriteState_fix s pda d slot t now ht
      | some sev =>
          simp only [hsl] at h
          simp only [decodedStep, hv, hsl, hsl0, h, Bool.false_eq_true, if_false]
          by_cases hne : ev.status ≠ (toVaultDTO pda d slot (some t) now).status
          · rw [if_pos hne]
            right
            exact vaultWriteStateZrem_fix s pda d slot t now ht ev hne
          · rw [if_neg hne]
            right
            exact vaultWriteState_fix s pda d slot t now ht

theorem positionWriteState_fix (s : KV) (pda : String) (p : DecodedPosition)
    (slot t now : Nat) (ht : t ≠ 0) :
    alookup (zaddOwnerPositions (saddOwnerPositions { s with positions := aset s.positions pda (toPositionDTO pda p slot (some t) now) } (toPositionDTO pda p slot (some t) now).owner pda) (toPositionDTO pda p slot (some t) now).owner (toPositionDTO pda p slot (some t) now).updatedAtEpoch pda).positions pda = some (toPositionDTO pda p slot (some t) 0) ∧
    pda ∈ (alookup (zaddOwnerPositions (saddOwnerPositions { s with positions := aset s.positions pda (toPositionDTO pda p slot (some t) now) } (toPositionDTO pda p slot (some t) now).owner pda) (toPositionDTO pda p slot (some t) now).owner (toPositionDTO pda p slot (some t) now).updatedAtEpoch pda).ownerPositions p.owner).getD [] ∧
    zscore (zaddOwnerPositions (saddOwnerPositions { s with positions := aset s.positions pda (toPositionDTO pda p slot (some t) now) } (toPositionDTO pda p slot (some t) now).owner pda) (toPositionDTO pda p slot (some t) now).owner (toPositionDTO pda p slot (some t) now).updatedAtEpoch pda).ownerPositionsByUpdated p.owner pda = some t := by
  have hown : (toPositionDTO pda p slot (some t) now).owner = p.owner := rfl
  have hepo : (toPositionDTO pda p slot (some t) now).updatedAtEpoch = t := by
    simp [toPositionDTO, truthyOr, ht]
  refine ⟨?_, ?_, ?_⟩
  · simp [alookup_aset, toPositionDTO_now_irrel _ _ _ _ _ ht]
  · simp only [zaddOwnerPositions_ownerPositions, saddOwnerPositions, hown,
      alookup_aset, Option.getD_some]
    exact mem_slistAdd_self _ _
  · rw [hown, hepo]
    exact zscore_self_ownerPositions _ _ _ _

theorem decodedStep_post_position (slot t now : Nat) (snap s : KV)
    (pda : String) (p : DecodedPosition) (ht : t ≠ 0)
    (h : stalePosition snap pda slot = false) :
    PositionFix slot t (decodedStep slot (some t) now snap s (.position pda p)) pda p := by
  unfold stalePosition at h
  have hsl0 : (toPositionDTO pda p slot (some t) now).slot = some slot := rfl
  cases hv : alookup snap.positions pda with
  | none =>
      simp only [decodedStep, hv]
      right
      exact positionWriteState_fix s pda p slot t now ht
  | some ep =>
      simp only [hv] at h
      cases hsl : ep.slot with
      | none =>
          simp only [decodedStep, hv, hsl, hsl0]
          right
          exact positionWriteState_fix s pda p slot t now ht
      | some sep =>
          simp only [hsl] at h
          simp only [decodedStep, hv, hsl, hsl0, h, Bool.false_eq_true, if_false]
          right
          exact positionWriteState_fix s pda p slot t now ht

theorem activityStep_post (sig : String) (slot t : Nat)
    (dl : List DecodedAccount) (snap : KV) (acc : KV × Nat) (a : String)
    (ht : t ≠ 0) :
    ActivityFix sig slot t dl (activityStep sig slot (some t) dl snap acc a).1 a := by
  intro hc
  obtain ⟨st, n⟩ := acc
  simp only [activityStep, if_neg hc, toActivityDTO, truthyOr_of_ne _ _ ht]
  have hsome : ¬((alookup st.activities
        (kActivity sig ((ACTION_TYPE_MAP a).getD ActivityType.vault_created) slot)).isNone = true) →
      (alookup st.activities
        (kActivity sig ((ACTION_TYPE_MAP a).getD ActivityType.vault_created) slot)).isSome = true := by
    intro hw'
    rw [Bool.not_eq_true, Option.isNone_eq_false_iff] at hw'
    exact hw'
  cases hvi : vaultItemOf dl with
  | none =>
      cases hpi : positionItemOf dl with
      | none =>
          simp only [Option.map_none']
          by_cases hw : (alookup st.activities
            (kActivity sig ((ACTION_TYPE_MAP a).getD ActivityType.vault_created) slot)).isNone = true
          · rw [if_pos hw]
            refine ⟨by simp [alookup_aset], ?_, ?_⟩
            · intro pda d hvi'
              exact Option.noConfusion hvi'
            · intro pda p hpi'
              exact Option.noConfusion hpi'
          · rw [if_neg hw]
            refine ⟨hsome hw, ?_, ?_⟩
            · intro pda d hvi'
              exact Option.noConfusion hvi'
            · intro pda p hpi'
              exact Option.noConfusion hpi'
      | some pi =>
          obtain ⟨ppda, pp⟩ := pi
          simp only [Option.map_none', Option.map_some']
          by_cases hw : (alookup st.activities
            (kActivity sig ((ACTION_TYPE_MAP a).getD ActivityType.vault_created) slot)).isNone = true
          · rw [if_pos hw]
            refine ⟨by simp [alookup_aset], ?_, ?_⟩
            · intro pda d hvi'
              exact Option.noConfusion hvi'
            · intro pda p hpi'
              injection hpi' with h2
              cases h2
              exact zscore_self_ownerActivity _ _ _ _
          · rw [if_neg hw]
            refine ⟨hsome hw, ?_, ?_⟩
            · intro pda d hvi'
              exact Option.noConfusion hvi'
            · intro pda p hpi'
              injection hpi' with h2
              cases h2
              exact zscore_self_ownerActivity _ _ _ _
  | some vi =>
      obtain ⟨vpda, vd⟩ := vi
      cases hpi : positionItemOf dl with
      | none =>
          simp only [Option.map_none', Option.map_some']
          by_cases hw : (alookup st.activities
            (kActivity sig ((ACTION_TYPE_MAP a).getD ActivityType.vault_created) slot)).isNone = true
          · rw [if_pos hw]
            refine ⟨by simp [alookup_aset], ?_, ?_⟩
            · intro pda d hvi'
              injection hvi' with h2
              cases h2
              exact zscore_self_vaultActivity _ _ _ _
            · intro pda p hpi'
              exact Option.noConfusion hpi'
          · rw [if_neg hw]
            refine ⟨hsome hw, ?_, ?_⟩
            · intro pda d hvi'
              injection hvi' with h2
              cases h2
              exact zscore_self_vaultActivity _ _ _ _
            · intro pda p hpi'
              exact Option.noConfusion hpi'
      | some pi =>
          obtain ⟨ppda, pp⟩ := pi
          simp only [Option.map_some']
          by_cases hw : (alookup st.activities
            (kActivity sig ((ACTION_TYPE_MAP a).getD ActivityType.vault_created) slot)).isNone = true
          · rw [if_pos hw]
            refine ⟨by simp [alookup_aset], ?_, ?_⟩
            · intro pda d hvi'
              injection hvi' with h2
              cases h2
              rw [zaddOwnerActivity_vaultActivity]
              exact zscore_self_vaultActivity _ _ _ _
            · intro pda p hpi'
              injection hpi' with h2
              cases h2
              exact zscore_self_ownerActivity _ _ _ _
          · rw [if_neg hw]
            refine ⟨hsome hw, ?_, ?_⟩
            · intro pda d hvi'
              injection hvi' with h2
              cases h2
              rw [zaddOwnerActivity_vaultActivity]
              exact zscore_self_vaultActivity _ _ _ _
            · intro pda p hpi'
              injection hpi' with h2
              cases h2
              exact zscore_self_ownerActivity _ _ _ _


theorem filterMap_key_sublist {α β γ : Type} (f : α → Option β) (k : α → γ)
    (kk : β → γ) (h : ∀ a b, f a = some b → kk b = k a) :
    ∀ l : List α, ((l.filterMap f).map kk).Sublist (l.map k) := by
  intro l
  induction l with
  | nil => simp
  | cons a tl ih =>
      cases hfa : f a with
      | none =>
          simp only [List.filterMap_cons, hfa, List.map_cons]
          exact ih.cons _
      | some b =>
          simp only [List.filterMap_cons, hfa, List.map_cons, h a b hfa]
          exact ih.cons₂ _

theorem alist_key_nodup {β : Type} (l : List (String × β))
    (h : (l.map Prod.fst).Nodup) (k : String) (a b : β)
    (ha : (k, a) ∈ l) (hb : (k, b) ∈ l) : a = b := by
  have := List.inj_on_of_nodup_map h ha hb (by rfl)
  injection this

theorem decodedOf_mem_entry (e : IngestEvent) (item : DecodedAccount)
    (h : item ∈ decodedOf e) :
    (itemKey item, itemFetch item) ∈ e.accounts := by
  unfold decodedOf at h
  rw [List.mem_filterMap] at h
  obtain ⟨⟨k, fr⟩, hmem, hval⟩ := h
  cases fr <;> simp only at hval <;> try exact Option.noConfusion hval
  · injection hval with h2
    subst h2
    exact hmem
  · injection hval with h2
    subst h2
    exact hmem

theorem absent_decoded_key_ne (e : IngestEvent)
    (hnd : (e.accounts.map Prod.fst).Nodup) (P : String)
    (hP : P ∈ absentKeys e) (item : DecodedAccount) (hm : item ∈ decodedOf e) :
    P ≠ itemKey item := by
  intro hx
  have h1 := absentKeys_mem e P hP
  have h2 := decodedOf_mem_entry e item hm
  rw [← hx] at h2
  have := alist_key_nodup e.accounts hnd P _ _ h1 h2
  cases item <;> exact FetchResult.noConfusion this

theorem decodedOf_keys_nodup (e : IngestEvent)
    (hnd : (e.accounts.map Prod.fst).Nodup) :
    ((decodedOf e).map itemKey).Nodup := by
  refine List.Nodup.sublist ?_ hnd
  unfold decodedOf
  refine filterMap_key_sublist _ _ _ ?_ e.accounts
  intro a b hab
  obtain ⟨k, fr⟩ := a
  cases fr <;> simp only at hab <;> try exact Option.noConfusion hab
  · injection hab with h2
    subst h2
    rfl
  · injection hab with h2
    subst h2
    rfl

theorem keys_ne_of_nodup {α γ : Type} (k : α → γ) (l : List α)
    (h : (l.map k).Nodup) (x y : α) (hx : x ∈ l) (hy : y ∈ l) (hxy : x ≠ y) :
    k x ≠ k y :=
  fun hk => hxy (List.inj_on_of_nodup_map h hx hy hk)

theorem staleVault_true_elim (snap : KV) (pda : String) (slot : Nat)
    (h : staleVault snap pda slot = true) :
    ∃ v sv, alookup snap.vaults pda = some v ∧ v.slot = some sv ∧ slot < sv := by
  unfold staleVault at h
  cases hv : alookup snap.vaults pda with
  | none => simp only [hv] at h; exact absurd h (by simp)
  | some ev =>
      simp only [hv] at h
      cases hsl : ev.slot with
      | none => simp only [hsl] at h; exact absurd h (by simp)
      | some sev =>
          simp only [hsl] at h
          exact ⟨ev, sev, rfl, hsl, of_decide_eq_true h⟩

theorem stalePosition_true_elim (snap : KV) (pda : String) (slot : Nat)
    (h : stalePosition snap pda slot = true) :
    ∃ q sq, alookup snap.positions pda = some q ∧ q.slot = some sq ∧ slot < sq := by
  unfold stalePosition at h
  cases hv : alookup snap.positions pda with
  | none => simp only [hv] at h; exact absurd h (by simp)
  | some ep =>
      simp only [hv] at h
      cases hsl : ep.slot with
      | none => simp only [hsl] at h; exact absurd h (by simp)
      | some sep =>
          simp only [hsl] at h
          exact ⟨ep, sep, rfl, hsl, of_decide_eq_true h⟩

theorem noClaimVaultInterference_spec (st : KV) (e : IngestEvent)
    (h : noClaimVaultInterference st e = true) (P : String)
    (hP : P ∈ absentKeys e) (pos : PositionDTO)
    (hpos : alookup st.positions P = some pos) (pda : String)
    (dv : DecodedVault) (hm : DecodedAccount.vault pda dv ∈ decodedOf e) :
    pda ≠ pos.vaultPda := by
  unfold noClaimVaultInterference at h
  rw [List.all_eq_true] at h
  have h1 := h P hP
  rw [hpos] at h1
  rw [List.all_eq_true] at h1
  have h2 := h1 _ hm
  simp only at h2
  exact of_decide_eq_true h2

theorem foldl_establish_one {α σ : Type} (f : σ → α → σ) (C : σ → Prop)
    (l : List α) (x : α) (hx : x ∈ l)
    (hpost : ∀ s, C (f s x))
    (hkeep : ∀ s y, y ∈ l → y ≠ x → C s → C (f s y)) :
    ∀ s, C (List.foldl f s l) := by
  induction l with
  | nil => cases hx
  | cons y ys ih =>
      intro s
      rcases List.mem_cons.mp hx with hxy | hxs
      · subst hxy
        simp only [List.foldl_cons]
        refine foldl_preserve f C ys ?_ _ (hpost s)
        intro s' z hz hq
        by_cases hzx : z = x
        · subst hzx
          exact hpost s'
        · exact hkeep s' z (List.mem_cons_of_mem _ hz) hzx hq
      · simp only [List.foldl_cons]
        exact ih hxs (fun s' z hz hzx hq =>
          hkeep s' z (List.mem_cons_of_mem _ hz) hzx hq) (f s y)

theorem closeFold_establish (sig : String) (slot : Nat) (bt : Option Nat)
    (now : Nat) (st : KV) (n : Nat) (l : List String) :
    ∀ P ∈ l, CloseFix (l.foldl (closeVaultStep sig slot bt now) (st, n)).1 P :=
  fun P hP => foldl_establish _ (fun P acc => CloseFix acc.1 P) l
    (fun s x _ => closeVaultStep_post sig slot bt now s x)
    (fun s x y _ _ hq => closeVaultStep_keep sig slot bt now s x y hq)
    (st, n) P hP

theorem closeFold_fix (sig : String) (slot : Nat) (bt : Option Nat)
    (now : Nat) (s : KV) (n : Nat) (l : List String)
    (h : ∀ P ∈ l, CloseFix s P) :
    l.foldl (closeVaultStep sig slot bt now) (s, n) = (s, n) :=
  foldl_fix _ _ _ (fun P hP => closeVaultStep_fix sig slot bt now s n P (h P hP))

theorem claimFold_establish (sig : String) (slot t now : Nat) (st : KV)
    (n : Nat) (l : List String) :
    ∀ P ∈ l,
      ClaimFix sig slot t (l.foldl (claimStep sig slot (some t) now) (st, n)).1 P :=
  fun P hP => foldl_establish _ (fun P acc => ClaimFix sig slot t acc.1 P) l
    (fun s x _ => claimStep_post sig slot t now s x)
    (fun s x y _ _ hq => claimStep_keep sig slot t now s x y hq)
    (st, n) P hP

theorem claimFold_fix (sig : String) (slot t now : Nat) (s : KV) (n : Nat)
    (l : List String) (h : ∀ P ∈ l, ClaimFix sig slot t s P) :
    l.foldl (claimStep sig slot (some t) now) (s, n) = (s, n) :=
  foldl_fix _ _ _ (fun P hP => claimStep_fix sig slot t now s n P (h P hP))

theorem claimFold_vaultPda (sig : String) (slot : Nat) (bt : Option Nat)
    (now : Nat) (st : KV) (n : Nat) (l : List String) (P : String) :
    Option.map PositionDTO.vaultPda
        (alookup (l.foldl (claimStep sig slot bt now) (st, n)).1.positions P) =
      Option.map PositionDTO.vaultPda (alookup st.positions P) :=
  foldl_preserve _
    (fun acc => Option.map PositionDTO.vaultPda (alookup acc.1.positions P) =
      Option.map PositionDTO.vaultPda (alookup st.positions P)) l
    (fun s x _ hq =>
      (claimStep_positions_vaultPda sig slot bt now s x P).trans hq)
    (st, n) rfl

theorem decodedFold_keepClaim (sig : String) (slot t now : Nat) (snap s0 : KV)
    (dl : List DecodedAccount) (P : String)
    (hkeys : ∀ item ∈ dl, P ≠ itemKey item)
    (hseed : ∀ pos, alookup s0.positions P = some pos →
      ∀ pda dv, DecodedAccount.vault pda dv ∈ dl → pda ≠ pos.vaultPda)
    (h : ClaimFix sig slot t s0 P) :
    ClaimFix sig slot t (dl.foldl (decodedStep slot (some t) now snap) s0) P := by
  have main := foldl_preserve (decodedStep slot (some t) now snap)
    (fun s => alookup s.positions P = alookup s0.positions P ∧
      ClaimFix sig slot t s P) dl ?_ s0 ⟨rfl, h⟩
  · exact main.2
  · intro s item hm hq
    obtain ⟨hq1, hq2⟩ := hq
    constructor
    · rw [decodedStep_positions_ne _ _ _ _ _ _ _ (hkeys item hm)]
      exact hq1
    · refine decodedStep_keepClaim sig slot t _ now snap s item P
        (hkeys item hm) ?_ hq2
      intro pos hpos pda dv hitem
      subst hitem
      rw [hq1] at hpos
      exact hseed pos hpos pda dv hm

theorem activityFold_keepClaim (sig : String) (slot t : Nat) (bt : Option Nat)
    (dl : List DecodedAccount) (snap : KV) (acc : KV × Nat)
    (actions : List String) (P : String) (h : ClaimFix sig slot t acc.1 P) :
    ClaimFix sig slot t
      (actions.foldl (activityStep sig slot bt dl snap) acc).1 P :=
  foldl_preserve _ (fun acc => ClaimFix sig slot t acc.1 P) actions
    (fun s x _ hq => activityStep_keepClaim sig slot t bt dl snap s x P hq)
    acc h

theorem decodedFold_establish (slot t now : Nat) (snap : KV)
    (dl : List DecodedAccount) (ht : t ≠ 0)
    (hnd : (dl.map itemKey).Nodup) :
    ∀ item ∈ dl,
      DecodedFix slot t (dl.foldl (decodedStep slot (some t) now snap) snap) item := by
  intro item hm
  cases item with
  | vault pda d =>
      by_cases hstv : staleVault snap pda slot = true
      · have hQ : alookup (dl.foldl (decodedStep slot (some t) now snap) snap).vaults pda =
            alookup snap.vaults pda := by
          refine foldl_preserve _
            (fun s => alookup s.vaults pda = alookup snap.vaults pda) dl ?_ snap rfl
          intro s item' hm' hq
          by_cases hkey : pda = itemKey item'
          · have heq : item' = DecodedAccount.vault pda d :=
              List.inj_on_of_nodup_map hnd hm' hm (by rw [← hkey]; rfl)
            subst heq
            rw [decodedStep_stale_vault_skip _ _ _ _ _ _ _ hstv]
            exact hq
          · rw [decodedStep_vaults_ne _ _ _ _ _ _ _ hkey]
            exact hq
        obtain ⟨v, sv, hv, hsl, hlt⟩ := staleVault_true_elim snap pda slot hstv
        exact Or.inl ⟨v, sv, by rw [hQ]; exact hv, hsl, hlt⟩
      · have hst' : staleVault snap pda slot = false := by
          cases hb : staleVault snap pda slot with
          | false => rfl
          | true => exact absurd hb hstv
        exact foldl_establish_one _ (fun s => VaultFix slot t s pda d) dl _ hm
          (fun s => decodedStep_post_vault slot t now snap s pda d ht hst')
          (fun s y hy hyx hq => decodedStep_keepVault slot t (some t) now snap s y
            pda d (keys_ne_of_nodup itemKey dl hnd _ y hm hy
              (fun hx => hyx hx.symm)) hq) snap
  | position pda p =>
      by_cases hstv : stalePosition snap pda slot = true
      · have hQ : alookup (dl.foldl (decodedStep slot (some t) now snap) snap).positions pda =
            alookup snap.positions pda := by
          refine foldl_preserve _
            (fun s => alookup s.positions pda = alookup snap.positions pda) dl ?_ snap rfl
          intro s item' hm' hq
          by_cases hkey : pda = itemKey item'
          · have heq : item' = DecodedAccount.position pda p :=
              List.inj_on_of_nodup_map hnd hm' hm (by rw [← hkey]; rfl)
            subst heq
            rw [decodedStep_stale_position_skip _ _ _ _ _ _ _ hstv]
            exact hq
          · rw [decodedStep_positions_ne _ _ _ _ _ _ _ hkey]
            exact hq
        obtain ⟨q, sq, hv, hsl, hlt⟩ := stalePosition_true_elim snap pda slot hstv
        exact Or.inl ⟨q, sq, by rw [hQ]; exact hv, hsl, hlt⟩
      · have hst' : stalePosition snap pda slot = false := by
          cases hb : stalePosition snap pda slot with
          | false => rfl
          | true => exact absurd hb hstv
        exact foldl_establish_one _ (fun s => PositionFix slot t s pda p) dl _ hm
          (fun s => decodedStep_post_position slot t now snap s pda p ht hst')
          (fun s y hy hyx hq => decodedStep_keepPosition slot t (some t) now snap s y
            pda p (keys_ne_of_nodup itemKey dl hnd _ y hm hy
              (fun hx => hyx hx.symm)) hq) snap

theorem decodedFold_fix (slot t now : Nat) (s : KV)
    (dl : List DecodedAccount) (ht : t ≠ 0)
    (h : ∀ item ∈ dl, DecodedFix slot t s item) :
    dl.foldl (decodedStep slot (some t) now s) s = s :=
  foldl_fix _ _ _ (fun item hm => decodedStep_fix slot t now s item ht (h item hm))

theorem activityFold_keepDecoded (sig : String) (slot t : Nat)
    (bt : Option Nat) (dl : List DecodedAccount) (snap : KV) (acc : KV × Nat)
    (actions : List String) (item : DecodedAccount)
    (h : DecodedFix slot t acc.1 item) :
    DecodedFix slot t
      (actions.foldl (activityStep sig slot bt dl snap) acc).1 item :=
  foldl_preserve _ (fun acc => DecodedFix slot t acc.1 item) actions
    (fun s x _ hq => activityStep_keepDecoded sig slot t bt dl snap s x item hq)
    acc h

theorem activityFold_establish (sig : String) (slot t : Nat)
    (dl : List DecodedAccount) (snap : KV) (acc : KV × Nat)
    (actions : List String) (ht : t ≠ 0) :
    ∀ a ∈ actions,
      ActivityFix sig slot t dl
        (actions.foldl (activityStep sig slot (some t) dl snap) acc).1 a :=
  fun a ha => foldl_establish _
    (fun a acc => ActivityFix sig slot t dl acc.1 a) actions
    (fun s x _ => activityStep_post sig slot t dl snap s x ht)
    (fun s x y _ _ hq => activityStep_keepActivity sig slot t dl snap s x y ht hq)
    acc a ha

theorem activityFold_fix (sig : String) (slot t : Nat)
    (dl : List DecodedAccount) (snap : KV) (s : KV) (n : Nat)
    (actions : List String) (ht : t ≠ 0)
    (h : ∀ a ∈ actions, ActivityFix sig slot t dl s a) :
    actions.foldl (activityStep sig slot (some t) dl snap) (s, n) = (s, n) :=
  foldl_fix _ _ _
    (fun a ha => activityStep_fix sig slot t dl snap s n a ht (h a ha))

/-- C2 amended: ingest is idempotent for an event that carries a non-zero
block time, whose transaction account keys are distinct, and whose decoded
vaults do not include the cached parent vault of any deleted-position key:
re-running ingest on the same event leaves the entire stored state
unchanged and creates zero new activity records.  (Without a block time
the records are stamped with the ingest wall clock and a re-run re-stamps
them, per the counterexample.) -/
theorem ingest_idempotent (st : KV) (e : IngestEvent) (now₁ now₂ t : Nat)
    (hbt : e.blockTime = some t) (ht : t ≠ 0)
    (hnd : (e.accounts.map Prod.fst).Nodup)
    (hni : noClaimVaultInterference st e = true) :
    processItem (processItem st e now₁).1 e now₂ = ((processItem st e now₁).1, 0) := by
  by_cases hpe : (programAccounts e).isEmpty = true
  · simp [processItem, hpe]
  · by_cases hcv : "closeVault" ∈ e.actions ∧ (decodedOf e).isEmpty = true
    · have hrun1 : processItem st e now₁ =
          (absentKeys e).foldl (closeVaultStep e.signature e.slot e.blockTime now₁) (st, 0) := by
        simp [processItem, hpe, hcv]
      have hfix := closeFold_establish e.signature e.slot e.blockTime now₁ st 0 (absentKeys e)
      have hrun2 : processItem ((absentKeys e).foldl (closeVaultStep e.signature e.slot e.blockTime now₁) (st, 0)).1 e now₂ =
          (absentKeys e).foldl (closeVaultStep e.signature e.slot e.blockTime now₂)
            (((absentKeys e).foldl (closeVaultStep e.signature e.slot e.blockTime now₁) (st, 0)).1, 0) := by
        simp [processItem, hpe, hcv]
      rw [hrun1, hrun2]
      exact closeFold_fix _ _ _ _ _ _ _ hfix
    · by_cases hde : (decodedOf e).isEmpty = true
      · have hncv : "closeVault" ∉ e.actions := fun hx => hcv ⟨hx, hde⟩
        by_cases hcl : "claim" ∈ e.actions
        · have hrun1 : processItem st e now₁ =
              (absentKeys e).foldl (claimStep e.signature e.slot (some t) now₁) (st, 0) := by
            simp [processItem, hpe, hncv, hde, hcl, hbt]
          have hfix := claimFold_establish e.signature e.slot t now₁ st 0 (absentKeys e)
          have hrun2 : processItem ((absentKeys e).foldl (claimStep e.signature e.slot (some t) now₁) (st, 0)).1 e now₂ =
              (absentKeys e).foldl (claimStep e.signature e.slot (some t) now₂)
                (((absentKeys e).foldl (claimStep e.signature e.slot (some t) now₁) (st, 0)).1, 0) := by
            simp [processItem, hpe, hncv, hde, hcl, hbt]
          rw [hrun1, hrun2]
          exact claimFold_fix _ _ _ _ _ _ _ hfix
        · have hrun1 : processItem st e now₁ = (st, 0) := by
            simp [processItem, hpe, hncv, hde, hcl]
          rw [hrun1]
          simp [processItem, hpe, hncv, hde, hcl]
      · by_cases hcl : "claim" ∈ e.actions
        · have hrun1 : processItem st e now₁ =
              e.actions.foldl (activityStep e.signature e.slot (some t) (decodedOf e)
                  ((absentKeys e).foldl (claimStep e.signature e.slot (some t) now₁) (st, 0)).1)
                ((decodedOf e).foldl (decodedStep e.slot (some t) now₁
                    ((absentKeys e).foldl (claimStep e.signature e.slot (some t) now₁) (st, 0)).1)
                  ((absentKeys e).foldl (claimStep e.signature e.slot (some t) now₁) (st, 0)).1,
                 ((absentKeys e).foldl (claimStep e.signature e.slot (some t) now₁) (st, 0)).2) := by
            simp [processItem, hpe, hcv, hde, hcl, hbt]
          set F1 := (absentKeys e).foldl (claimStep e.signature e.slot (some t) now₁) (st, 0) with hF1
          set F2 := (decodedOf e).foldl (decodedStep e.slot (some t) now₁ F1.1) F1.1 with hF2
          set F3 := e.actions.foldl (activityStep e.signature e.slot (some t) (decodedOf e) F1.1) (F2, F1.2) with hF3
          have hA1 : ∀ P ∈ absentKeys e, ClaimFix e.signature e.slot t F1.1 P := by
            rw [hF1]
            exact claimFold_establish e.signature e.slot t now₁ st 0 (absentKeys e)
          have hKeys : ∀ P ∈ absentKeys e, ∀ item ∈ decodedOf e, P ≠ itemKey item :=
            fun P hP item hm => absent_decoded_key_ne e hnd P hP item hm
          have hSeed : ∀ P ∈ absentKeys e, ∀ pos, alookup F1.1.positions P = some pos →
              ∀ pda dv, DecodedAccount.vault pda dv ∈ decodedOf e → pda ≠ pos.vaultPda := by
            intro P hP pos hpos pda dv hm
            have hv := claimFold_vaultPda e.signature e.slot (some t) now₁ st 0 (absentKeys e) P
            rw [← hF1] at hv
            rw [hpos] at hv
            cases hst : alookup st.positions P with
            | none =>
                rw [hst] at hv
                simp at hv
            | some pos0 =>
                rw [hst] at hv
                simp only [Option.map_some'] at hv
                injection hv with h2
                rw [h2]
                exact noClaimVaultInterference_spec st e hni P hP pos0 hst pda dv hm
          have hA2 : ∀ P ∈ absentKeys e, ClaimFix e.signature e.slot t F2 P := by
            intro P hP
            rw [hF2]
            exact decodedFold_keepClaim e.signature e.slot t now₁ F1.1 F1.1 (decodedOf e) P
              (hKeys P hP) (hSeed P hP) (hA1 P hP)
          have hA3 : ∀ P ∈ absentKeys e, ClaimFix e.signature e.slot t F3.1 P := by
            intro P hP
            rw [hF3]
            exact activityFold_keepClaim e.signature e.slot t (some t) (decodedOf e) F1.1
              (F2, F1.2) e.actions P (hA2 P hP)
          have hdlnd := decodedOf_keys_nodup e hnd
          have hB2 : ∀ item ∈ decodedOf e, DecodedFix e.slot t F2 item := by
            intro item hm
            rw [hF2]
            exact decodedFold_establish e.slot t now₁ F1.1 (decodedOf e) ht hdlnd item hm
          have hB3 : ∀ item ∈ decodedOf e, DecodedFix e.slot t F3.1 item := by
            intro item hm
            rw [hF3]
            exact activityFold_keepDecoded e.signature e.slot t (some t) (decodedOf e) F1.1
              (F2, F1.2) e.actions item (hB2 item hm)
          have hC : ∀ a ∈ e.actions,
              ActivityFix e.signature e.slot t (decodedOf e) F3.1 a := by
            intro a ha
            rw [hF3]
            exact activityFold_establish e.signature e.slot t (decodedOf e) F1.1
              (F2, F1.2) e.actions ht a ha
          have h1 : (absentKeys e).foldl (claimStep e.signature e.slot (some t) now₂) (F3.1, 0) = (F3.1, 0) :=
            claimFold_fix _ _ _ _ _ _ _ hA3
          have h2 : (decodedOf e).foldl (decodedStep e.slot (some t) now₂ F3.1) F3.1 = F3.1 :=
            decodedFold_fix _ _ _ _ _ ht hB3
          have h3 : e.actions.foldl (activityStep e.signature e.slot (some t) (decodedOf e) F3.1) (F3.1, 0) = (F3.1, 0) :=
            activityFold_fix _ _ _ _ _ _ _ _ ht hC
          have hrun2 : processItem F3.1 e now₂ =
              e.actions.foldl (activityStep e.signature e.slot (some t) (decodedOf e)
                  ((absentKeys e).foldl (claimStep e.signature e.slot (some t) now₂) (F3.1, 0)).1)
                ((decodedOf e).foldl (decodedStep e.slot (some t) now₂
                    ((absentKeys e).foldl (claimStep e.signature e.slot (some t) now₂) (F3.1, 0)).1)
                  ((absentKeys e).foldl (claimStep e.signature e.slot (some t) now₂) (F3.1, 0)).1,
                 ((absentKeys e).foldl (claimStep e.signature e.slot (some t) now₂) (F3.1, 0)).2) := by
            simp [processItem, hpe, hcv, hde, hcl, hbt]
          rw [hrun1, hrun2, h1]
          dsimp only
          rw [h2]
          exact h3
        · have hrun1 : processItem st e now₁ =
              e.actions.foldl (activityStep e.signature e.slot (some t) (decodedOf e) st)
                ((decodedOf e).foldl (decodedStep e.slot (some t) now₁ st) st, 0) := by
            simp [processItem, hpe, hcv, hde, hcl, hbt]
          set F2 := (decodedOf e).foldl (decodedStep e.slot (some t) now₁ st) st with hF2
          set F3 := e.actions.foldl (activityStep e.signature e.slot (some t) (decodedOf e) st) (F2, 0) with hF3
          have hdlnd := decodedOf_keys_nodup e hnd
          have hB2 : ∀ item ∈ decodedOf e, DecodedFix e.slot t F2 item := by
            intro item hm
            rw [hF2]
            exact decodedFold_establish e.slot t now₁ st (decodedOf e) ht hdlnd item hm
          have hB3 : ∀ item ∈ decodedOf e, DecodedFix e.slot t F3.1 item := by
            intro item hm
            rw [hF3]
            exact activityFold_keepDecoded e.signature e.slot t (some t) (decodedOf e) st
              (F2, 0) e.actions item (hB2 item hm)
          have hC : ∀ a ∈ e.actions,
              ActivityFix e.signature e.slot t (decodedOf e) F3.1 a := by
            intro a ha
            rw [hF3]
            exact activityFold_establish e.signature e.slot t (decodedOf e) st
              (F2, 0) e.actions ht a ha
          have h2 : (decodedOf e).foldl (decodedStep e.slot (some t) now₂ F3.1) F3.1 = F3.1 :=
            decodedFold_fix _ _ _ _ _ ht hB3
          have h3 : e.actions.foldl (activityStep e.signature e.slot (some t) (decodedOf e) F3.1) (F3.1, 0) = (F3.1, 0) :=
            activityFold_fix _ _ _ _ _ _ _ _ ht hC
          have hrun2 : processItem F3.1 e now₂ =
              e.actions.foldl (activityStep e.signature e.slot (some t) (decodedOf e) F3.1)
                ((decodedOf e).foldl (decodedStep e.slot (some t) now₂ F3.1) F3.1, 0) := by
            simp [processItem, hpe, hcv, hde, hcl, hbt]
          rw [hrun1, hrun2, h2]
          exact h3

/-- C2 counterexample: for an event without a block time, toVaultDTO
stamps updatedAtEpoch with the ingest wall clock (blockTime || now), so a
redelivery at a later wall-clock time rewrites the stored record and its
index scores: the stored state after the second ingest differs from the
state after the first (epoch 7 becomes epoch 8), refuting idempotence for
every webhook event. -/
theorem ingest_not_idempotent_without_blocktime :
    (processItem (processItem c2Store c2Event 7).1 c2Event 8).1 ≠
      (processItem c2Store c2Event 7).1 ∧
    (alookup (processItem c2Store c2Event 7).1.vaults "V").map
        VaultDTO.updatedAtEpoch = some 7 ∧
    (alookup (processItem (processItem c2Store c2Event 7).1 c2Event 8).1.vaults "V").map
        VaultDTO.updatedAtEpoch = some 8 := by
  decide

theorem ingest_idempotent_witness :
    c2wEvent.blockTime = some 42 ∧ 42 ≠ 0 ∧
    (c2wEvent.accounts.map Prod.fst).Nodup ∧
    noClaimVaultInterference c2wStore c2wEvent = true ∧
    processItem (processItem c2wStore c2wEvent 7).1 c2wEvent 8 =
      ((processItem c2wStore c2wEvent 7).1, 0) :=
  ⟨rfl, by decide, by decide, by decide,
    ingest_idempotent c2wStore c2wEvent 7 8 42 rfl (by decide) (by decide)
      (by decide)⟩

theorem saddOwnerPositions_mem_ne (st : KV) (o m o' m' : String) (h : m' ≠ m) :
    (m' ∈ (alookup (saddOwnerPositions st o m).ownerPositions o').getD []) ↔
      m' ∈ (alookup st.ownerPositions o').getD [] := by
  unfold saddOwnerPositions
  by_cases hk : o' = o
  · subst hk
    simp [alookup_aset, slistAdd_mem_iff _ _ _ h]
  · simp [alookup_aset_ne _ _ _ _ hk]

theorem untouchedPosition_refl (st0 : KV) (pda : String) :
    UntouchedPosition st0 pda st0 :=
  ⟨rfl, fun _ => rfl, fun _ => Iff.rfl⟩

theorem closeVaultStep_untouchedPos (st0 : KV) (pda sig : String) (slot : Nat)
    (bt : Option Nat) (now : Nat) (acc : KV × Nat) (P : String)
    (h : UntouchedPosition st0 pda acc.1) :
    UntouchedPosition st0 pda (closeVaultStep sig slot bt now acc P).1 := by
  obtain ⟨h1, h2, h3⟩ := h
  refine ⟨?_, ?_, ?_⟩
  · rw [closeVaultStep_positions]
    exact h1
  · intro o
    rw [closeVaultStep_ownerPositionsByUpdated]
    exact h2 o
  · intro o
    rw [closeVaultStep_ownerPositions]
    exact h3 o

theorem claimStep_untouchedPos (st0 : KV) (pda sig : String) (slot : Nat)
    (bt : Option Nat) (now : Nat) (acc : KV × Nat) (P : String)
    (hP : P ≠ pda) (h : UntouchedPosition st0 pda acc.1) :
    UntouchedPosition st0 pda (claimStep sig slot bt now acc P).1 := by
  obtain ⟨h1, h2, h3⟩ := h
  have hne : pda ≠ P := Ne.symm hP
  refine ⟨?_, ?_, ?_⟩
  · rw [claimStep_positions_ne _ _ _ _ _ _ _ hne]
    exact h1
  · intro o
    rw [claimStep_opu_ne _ _ _ _ _ _ _ _ hne]
    exact h2 o
  · intro o
    rw [claimStep_ownerPositions]
    exact h3 o

theorem activityStep_untouchedPos (st0 : KV) (pda sig : String) (slot : Nat)
    (bt : Option Nat) (dl : List DecodedAccount) (snap : KV) (acc : KV × Nat)
    (a : String) (h : UntouchedPosition st0 pda acc.1) :
    UntouchedPosition st0 pda (activityStep sig slot bt dl snap acc a).1 := by
  obtain ⟨h1, h2, h3⟩ := h
  refine ⟨?_, ?_, ?_⟩
  · rw [activityStep_positions]
    exact h1
  · intro o
    rw [activityStep_ownerPositionsByUpdated]
    exact h2 o
  · intro o
    rw [activityStep_ownerPositions]
    exact h3 o

theorem decodedStep_untouchedPos (st0 : KV) (pda : String) (slot : Nat)
    (bt : Option Nat) (now : Nat) (snap st : KV) (item : DecodedAccount)
    (q : PositionDTO) (s : Nat)
    (hsnap : alookup snap.positions pda = some q) (hslot : q.slot = some s)
    (hstale : slot < s) (h : UntouchedPosition st0 pda st) :
    UntouchedPosition st0 pda (decodedStep slot bt now snap st item) := by
  obtain ⟨h1, h2, h3⟩ := h
  cases item with
  | vault pda' d =>
      simp only [decodedStep]
      split
      · exact ⟨h1, h2, h3⟩
      · split <;> (try split) <;>
          exact ⟨by simpa using h1, fun o => by simpa using h2 o,
            fun o => by simpa using h3 o⟩
  | position pda' p =>
      by_cases hpda : pda' = pda
      · subst hpda
        have hdec : decide (slot < s) = true := by simp [hstale]
        simp only [decodedStep, hsnap, toPositionDTO, hslot, hdec, if_true]
        exact ⟨h1, h2, h3⟩
      · have hne : pda ≠ pda' := fun hx => hpda hx.symm
        simp only [decodedStep]
        split
        · exact ⟨h1, h2, h3⟩
        · refine ⟨?_, ?_, ?_⟩
          · rw [zaddOwnerPositions_positions, saddOwnerPositions_positions]
            simpa [alookup_aset_ne _ _ _ _ hne] using h1
          · intro o
            rw [zaddOwnerPositions_zscore_ne _ _ _ _ _ _ hne]
            simpa using h2 o
          · intro o
            rw [zaddOwnerPositions_ownerPositions]
            rw [saddOwnerPositions_mem_ne _ _ _ _ _ hne]
            simpa using h3 o

/-- Position half of the stale-slot gate: when the cached position has a
non-null version s, the event version is strictly lower, and every
occurrence of the position's address in the transaction is a decoded
position update, ingest leaves the stored record, its score bindings in
every per-owner ordered index, and its set memberships unchanged. -/
theorem stale_decoded_position_update_skipped (st : KV) (e : IngestEvent)
    (now : Nat) (pda : String) (q : PositionDTO) (s : Nat)
    (hq : alookup st.positions pda = some q) (hslot : q.slot = some s)
    (hstale : e.slot < s)
    (hocc : ∀ fr, (pda, fr) ∈ e.accounts → ∃ p, fr = FetchResult.position p) :
    alookup (processItem st e now).1.positions pda = some q ∧
    UntouchedPosition st pda (processItem st e now).1 := by
  have hUP0 : UntouchedPosition st pda st := untouchedPosition_refl st pda
  have hne : ∀ P ∈ absentKeys e, P ≠ pda := by
    intro P hP hEq
    subst hEq
    obtain ⟨p, hp⟩ := hocc .absent (absentKeys_mem e P hP)
    cases hp
  suffices hU : UntouchedPosition st pda (processItem st e now).1 by
    exact ⟨by rw [hU.1, hq], hU⟩
  simp only [processItem]
  split
  · exact hUP0
  · split
    · exact foldl_preserve _ (fun acc => UntouchedPosition st pda acc.1) _
        (fun acc P hP hq' =>
          closeVaultStep_untouchedPos st pda e.signature e.slot e.blockTime now acc P
            hq') (st, 0) hUP0
    · set acc1 := (if "claim" ∈ e.actions then
          (absentKeys e).foldl (claimStep e.signature e.slot e.blockTime now) (st, 0)
        else (st, 0)) with hacc1def
      have hacc1 : UntouchedPosition st pda acc1.1 := by
        rw [hacc1def]
        split
        · exact foldl_preserve _ (fun acc => UntouchedPosition st pda acc.1) _
            (fun acc P hP hq' =>
              claimStep_untouchedPos st pda e.signature e.slot e.blockTime now acc P
                (hne P hP) hq') (st, 0) hUP0
        · exact hUP0
      split
      · exact hacc1
      · have hsnap : alookup acc1.1.positions pda = some q := by
          rw [hacc1.1]
          exact hq
        have hdec : UntouchedPosition st pda
            ((decodedOf e).foldl (decodedStep e.slot e.blockTime now acc1.1) acc1.1) :=
          foldl_preserve _ (fun st' => UntouchedPosition st pda st') _
            (fun st' item _ hq' =>
              decodedStep_untouchedPos st pda e.slot e.blockTime now acc1.1 st' item q s
                hsnap hslot hstale hq') acc1.1 hacc1
        exact foldl_preserve
          (activityStep e.signature e.slot e.blockTime (decodedOf e) acc1.1)
          (fun acc => UntouchedPosition st pda acc.1) e.actions
          (fun acc a _ hq' =>
            activityStep_untouchedPos st pda e.signature e.slot e.blockTime
              (decodedOf e) acc1.1 acc a hq')
          ((decodedOf e).foldl (decodedStep e.slot e.blockTime now acc1.1) acc1.1, acc1.2)
          hdec

/-- C1 amended: the stale-slot monotonicity gate holds for decoded
updates to both subject kinds — when the cached vault (resp. position)
has a non-null version s, the incoming decoded update's version is
strictly lower, and every occurrence of the subject's address in the
transaction is a decoded update of that kind, ingest leaves the stored
record, its score bindings in every ordered index (per-authority for
vaults, per-owner for positions), and its set memberships unchanged, so
the stored version is non-decreasing along the decoded write paths.
(The synthesized terminal write paths carry no such gate and can lower
the stored version, per the counterexample.) -/
theorem stale_decoded_subject_update_skipped (st : KV) (e : IngestEvent)
    (now : Nat) :
    (∀ pda v s, alookup st.vaults pda = some v → v.slot = some s →
      e.slot < s →
      (∀ fr, (pda, fr) ∈ e.accounts → ∃ d, fr = FetchResult.vault d) →
      alookup (processItem st e now).1.vaults pda = some v ∧
      UntouchedVault st pda (processItem st e now).1) ∧
    (∀ pda q s, alookup st.positions pda = some q → q.slot = some s →
      e.slot < s →
      (∀ fr, (pda, fr) ∈ e.accounts → ∃ p, fr = FetchResult.position p) →
      alookup (processItem st e now).1.positions pda = some q ∧
      UntouchedPosition st pda (processItem st e now).1) :=
  ⟨fun pda v s hv hslot hstale hocc =>
    stale_decoded_vault_update_skipped st e now pda v s hv hslot hstale hocc,
   fun pda q s hq hslot hstale hocc =>
    stale_decoded_position_update_skipped st e now pda q s hq hslot hstale hocc⟩

/-- Witness for C1 amended: one event at version 150 carrying a decoded
vault update for a vault cached at version 210 and a decoded position
update for a position cached at version 300; both stored records are
unchanged by ingest. -/
theorem stale_decoded_subject_update_skipped_witness :
    alookup (processItem c1Store c1Event 7).1.vaults "V" = some c1Vlt ∧
    alookup (processItem c1Store c1Event 7).1.positions "P" = some c1Pos := by
  have h := stale_decoded_subject_update_skipped c1Store c1Event 7
  refine ⟨(h.1 "V" c1Vlt 210 rfl rfl (by decide) ?_).1,
          (h.2 "P" c1Pos 300 rfl rfl (by decide) ?_).1⟩
  · intro fr hfr
    simp only [c1Event, List.mem_cons, Prod.mk.injEq] at hfr
    rcases hfr with ⟨_, rfl⟩ | ⟨h1, _⟩ | h3
    · exact ⟨_, rfl⟩
    · exact absurd h1 (by decide)
    · exact absurd h3 (List.not_mem_nil _)
  · intro fr hfr
    simp only [c1Event, List.mem_cons, Prod.mk.injEq] at hfr
    rcases hfr with ⟨h1, _⟩ | ⟨_, rfl⟩ | h3
    · exact absurd h1 (by decide)
    · exact ⟨_, rfl⟩
    · exact absurd h3 (List.not_mem_nil _)

end VitalFi

